import Mathlib

set_option linter.unusedVariables false

/-! Shallow embedding of the core pipeline of the pdac-trial-atlas repository
(src/scripts/ingest_clinicaltrials.py): cross-source reconciliation
(merge_ctis_overlaps), publication linkage (rebuild_trial_publications and its
helpers) and evidence-signal derivation (compute_signal_fields).

Modelling conventions, used consistently below:
- Python strings are Lean strings; a Python None in a text column is modelled
  as the empty string, which the code treats identically through _clean/is_na.
- Python str.strip/lower/upper are re-implemented over String.data for ASCII,
  which is the alphabet of every value the pipeline manipulates.
- dates that the code obtains through _parse_date are modelled as Option Int
  day numbers (none for an unparseable value); date.today() is an explicit
  today parameter.
- the SequenceMatcher title-similarity ratio (a float in the source) is an
  exact rational input; floats are modelled as exact rationals.
- the external PubMed search and summary endpoints together with their caches
  are modelled by explicit candidate lists and an association list of
  per-identifier summaries handed to the scan, which is what the strategy
  cascade derives from them. -/

def charIsSpace (c : Char) : Bool :=
  c == ' ' || c == '\t' || c == '\n' || c == '\r' || c == '\x0b' || c == '\x0c'

def listTrimLeft (l : List Char) : List Char := l.dropWhile charIsSpace

def listTrim (l : List Char) : List Char :=
  ((listTrimLeft l).reverse.dropWhile charIsSpace).reverse

/-- Python str.strip() (ASCII whitespace). -/
def strTrim (s : String) : String := ⟨listTrim s.data⟩

/-- Python str.lower() (ASCII). -/
def strLower (s : String) : String := ⟨s.data.map Char.toLower⟩

/-- Python str.upper() (ASCII). -/
def strUpper (s : String) : String := ⟨s.data.map Char.toUpper⟩

/-- _clean: strip a value, mapping None to the empty string. -/
def clean (s : String) : String := strTrim s

/-- is_na: None, blank, or the literal string na / NA after stripping. -/
def isNa (s : String) : Bool :=
  strLower (strTrim s) == "" || strLower (strTrim s) == "na"

/-- as_na: normalize missing/blank values to the literal NA. -/
def asNa (s : String) : String := if strTrim s = "" then "NA" else s

/-- Matches a literal character list at the head of a list, returning the rest. -/
def matchChars : List Char → List Char → Option (List Char)
  | rest, [] => some rest
  | [], _ :: _ => none
  | c :: cs, d :: ds => if c = d then matchChars cs ds else none

/-- Case-insensitive test that a string starts with the given (lowercase) characters. -/
def startsWithCI (s : String) (pre : List Char) : Bool :=
  (matchChars (s.data.map Char.toLower) pre).isSome

def strDrop (s : String) (n : Nat) : String := ⟨s.data.drop n⟩

/-- _normalize_doi: strip, remove one leading doi.org URL prefix
(regex anchored at the start, https or http, optional dx.), then a leading
doi: prefix with following whitespace, then strip again. -/
def normalizeDoi (raw : String) : String :=
  let t := strTrim raw
  if t = "" then ""
  else
    let t :=
      if startsWithCI t "https://dx.doi.org/".toList then strDrop t 19
      else if startsWithCI t "http://dx.doi.org/".toList then strDrop t 18
      else if startsWithCI t "https://doi.org/".toList then strDrop t 16
      else if startsWithCI t "http://doi.org/".toList then strDrop t 15
      else t
    let t := if startsWithCI t "doi:".toList then ⟨listTrimLeft (t.data.drop 4)⟩ else t
    strTrim t

/-- Association-list lookup (first match), the shallow model of a Python dict read. -/
def alookup {κ β : Type} [DecidableEq κ] : List (κ × β) → κ → Option β
  | [], _ => none
  | e :: rest, key => if e.1 = key then some e.2 else alookup rest key

/-- Association-list write with Python dict semantics: an existing key keeps its
position and gets the new value, a new key is appended. -/
def aset {κ β : Type} [DecidableEq κ] : List (κ × β) → κ → β → List (κ × β)
  | [], key, v => [(key, v)]
  | e :: rest, key, v => if e.1 = key then (key, v) :: rest else e :: aset rest key v

def removeKey {κ β : Type} [DecidableEq κ] (l : List (κ × β)) (k : κ) : List (κ × β) :=
  l.filter (fun e => e.1 ≠ k)

/-- Set-like insert keeping first-seen order. -/
def insertOnce {α : Type} [DecidableEq α] (l : List α) (x : α) : List α :=
  if x ∈ l then l else l ++ [x]

def firstDedupAux {α : Type} [DecidableEq α] : List α → List α → List α
  | [], _ => []
  | x :: xs, seen => if x ∈ seen then firstDedupAux xs seen else x :: firstDedupAux xs (x :: seen)

/-- Deduplication keeping the first occurrence (Python dict.fromkeys order). -/
def firstDedup {α : Type} [DecidableEq α] (l : List α) : List α := firstDedupAux l []

/-- One row of the trial_publications table (ClinicalTrialPublication). -/
structure Pub where
  pmid : String
  doi : String
  publicationDate : String
  publicationTitle : String
  journal : String
  matchMethod : String
  confidence : Int
  isFullMatch : String
deriving DecidableEq, Repr

/-- PUBLICATION_METHOD_CONFIDENCE with the _assign_method fallback of 70. -/
def publicationMethodConfidence (method : String) : Int :=
  if method = "pubmed_link" then 98
  else if method = "doi_reference" then 95
  else if method = "nct_exact" then 92
  else if method = "secondary_nct_exact" then 90
  else if method = "title_fuzzy" then 72
  else 70

/-- _is_full_publication_match. -/
def isFullPublicationMatch (method : String) (confidence : Int)
    (fullMatchMinConfidence : Int) : Bool :=
  if method = "pubmed_link" ∨ method = "nct_exact" ∨ method = "secondary_nct_exact" ∨
      method = "doi_reference" then true
  else decide (fullMatchMinConfidence ≤ confidence)

/-- _merge_publication_rows: fold a duplicate row into the primary row. Every
statement of the source updates a distinct field and reads no field written by
an earlier statement, so the sequential mutations are rendered field-wise; the
updated-fields boolean of the source (used only for a counter) is dropped. -/
def mergePublicationRows (primary secondary : Pub) : Pub where
  pmid := if isNa primary.pmid ∧ ¬ isNa secondary.pmid then clean secondary.pmid
    else primary.pmid
  doi := if isNa primary.doi ∧ ¬ isNa secondary.doi then normalizeDoi secondary.doi
    else primary.doi
  publicationDate := if isNa primary.publicationDate ∧ ¬ isNa secondary.publicationDate then
      clean secondary.publicationDate
    else primary.publicationDate
  publicationTitle := if isNa primary.publicationTitle ∧ ¬ isNa secondary.publicationTitle then
      clean secondary.publicationTitle
    else primary.publicationTitle
  journal := if isNa primary.journal ∧ ¬ isNa secondary.journal then clean secondary.journal
    else primary.journal
  matchMethod := if primary.confidence < secondary.confidence then secondary.matchMethod
    else primary.matchMethod
  confidence := if primary.confidence < secondary.confidence then secondary.confidence
    else primary.confidence
  isFullMatch := if primary.confidence < secondary.confidence then secondary.isFullMatch
    else if isNa primary.isFullMatch ∧ ¬ isNa secondary.isFullMatch then secondary.isFullMatch
    else primary.isFullMatch

/-- _has_recent_source_update, over the parsed last_update_date. -/
def hasRecentSourceUpdate (lastUpdateDate : Option Int) (refreshDays today : Int) : Bool :=
  if refreshDays ≤ 0 then true
  else match lastUpdateDate with
    | none => false
    | some d => decide (today - refreshDays ≤ d)

/-- _is_ready_for_retry_scan, over the parsed publication_scan_date. -/
def isReadyForRetryScan (publicationScanDate : Option Int) (retryDaysNoMatch today : Int) : Bool :=
  if retryDaysNoMatch ≤ 0 then true
  else match publicationScanDate with
    | none => true
    | some d => decide (d ≤ today - retryDaysNoMatch)

/-- _should_scan_trial_incremental. -/
def shouldScanTrialIncremental (lastUpdateDate publicationScanDate : Option Int)
    (existingPublications : List Pub) (refreshDays retryDaysNoMatch today : Int) : Bool :=
  if existingPublications.isEmpty then
    if hasRecentSourceUpdate lastUpdateDate refreshDays today then true
    else isReadyForRetryScan publicationScanDate retryDaysNoMatch today
  else
    let hasFull := existingPublications.any
      (fun p => strLower (strTrim p.isFullMatch) == "yes")
    if hasFull then hasRecentSourceUpdate lastUpdateDate refreshDays today
    else if hasRecentSourceUpdate lastUpdateDate refreshDays today then true
    else isReadyForRetryScan publicationScanDate retryDaysNoMatch today

/-- _assign_method: keep only the strictly higher-confidence method per PMID. -/
def assignMethod (m : List (String × String × Int)) (pmid method : String)
    (confidence : Option Int) : List (String × String × Int) :=
  let conf := match confidence with
    | some c => c
    | none => publicationMethodConfidence method
  match alookup m pmid with
  | none => aset m pmid (method, conf)
  | some cur => if cur.2 < conf then aset m pmid (method, conf) else m

/-- Fold of _assign_method over a list of (pmid, method, explicit confidence) proposals. -/
def assignFold (props : List (String × String × Option Int))
    (m : List (String × String × Int)) : List (String × String × Int) :=
  props.foldl (fun acc pr => assignMethod acc pr.1 pr.2.1 pr.2.2) m

/-- Effective confidence of a proposal, as _assign_method computes it. -/
def effConf (pr : String × String × Option Int) : Int :=
  pr.2.2.getD (publicationMethodConfidence pr.2.1)

/-- Python round on an exact rational: nearest integer, ties to even. -/
def roundHalfEven (q : ℚ) : Int :=
  let f : Int := q.floor
  let frac : ℚ := q - (f : ℚ)
  if frac < 1/2 then f
  else if 1/2 < frac then f + 1
  else if f % 2 = 0 then f else f + 1

/-- The similarity floor test of the fuzzy strategy, similarity below 0.38,
computed on the numerator and denominator (the ℚ arithmetic form is proved
equivalent below). -/
def belowFuzzyFloor (q : ℚ) : Bool := decide (100 * q.num < 38 * (q.den : Int))

/-- The fuzzy confidence int(round(similarity x 100)) with ties to even,
computed on the numerator and denominator (proved equal to
roundHalfEven (q * 100) below). -/
def fuzzyConfidence (q : ℚ) : Int :=
  let n : Int := 100 * q.num
  let d : Int := (q.den : Int)
  let f : Int := Int.fdiv n d
  let r : Int := n - f * d
  if 2 * r < d then f
  else if d < 2 * r then f + 1
  else if f % 2 = 0 then f else f + 1

/-- Cached metadata summary of one PMID (pubmed_summary_cache row). The
publication date field carries the already-parsed ISO date, empty when
_parse_pubmed_date fails on the raw value. -/
structure Summary where
  publicationTitle : String
  journal : String
  pubDate : String
  doi : String
deriving DecidableEq, Repr

def emptySummary : Summary := ⟨"", "", "", ""⟩

/-- Similarity assigned to a fuzzy candidate: 0 when either lowered title is
blank, else the SequenceMatcher ratio supplied with the candidate. -/
def effectiveSimilarity (trialTitle : String) (summaries : List (String × Summary))
    (cand : String × ℚ) : ℚ :=
  if strLower (clean trialTitle) = "" ∨
      strLower (clean ((alookup summaries cand.1).getD emptySummary).publicationTitle) = "" then 0
  else cand.2

/-- One iteration of the title-fuzzy fallback loop: drop the candidate below
the 0.38 similarity floor, otherwise assign title_fuzzy with
round(similarity x 100). -/
def fuzzyStep (trialTitle : String) (summaries : List (String × Summary))
    (m : List (String × String × Int)) (cand : String × ℚ) : List (String × String × Int) :=
  let sim := effectiveSimilarity trialTitle summaries cand
  if belowFuzzyFloor sim then m
  else assignMethod m cand.1 "title_fuzzy" (some (fuzzyConfidence sim))

/-- The title-fuzzy fallback loop over the search candidates. -/
def fuzzyFold (trialTitle : String) (summaries : List (String × Summary))
    (cands : List (String × ℚ)) (m : List (String × String × Int)) :
    List (String × String × Int) :=
  cands.foldl (fuzzyStep trialTitle summaries) m

/-- Row store with identifier maps, the per-trial mutable state of one
rebuild_trial_publications iteration: live publication rows keyed by a row
identity, plus the existing_by_pmid / existing_by_doi dictionaries mapping
cleaned PMIDs and normalized DOIs to row identities. -/
structure St where
  store : List (Nat × Pub)
  pmidMap : List (String × Nat)
  doiMap : List (String × Nat)
  next : Nat
deriving DecidableEq, Repr

def lookupRow : List (Nat × Pub) → Nat → Option Pub
  | [], _ => none
  | e :: rest, i => if e.1 = i then some e.2 else lookupRow rest i

/-- In-place row mutation: replace the row stored under identity i. -/
def setRow (store : List (Nat × Pub)) (i : Nat) (p : Pub) : List (Nat × Pub) :=
  store.map (fun e => if e.1 = i then (i, p) else e)

/-- Deduplication step for one existing row (rebuild_trial_publications lines
building existing_by_pmid / existing_by_doi): a row whose cleaned PMID or
normalized DOI is already keyed is merged into that primary row and deleted,
otherwise the row is kept and keyed. -/
def phaseAStep (st : St) (ip : Nat × Pub) : St :=
  let pmidKey := clean ip.2.pmid
  let doiKey := normalizeDoi ip.2.doi
  let primary :=
    match (if pmidKey ≠ "" then alookup st.pmidMap pmidKey else none) with
    | some j => some j
    | none => if doiKey ≠ "" then alookup st.doiMap doiKey else none
  match primary with
  | some j =>
    let store :=
      match lookupRow st.store j with
      | some prim => setRow st.store j (mergePublicationRows prim ip.2)
      | none => st.store
    { st with
      store := store,
      pmidMap := if pmidKey ≠ "" then aset st.pmidMap pmidKey j else st.pmidMap,
      doiMap := if doiKey ≠ "" then aset st.doiMap doiKey j else st.doiMap }
  | none =>
    { st with
      store := st.store ++ [ip],
      pmidMap := if pmidKey ≠ "" then aset st.pmidMap pmidKey ip.1 else st.pmidMap,
      doiMap := if doiKey ≠ "" then aset st.doiMap doiKey ip.1 else st.doiMap }

def initSt (n : Nat) : St := ⟨[], [], [], n⟩

/-- Phase A of one trial's linkage pass: deduplicate the stored rows of the
trial, indexed by their position in the publications table. -/
def phaseA (pubs : List Pub) : St := pubs.enum.foldl phaseAStep (initSt pubs.length)

/-- Identities of the unique existing rows (the id-keyed dictionary built from
existing_by_pmid.values() followed by existing_by_doi.values()). -/
def uniqueIds (st : St) : List Nat :=
  firstDedup (st.pmidMap.map Prod.snd ++ st.doiMap.map Prod.snd)

/-- Re-derive the full-match flag of a surviving row from its stored method and
confidence against the configured threshold. -/
def recomputeFlag (threshold : Int) (p : Pub) : Pub :=
  let expected := if isFullPublicationMatch (clean p.matchMethod) p.confidence threshold
    then "yes" else "no"
  if strLower (strTrim p.isFullMatch) ≠ expected then { p with isFullMatch := expected } else p

/-- Phase B of one trial's linkage pass: recompute the full-match flag of every
surviving keyed row before the incremental-scan decision. -/
def phaseB (threshold : Int) (st : St) : St :=
  (uniqueIds st).foldl
    (fun s i =>
      match lookupRow s.store i with
      | some p => { s with store := setRow s.store i (recomputeFlag threshold p) }
      | none => s)
    st

def phaseAB (threshold : Int) (pubs : List Pub) : St := phaseB threshold (phaseA pubs)

/-- The unique surviving rows of a trial, as handed to the scheduling check. -/
def existingRows (st : St) : List Pub := (uniqueIds st).filterMap (lookupRow st.store)

/-- Fill-if-missing metadata updates applied to an existing row matched during
the scan (publication date, title, journal, DOI). -/
def scanFill (summary : Summary) (pubDate doi : String) (ex : Pub) : Pub :=
  let ex := if pubDate ≠ "" ∧ isNa ex.publicationDate then
      { ex with publicationDate := pubDate } else ex
  let ex := if clean summary.publicationTitle ≠ "" ∧ isNa ex.publicationTitle then
      { ex with publicationTitle := clean summary.publicationTitle } else ex
  let ex := if clean summary.journal ≠ "" ∧ isNa ex.journal then
      { ex with journal := clean summary.journal } else ex
  let ex := if doi ≠ "" ∧ isNa ex.doi then { ex with doi := doi } else ex
  ex

/-- Confidence-promotion step on an existing row: overwrite method, confidence
and flag when the new confidence is at least the stored one, otherwise align
only the flag with the full-match value of the new evidence. -/
def scanFinal (shouldUpdate : Bool) (method : String) (conf : Int) (fullValue : String)
    (ex : Pub) : Pub :=
  if shouldUpdate then
    { ex with matchMethod := method, confidence := conf, isFullMatch := fullValue }
  else if strLower (strTrim ex.isFullMatch) ≠ fullValue then { ex with isFullMatch := fullValue }
  else ex

/-- Working state of the scan loop: row store plus the raw_dois, dois_with_pmid
and seen_pmids sets. -/
structure CState where
  st : St
  rawDois : List String
  doisWithPmid : List String
  seen : List String
deriving DecidableEq, Repr

/-- One iteration of the per-PMID row upsert loop of the scan. -/
def phaseCStep (threshold : Int) (summaries : List (String × Summary))
    (m : List (String × String × Int)) (cs : CState) (pmid : String) : CState :=
  if pmid ∈ cs.seen then cs
  else
    let cs := { cs with seen := pmid :: cs.seen }
    let summary := (alookup summaries pmid).getD emptySummary
    let mc := (alookup m pmid).getD ("title_fuzzy", 70)
    let method := mc.1
    let conf := mc.2
    let pubDate := summary.pubDate
    let doi := normalizeDoi summary.doi
    let cs := if doi ≠ "" then
        { cs with rawDois := insertOnce cs.rawDois doi,
                  doisWithPmid := insertOnce cs.doisWithPmid doi }
      else cs
    let fullValue := if isFullPublicationMatch method conf threshold then "yes" else "no"
    match alookup cs.st.pmidMap pmid with
    | some i =>
      match lookupRow cs.st.store i with
      | none => cs
      | some ex =>
        let ex1 := scanFinal (decide (ex.confidence ≤ conf)) method conf fullValue
          (scanFill summary pubDate doi ex)
        { cs with st :=
          { cs.st with
            store := setRow cs.st.store i ex1,
            pmidMap := aset cs.st.pmidMap pmid i,
            doiMap := if doi ≠ "" then aset cs.st.doiMap doi i else cs.st.doiMap } }
    | none =>
      let cand :=
        if doi ≠ "" then
          match alookup cs.st.doiMap doi with
          | some j =>
            match lookupRow cs.st.store j with
            | some cnd =>
              if clean cnd.pmid ≠ "" ∧ clean cnd.pmid ≠ pmid then none else some (j, cnd)
            | none => none
          | none => none
        else none
      match cand with
      | some jc =>
        let cnd := if clean jc.2.pmid = "" then { jc.2 with pmid := pmid } else jc.2
        let ex1 := scanFinal (decide (cnd.confidence ≤ conf)) method conf fullValue
          (scanFill summary pubDate doi cnd)
        { cs with st :=
          { cs.st with
            store := setRow cs.st.store jc.1 ex1,
            pmidMap := aset cs.st.pmidMap pmid jc.1,
            doiMap := if doi ≠ "" then aset cs.st.doiMap doi jc.1 else cs.st.doiMap } }
      | none =>
        let newRow : Pub :=
          { pmid := pmid,
            doi := doi,
            publicationDate := if pubDate ≠ "" then pubDate else "NA",
            publicationTitle := if clean summary.publicationTitle ≠ "" then
                clean summary.publicationTitle else "NA",
            journal := if clean summary.journal ≠ "" then clean summary.journal else "NA",
            matchMethod := method,
            confidence := conf,
            isFullMatch := fullValue }
        { cs with st :=
          { store := cs.st.store ++ [(cs.st.next, newRow)],
            pmidMap := aset cs.st.pmidMap pmid cs.st.next,
            doiMap := if doi ≠ "" then aset cs.st.doiMap doi cs.st.next else cs.st.doiMap,
            next := cs.st.next + 1 } }

/-- One iteration of the trailing DOI-only loop: keep DOI records that have no
PMID mapping, promoting an existing row to full match or inserting a
doi_reference row. -/
def doiOnlyStep (doisWithPmid : List String) (st : St) (doi : String) : St :=
  if doi = "" then st
  else if doi ∈ doisWithPmid then st
  else
    match alookup st.doiMap doi with
    | some i =>
      match lookupRow st.store i with
      | none => st
      | some ex =>
        if strLower (strTrim ex.isFullMatch) ≠ "yes" then
          { st with store := setRow st.store i { ex with isFullMatch := "yes" } }
        else st
    | none =>
      let newRow : Pub :=
        { pmid := "", doi := doi, publicationDate := "NA", publicationTitle := "NA",
          journal := "NA", matchMethod := "doi_reference",
          confidence := publicationMethodConfidence "doi_reference", isFullMatch := "yes" }
      { st with
        store := st.store ++ [(st.next, newRow)],
        doiMap := aset st.doiMap doi st.next,
        next := st.next + 1 }

def sortStrings (l : List String) : List String := l.insertionSort (fun a b => a ≤ b)

/-- Inputs of one trial's scan, as derived from the trial record, the strategy
cascade and the caches: the full-match threshold, the per-trial link cap, the
title-lookup budget, the trial title, the (pmid, method, confidence) proposals
of strategies 1-3, the fuzzy candidates with their title-similarity ratios, the
per-PMID summaries, and the DOIs extracted from the trial's pubmed_links. -/
structure ScanInput where
  threshold : Int
  maxLinks : Nat
  maxTitleLookups : Int
  trialTitle : String
  seedProposals : List (String × String × Option Int)
  fuzzyCands : List (String × ℚ)
  summaries : List (String × Summary)
  rawDois0 : List String
deriving DecidableEq

/-- The scan portion of one trial's linkage pass: build method_by_pmid from the
strategy proposals, run the title-fuzzy fallback when no candidate exists yet,
then upsert a row per retained PMID and keep DOI-only records. -/
def runScan (inp : ScanInput) (st : St) : St :=
  let m0 := assignFold inp.seedProposals []
  let m := if m0.isEmpty ∧ 0 < inp.maxTitleLookups then
      fuzzyFold inp.trialTitle inp.summaries inp.fuzzyCands m0
    else m0
  let pmids := (m.map Prod.fst).take inp.maxLinks
  let dwp0 := ((existingRows st).filterMap
    (fun p => if clean p.pmid ≠ "" ∧ normalizeDoi p.doi ≠ "" then
        some (normalizeDoi p.doi) else none)).foldl insertOnce []
  let raw0 := inp.rawDois0.foldl insertOnce []
  let cs := pmids.foldl (phaseCStep inp.threshold inp.summaries m) (CState.mk st raw0 dwp0 [])
  (sortStrings cs.rawDois).foldl (doiOnlyStep cs.doisWithPmid) cs.st

/-- Scheduling inputs of one trial: parsed last_update_date and
publication_scan_date, today, and the refresh / retry windows. -/
structure SchedInput where
  lastUpdateDate : Option Int
  publicationScanDate : Option Int
  today : Int
  refreshDays : Int
  retryDaysNoMatch : Int
deriving DecidableEq, Repr

/-- One trial's complete linkage pass: deduplicate stored rows, re-derive their
flags, then either skip the trial under the incremental schedule or run the
scan. The boolean reports whether the trial was scanned. -/
def fullTrialPass (sched : SchedInput) (inp : ScanInput) (incrementalMode : Bool)
    (pubs : List Pub) : St × Bool :=
  let st := phaseAB inp.threshold pubs
  if incrementalMode ∧
      ¬ shouldScanTrialIncremental sched.lastUpdateDate sched.publicationScanDate
        (existingRows st) sched.refreshDays sched.retryDaysNoMatch sched.today then
    (st, false)
  else (runScan inp st, true)

def isWordChar (c : Char) : Bool := c.isAlphanum || c == '_'

/-- Match one phase alternative at the head of a character list: the literal
word phase, any run of whitespace, the given numeral characters, and, for the
roman numerals, a trailing word boundary. -/
def phasePatAt (cs : List Char) (lit : List Char) (boundary : Bool) : Bool :=
  match matchChars cs ['p', 'h', 'a', 's', 'e'] with
  | none => false
  | some rest =>
    match matchChars (rest.dropWhile charIsSpace) lit with
    | none => false
    | some rest2 =>
      if boundary then
        match rest2 with
        | [] => true
        | c :: _ => ! isWordChar c
      else true

/-- Regex search: does the phase alternative match at any position? -/
def phaseSearch (lit : List Char) (boundary : Bool) : List Char → Bool
  | [] => false
  | c :: rest => phasePatAt (c :: rest) lit boundary || phaseSearch lit boundary rest

/-- phase_1 of compute_signal_fields: the lowered phase string contains
phase-then-i-with-boundary or phase-then-digit-1. -/
def phase1Present (phase : String) : Bool :=
  phaseSearch ['i'] true (strLower phase).data || phaseSearch ['1'] false (strLower phase).data

/-- phase_2 of compute_signal_fields. -/
def phase2Present (phase : String) : Bool :=
  phaseSearch ['i', 'i'] true (strLower phase).data ||
    phaseSearch ['2'] false (strLower phase).data

/-- phase_3 of compute_signal_fields. -/
def phase3Present (phase : String) : Bool :=
  phaseSearch ['i', 'i', 'i'] true (strLower phase).data ||
    phaseSearch ['3'] false (strLower phase).data

/-- phase_4 of compute_signal_fields. -/
def phase4Present (phase : String) : Bool :=
  phaseSearch ['i', 'v'] true (strLower phase).data ||
    phaseSearch ['4'] false (strLower phase).data

/-- phase_only_1 of compute_signal_fields. -/
def phaseOnly1 (phase : String) : Bool :=
  phase1Present phase && ! (phase2Present phase || phase3Present phase || phase4Present phase)

/-- phase_ge_2 of compute_signal_fields. -/
def phaseGe2Signal (phase : String) : Bool :=
  phase2Present phase || phase3Present phase || phase4Present phase

/-- _is_phase_ge_2 (used by the scan priority order): cleaned and lowered value,
empty gives false. -/
def isPhaseGe2 (phaseValue : String) : Bool :=
  let raw := (strLower (clean phaseValue)).data
  if raw = [] then false
  else
    phaseSearch ['i', 'i'] true raw || phaseSearch ['2'] false raw ||
      phaseSearch ['i', 'i', 'i'] true raw || phaseSearch ['3'] false raw ||
      phaseSearch ['i', 'v'] true raw || phaseSearch ['4'] false raw

/-- Substring search for a literal character sequence. -/
def containsChars (needle : List Char) : List Char → Bool
  | [] => (matchChars ([] : List Char) needle).isSome
  | c :: rest => (matchChars (c :: rest) needle).isSome || containsChars needle rest

/-- status_terminal of compute_signal_fields: lowered status contains completed
or terminated. -/
def statusTerminalSignal (status : String) : Bool :=
  containsChars "completed".toList (strLower status).data ||
    containsChars "terminated".toList (strLower status).data

/-- has_pubmed of compute_signal_fields: stripped pubmed_links is non-empty and
its upper case form is not NA. -/
def hasPubmedSignal (pubmedLinks : String) : Bool :=
  (strTrim pubmedLinks != "") && (strUpper (strTrim pubmedLinks) != "NA")

/-- Whether the trial has at least one full-match publication row, the
predicate refresh_trial_publication_summary filters on. -/
def hasFullMatchRecord (pubs : List Pub) : Bool :=
  pubs.any (fun p => p.isFullMatch == "yes")

/-- older_than_5y of compute_signal_fields over the parsed primary completion
date; a missing date compares false. -/
def olderThan5y (completion : Option Int) (today : Int) : Bool :=
  match completion with
  | none => false
  | some d => decide (1825 ≤ today - d)

/-- evidence_strength of compute_signal_fields (np.select, first rule wins). -/
def evidenceStrengthSignal (phase status pubmedLinks : String) (completion : Option Int)
    (today : Int) : String :=
  if statusTerminalSignal status && ! hasPubmedSignal pubmedLinks &&
      olderThan5y completion today then "very_low"
  else if phase3Present phase && hasPubmedSignal pubmedLinks then "high"
  else if phase2Present phase && hasPubmedSignal pubmedLinks then "medium"
  else if phaseOnly1 phase then "low"
  else "unknown"

/-- dead_end of compute_signal_fields. -/
def deadEndSignal (phase status pubmedLinks : String) (completion : Option Int)
    (today : Int) : Bool :=
  phaseGe2Signal phase && statusTerminalSignal status && ! hasPubmedSignal pubmedLinks &&
    olderThan5y completion today

/-- Python sep.join. -/
def joinSep (sep : String) : List String → String
  | [] => ""
  | [x] => x
  | x :: xs => x ++ sep ++ joinSep sep xs

/-- _join_non_empty. -/
def joinNonEmpty (values : List String) (sep : String) : String :=
  joinSep sep ((values.map clean).filter (fun v => v ≠ ""))

/-- Ordering used by refresh_trial_publication_summary: confidence descending,
then publication date ascending. -/
def pubSummaryOrder (a b : Pub) : Prop :=
  b.confidence < a.confidence ∨ (a.confidence = b.confidence ∧ a.publicationDate ≤ b.publicationDate)

instance : DecidableRel pubSummaryOrder := fun a b => by
  unfold pubSummaryOrder; infer_instance

/-- The has_results and pubmed_links portion of refresh_trial_publication_summary
for one trial: with at least one full-match row, force has_results to yes and
rebuild pubmed_links from the numeric PMIDs of the full-match rows; the
publication_date portion of the source updates an independent column and is not
needed by any claim. -/
def refreshLinksOne (hasResults pubmedLinks : String) (pubs : List Pub) : String × String :=
  let fullPubs := (pubs.filter (fun p => p.isFullMatch == "yes")).insertionSort pubSummaryOrder
  if fullPubs.isEmpty then (hasResults, pubmedLinks)
  else
    let hr := if strLower (strTrim hasResults) ≠ "yes" then "yes" else hasResults
    let pmids := firstDedup (fullPubs.filterMap
      (fun p =>
        if clean p.pmid ≠ "" ∧ (clean p.pmid).data.all Char.isDigit then some (clean p.pmid)
        else none))
    let links := joinNonEmpty (pmids.map
      (fun pm => "https://pubmed.ncbi.nlm.nih.gov/" ++ pm ++ "/")) " | "
    (hr, if links ≠ "" then links else pubmedLinks)

/-- _split_values: split on the separator, keep stripped chunks that are
non-blank and not the literal na. -/
def splitValues (value sep : String) : List String :=
  if isNa value then []
  else ((value.splitOn sep).filter
    (fun x => strTrim x ≠ "" ∧ strLower (strTrim x) ≠ "na")).map strTrim

def mergeValuesGo : List String → List String → List String → List String
  | [], _, out => out.reverse
  | x :: xs, seen, out =>
    if strLower x ∈ seen then mergeValuesGo xs seen out
    else mergeValuesGo xs (strLower x :: seen) (x :: out)

/-- _merge_values: union of the two split lists with case-insensitive
deduplication, preserving first-seen order. -/
def mergeValues (a b sep : String) : String :=
  joinSep sep (mergeValuesGo (splitValues a sep ++ splitValues b sep) [] [])

/-- Shape check of _parse_date_key: four digits, optionally followed by one or
two dash-and-two-digit groups. -/
def isDateKeyShape (s : String) : Bool :=
  match s.data with
  | [a, b, c, d] => a.isDigit && b.isDigit && c.isDigit && d.isDigit
  | [a, b, c, d, h1, e, f] =>
    a.isDigit && b.isDigit && c.isDigit && d.isDigit && h1 == '-' && e.isDigit && f.isDigit
  | [a, b, c, d, h1, e, f, h2, g, k] =>
    a.isDigit && b.isDigit && c.isDigit && d.isDigit && h1 == '-' && e.isDigit && f.isDigit &&
      h2 == '-' && g.isDigit && k.isDigit
  | _ => false

/-- _parse_date_key: the stripped value when it has the date-key shape, else
the empty string. -/
def parseDateKey (value : String) : String :=
  if isNa value then ""
  else if isDateKeyShape (strTrim value) then strTrim value else ""

/-- The fields of a clinical_trials row that merge_ctis_overlaps reads or
writes; fields the function never references are omitted since it cannot
change them. -/
structure Trial where
  source : String
  secondaryId : String
  trialLink : String
  sponsor : String
  status : String
  studyType : String
  phase : String
  studyDesign : String
  interventionTypes : String
  focusTags : String
  pubmedLinks : String
  hasResults : String
  resultsLastUpdate : String
  lastUpdateDate : String
  therapeuticClass : String
  pdacMatchReason : String
deriving DecidableEq, Repr

/-- The clinical_trial_details satellite row. -/
structure Details where
  conditions : String
  interventions : String
  primaryOutcomes : String
  secondaryOutcomes : String
  inclusionCriteria : String
  exclusionCriteria : String
  locations : String
  briefSummary : String
  detailedDescription : String
deriving DecidableEq, Repr

def emptyDetails : Details := ⟨"", "", "", "", "", "", "", "", ""⟩

/-- The canonical store: trials and details keyed by nct_id. -/
structure DB where
  trials : List (String × Trial)
  details : List (String × Details)
deriving DecidableEq, Repr

/-- SQLite LIKE NCT% (case-insensitive for ASCII). -/
def nctLike (s : String) : Bool := startsWithCI s ['n', 'c', 't']

/-- The candidate rows of merge_ctis_overlaps: source equals ctis and
secondary_id LIKE NCT%. -/
def ctisCandidates (db : DB) : List String :=
  (db.trials.filter (fun kv => kv.2.source == "ctis" && nctLike kv.2.secondaryId)).map Prod.fst

/-- Field folding of merge_ctis_overlaps on the surviving trial record. Every
statement of the source updates a distinct field and reads no field written by
an earlier statement, so the sequential mutations are rendered field-wise. -/
def mergeTrialInto (us eu : Trial) (euId : String) : Trial where
  source := "clinicaltrials.gov+ctis"
  secondaryId := asNa (mergeValues us.secondaryId euId ", ")
  trialLink := asNa (mergeValues us.trialLink eu.trialLink " | ")
  sponsor := if isNa us.sponsor ∧ ¬ isNa eu.sponsor then eu.sponsor else us.sponsor
  status := if isNa us.status ∧ ¬ isNa eu.status then eu.status else us.status
  studyType := if isNa us.studyType ∧ ¬ isNa eu.studyType then eu.studyType else us.studyType
  phase := if isNa us.phase ∧ ¬ isNa eu.phase then eu.phase else us.phase
  studyDesign :=
    if isNa us.studyDesign ∧ ¬ isNa eu.studyDesign then eu.studyDesign else us.studyDesign
  interventionTypes := asNa (mergeValues us.interventionTypes eu.interventionTypes ", ")
  focusTags := asNa (mergeValues us.focusTags eu.focusTags ",")
  pubmedLinks := asNa (mergeValues us.pubmedLinks eu.pubmedLinks " | ")
  hasResults := if strLower (strTrim eu.hasResults) = "yes" then "yes" else us.hasResults
  resultsLastUpdate :=
    if parseDateKey eu.resultsLastUpdate ≠ "" ∧
        (parseDateKey us.resultsLastUpdate = "" ∨
          parseDateKey us.resultsLastUpdate < parseDateKey eu.resultsLastUpdate) then
      parseDateKey eu.resultsLastUpdate
    else us.resultsLastUpdate
  lastUpdateDate :=
    if parseDateKey eu.lastUpdateDate ≠ "" ∧
        (parseDateKey us.lastUpdateDate = "" ∨
          parseDateKey us.lastUpdateDate < parseDateKey eu.lastUpdateDate) then
      parseDateKey eu.lastUpdateDate
    else us.lastUpdateDate
  therapeuticClass :=
    if (strLower (strTrim us.therapeuticClass) = "" ∨
        strLower (strTrim us.therapeuticClass) = "na" ∨
        strLower (strTrim us.therapeuticClass) = "context_classified") ∧
        ¬ isNa eu.therapeuticClass then
      eu.therapeuticClass
    else us.therapeuticClass
  pdacMatchReason :=
    if (strLower (strTrim us.pdacMatchReason) = "" ∨
        strLower (strTrim us.pdacMatchReason) = "na" ∨
        strLower (strTrim us.pdacMatchReason) = "unknown_match") ∧
        ¬ isNa eu.pdacMatchReason then
      eu.pdacMatchReason
    else us.pdacMatchReason

/-- Field folding of merge_ctis_overlaps on the surviving details row, rendered
field-wise like the trial merge. -/
def mergeDetailsInto (usd eud : Details) : Details where
  conditions := asNa (mergeValues usd.conditions eud.conditions " | ")
  interventions := asNa (mergeValues usd.interventions eud.interventions " | ")
  primaryOutcomes := asNa (mergeValues usd.primaryOutcomes eud.primaryOutcomes " | ")
  secondaryOutcomes := asNa (mergeValues usd.secondaryOutcomes eud.secondaryOutcomes " | ")
  locations := asNa (mergeValues usd.locations eud.locations " | ")
  inclusionCriteria :=
    if isNa usd.inclusionCriteria ∧ ¬ isNa eud.inclusionCriteria then eud.inclusionCriteria
    else usd.inclusionCriteria
  exclusionCriteria :=
    if isNa usd.exclusionCriteria ∧ ¬ isNa eud.exclusionCriteria then eud.exclusionCriteria
    else usd.exclusionCriteria
  briefSummary :=
    if isNa usd.briefSummary ∧ ¬ isNa eud.briefSummary then eud.briefSummary
    else usd.briefSummary
  detailedDescription :=
    if isNa usd.detailedDescription ∧ ¬ isNa eud.detailedDescription then eud.detailedDescription
    else usd.detailedDescription

/-- Processing of one candidate row of merge_ctis_overlaps: resolve its
secondary identifier; an empty, unresolvable or self-referential target skips
the row, otherwise fold the row into the target and delete it (returning true
for the merged counter). -/
def mergeCtisStep (db : DB) (euId : String) : DB × Bool :=
  match alookup db.trials euId with
  | none => (db, false)
  | some eu =>
    let nct := strTrim eu.secondaryId
    if nct = "" then (db, false)
    else
      match alookup db.trials nct with
      | none => (db, false)
      | some us =>
        if nct = euId then (db, false)
        else
          let us1 := mergeTrialInto us eu euId
          let usd := (alookup db.details nct).getD emptyDetails
          let usd1 :=
            match alookup db.details euId with
            | some eud => mergeDetailsInto usd eud
            | none => usd
          (⟨removeKey (aset db.trials nct us1) euId,
            removeKey (aset db.details nct usd1) euId⟩, true)

/-- merge_ctis_overlaps: process every candidate in table order, returning the
new store and the merged counter. -/
def mergeCtisOverlaps (db : DB) : DB × Nat :=
  (ctisCandidates db).foldl
    (fun acc euId =>
      let r := mergeCtisStep acc.1 euId
      (r.1, acc.2 + (if r.2 then 1 else 0)))
    (db, 0)

theorem aset_cons {κ β : Type} [DecidableEq κ] (e : κ × β) (rest : List (κ × β)) (k : κ)
    (v : β) : aset (e :: rest) k v = if e.1 = k then (k, v) :: rest else e :: aset rest k v :=
  rfl

theorem alookup_cons {κ β : Type} [DecidableEq κ] (e : κ × β) (rest : List (κ × β)) (k : κ) :
    alookup (e :: rest) k = if e.1 = k then some e.2 else alookup rest k := rfl

theorem setRow_cons (e : Nat × Pub) (rest : List (Nat × Pub)) (i : Nat) (p : Pub) :
    setRow (e :: rest) i p = (if e.1 = i then (i, p) else e) :: setRow rest i p := by
  simp [setRow]

theorem lookupRow_cons (e : Nat × Pub) (rest : List (Nat × Pub)) (i : Nat) :
    lookupRow (e :: rest) i = if e.1 = i then some e.2 else lookupRow rest i := rfl

theorem alookup_aset_self {κ β : Type} [DecidableEq κ] (l : List (κ × β)) (k : κ) (v : β) :
    alookup (aset l k v) k = some v := by
  induction l with
  | nil => simp [aset, alookup]
  | cons e rest ih =>
    by_cases h : e.1 = k
    · simp [aset_cons, h, alookup_cons]
    · simp [aset_cons, h, alookup_cons, ih]

theorem alookup_aset_ne {κ β : Type} [DecidableEq κ] (l : List (κ × β)) (k k' : κ) (v : β)
    (h : k' ≠ k) : alookup (aset l k v) k' = alookup l k' := by
  induction l with
  | nil => simp [aset, alookup, Ne.symm h]
  | cons e rest ih =>
    by_cases he : e.1 = k
    · rw [aset_cons, if_pos he, alookup_cons, alookup_cons]
      rw [if_neg (fun hk => h hk.symm)]
      rw [if_neg (fun hk : e.1 = k' => h ((he.symm.trans hk).symm))]
    · rw [aset_cons, if_neg he, alookup_cons, alookup_cons]
      by_cases he' : e.1 = k'
      · rw [if_pos he', if_pos he']
      · rw [if_neg he', if_neg he', ih]

theorem alookup_mem {κ β : Type} [DecidableEq κ] {l : List (κ × β)} {k : κ} {v : β}
    (h : alookup l k = some v) : (k, v) ∈ l := by
  induction l with
  | nil => simp [alookup] at h
  | cons e rest ih =>
    by_cases he : e.1 = k
    · rw [alookup_cons, if_pos he] at h
      have h2 : e = (k, v) := by
        cases h
        calc e = (e.1, e.2) := rfl
          _ = (k, e.2) := by rw [he]
      rw [← h2]
      exact List.mem_cons_self e rest
    · rw [alookup_cons, if_neg he] at h
      exact List.mem_cons_of_mem _ (ih h)

theorem mem_alookup {κ β : Type} [DecidableEq κ] {l : List (κ × β)} {k : κ} {v : β}
    (hnd : (l.map Prod.fst).Nodup) (h : (k, v) ∈ l) : alookup l k = some v := by
  induction l with
  | nil => simp at h
  | cons e rest ih =>
    rw [List.map_cons, List.nodup_cons] at hnd
    rcases List.mem_cons.mp h with h1 | h1
    · rw [alookup_cons, ← h1]
      simp
    · have he : e.1 ≠ k := by
        intro hk
        exact hnd.1 (hk ▸ List.mem_map.mpr ⟨(k, v), h1, rfl⟩)
      rw [alookup_cons, if_neg he]
      exact ih hnd.2 h1

theorem alookup_isSome_of_mem {κ β : Type} [DecidableEq κ] {l : List (κ × β)} {k : κ} {v : β}
    (h : (k, v) ∈ l) : ∃ w, alookup l k = some w := by
  induction l with
  | nil => simp at h
  | cons e rest ih =>
    by_cases he : e.1 = k
    · exact ⟨e.2, by rw [alookup_cons, if_pos he]⟩
    · rcases List.mem_cons.mp h with h1 | h1
      · exact absurd (by rw [← h1]) he
      · rw [alookup_cons, if_neg he]
        exact ih h1

theorem lookupRow_mem {store : List (Nat × Pub)} {i : Nat} {r : Pub}
    (h : lookupRow store i = some r) : (i, r) ∈ store := by
  induction store with
  | nil => simp [lookupRow] at h
  | cons e rest ih =>
    by_cases he : e.1 = i
    · rw [lookupRow_cons, if_pos he] at h
      have h2 : e = (i, r) := by
        cases h
        calc e = (e.1, e.2) := rfl
          _ = (i, e.2) := by rw [he]
      rw [← h2]
      exact List.mem_cons_self e rest
    · rw [lookupRow_cons, if_neg he] at h
      exact List.mem_cons_of_mem _ (ih h)

theorem mem_lookupRow {store : List (Nat × Pub)} {i : Nat} {r : Pub}
    (hnd : (store.map Prod.fst).Nodup) (h : (i, r) ∈ store) : lookupRow store i = some r := by
  induction store with
  | nil => simp at h
  | cons e rest ih =>
    rw [List.map_cons, List.nodup_cons] at hnd
    rcases List.mem_cons.mp h with h1 | h1
    · rw [lookupRow_cons, ← h1]
      simp
    · have he : e.1 ≠ i := by
        intro hk
        exact hnd.1 (hk ▸ List.mem_map.mpr ⟨(i, r), h1, rfl⟩)
      rw [lookupRow_cons, if_neg he]
      exact ih hnd.2 h1

theorem lookupRow_append_left {s t : List (Nat × Pub)} {i : Nat} {r : Pub}
    (h : lookupRow s i = some r) : lookupRow (s ++ t) i = some r := by
  induction s with
  | nil => simp [lookupRow] at h
  | cons e rest ih =>
    by_cases he : e.1 = i
    · rw [lookupRow_cons, if_pos he] at h
      rw [List.cons_append, lookupRow_cons, if_pos he]
      exact h
    · rw [lookupRow_cons, if_neg he] at h
      rw [List.cons_append, lookupRow_cons, if_neg he]
      exact ih h

theorem lookupRow_append_right {s t : List (Nat × Pub)} {i : Nat}
    (h : lookupRow s i = none) : lookupRow (s ++ t) i = lookupRow t i := by
  induction s with
  | nil => simp
  | cons e rest ih =>
    by_cases he : e.1 = i
    · rw [lookupRow_cons, if_pos he] at h
      exact absurd h (by simp)
    · rw [lookupRow_cons, if_neg he] at h
      rw [List.cons_append, lookupRow_cons, if_neg he]
      exact ih h

theorem setRow_map_fst (store : List (Nat × Pub)) (i : Nat) (p : Pub) :
    (setRow store i p).map Prod.fst = store.map Prod.fst := by
  induction store with
  | nil => simp [setRow]
  | cons e rest ih =>
    rw [setRow_cons, List.map_cons, List.map_cons, ih]
    by_cases he : e.1 = i
    · rw [if_pos he]
      simp [he]
    · rw [if_neg he]

theorem lookupRow_setRow_self {store : List (Nat × Pub)} {i : Nat} {r : Pub} (p : Pub)
    (h : lookupRow store i = some r) : lookupRow (setRow store i p) i = some p := by
  induction store with
  | nil => simp [lookupRow] at h
  | cons e rest ih =>
    by_cases he : e.1 = i
    · rw [setRow_cons, if_pos he, lookupRow_cons]
      simp
    · rw [lookupRow_cons, if_neg he] at h
      rw [setRow_cons, if_neg he, lookupRow_cons, if_neg he]
      exact ih h

theorem lookupRow_setRow_ne {store : List (Nat × Pub)} {i j : Nat} (p : Pub) (h : j ≠ i) :
    lookupRow (setRow store i p) j = lookupRow store j := by
  induction store with
  | nil => simp [setRow, lookupRow]
  | cons e rest ih =>
    by_cases he : e.1 = i
    · rw [setRow_cons, if_pos he, lookupRow_cons, lookupRow_cons]
      rw [if_neg (fun hk : i = j => h hk.symm)]
      rw [if_neg (fun hk : e.1 = j => h ((he.symm.trans hk).symm))]
      exact ih
    · rw [setRow_cons, if_neg he, lookupRow_cons, lookupRow_cons]
      by_cases he' : e.1 = j
      · rw [if_pos he', if_pos he']
      · rw [if_neg he', if_neg he', ih]

theorem setRow_eq_of_none {store : List (Nat × Pub)} {i : Nat} (p : Pub)
    (h : lookupRow store i = none) : setRow store i p = store := by
  induction store with
  | nil => simp [setRow]
  | cons e rest ih =>
    by_cases he : e.1 = i
    · rw [lookupRow_cons, if_pos he] at h
      exact absurd h (by simp)
    · rw [lookupRow_cons, if_neg he] at h
      rw [setRow_cons, if_neg he, ih h]

theorem mem_setRow {store : List (Nat × Pub)} {i : Nat} {p : Pub} {e : Nat × Pub}
    (h : e ∈ setRow store i p) :
    ∃ e0 ∈ store, e = (if e0.1 = i then (i, p) else e0) := by
  rcases List.mem_map.mp h with ⟨e0, he0, heq⟩
  exact ⟨e0, he0, heq.symm⟩

theorem mem_firstDedupAux {α : Type} [DecidableEq α] {l seen : List α} {x : α} :
    x ∈ firstDedupAux l seen ↔ x ∈ l ∧ x ∉ seen := by
  induction l generalizing seen with
  | nil => simp [firstDedupAux]
  | cons y ys ih =>
    by_cases hy : y ∈ seen
    · simp only [firstDedupAux, if_pos hy, ih, List.mem_cons]
      constructor
      · rintro ⟨h1, h2⟩
        exact ⟨Or.inr h1, h2⟩
      · rintro ⟨h1 | h1, h2⟩
        · exact absurd (h1 ▸ hy) h2
        · exact ⟨h1, h2⟩
    · simp only [firstDedupAux, if_neg hy, List.mem_cons, ih]
      constructor
      · rintro (h1 | ⟨h1, h2⟩)
        · exact ⟨Or.inl h1, h1 ▸ hy⟩
        · simp at h2
          exact ⟨Or.inr h1, h2.2⟩
      · rintro ⟨h1 | h1, h2⟩
        · exact Or.inl h1
        · by_cases hx : x = y
          · exact Or.inl hx
          · exact Or.inr ⟨h1, by simp [hx, h2]⟩

theorem mem_firstDedup {α : Type} [DecidableEq α] {l : List α} {x : α} :
    x ∈ firstDedup l ↔ x ∈ l := by
  simp [firstDedup, mem_firstDedupAux]

theorem mem_insertOnce {α : Type} [DecidableEq α] {l : List α} {x y : α} :
    y ∈ insertOnce l x ↔ y ∈ l ∨ y = x := by
  unfold insertOnce
  by_cases h : x ∈ l
  · simp only [if_pos h]
    constructor
    · exact Or.inl
    · rintro (hy | hy)
      · exact hy
      · exact hy ▸ h
  · simp [if_neg h]

theorem listTrim_eq_rdrop (l : List Char) :
    listTrim l = List.rdropWhile charIsSpace (l.dropWhile charIsSpace) := rfl

theorem dropWhile_eq_self_of_append {p : Char → Bool} {B t A : List Char}
    (hBA : B ++ t = A) (hA : A.dropWhile p = A) : B.dropWhile p = B := by
  cases B with
  | nil => simp
  | cons b bs =>
    have hb : p b = false := by
      by_contra hb
      rw [Bool.not_eq_false] at hb
      rw [← hBA] at hA
      simp only [List.cons_append, List.dropWhile_cons, hb, if_true] at hA
      have hlen := congrArg List.length hA
      rw [List.length_cons] at hlen
      have hle := (List.dropWhile_suffix (l := bs ++ t) p).sublist.length_le
      omega
    simp [List.dropWhile_cons, hb]

theorem listTrim_idem (l : List Char) : listTrim (listTrim l) = listTrim l := by
  rw [listTrim_eq_rdrop, listTrim_eq_rdrop]
  rcases List.rdropWhile_prefix charIsSpace (l.dropWhile charIsSpace) with ⟨t, ht⟩
  rw [dropWhile_eq_self_of_append ht (List.dropWhile_idempotent charIsSpace l),
    List.rdropWhile_idempotent]

theorem strTrim_strTrim (s : String) : strTrim (strTrim s) = strTrim s := by
  simp [strTrim, listTrim_idem]

theorem clean_clean (s : String) : clean (clean s) = clean s := strTrim_strTrim s

theorem clean_ne_of_not_isNa {s : String} (h : ¬ isNa s) : clean s ≠ "" := by
  intro hc
  apply h
  unfold isNa
  have : strTrim s = "" := hc
  rw [this]
  decide

theorem mergePub_confidence (p s : Pub) :
    (mergePublicationRows p s).confidence =
      if p.confidence < s.confidence then s.confidence else p.confidence := rfl

theorem mergePub_confidence_ge (p s : Pub) :
    p.confidence ≤ (mergePublicationRows p s).confidence := by
  rw [mergePub_confidence]
  split_ifs with h
  · exact le_of_lt h
  · exact le_refl _

theorem mergePub_pmid (p s : Pub) :
    (mergePublicationRows p s).pmid =
      if isNa p.pmid ∧ ¬ isNa s.pmid then clean s.pmid else p.pmid := rfl

theorem recomputeFlag_pmid (th : Int) (p : Pub) : (recomputeFlag th p).pmid = p.pmid := by
  simp only [recomputeFlag]
  split_ifs <;> rfl

theorem recomputeFlag_confidence (th : Int) (p : Pub) :
    (recomputeFlag th p).confidence = p.confidence := by
  simp only [recomputeFlag]
  split_ifs <;> rfl

theorem recomputeFlag_matchMethod (th : Int) (p : Pub) :
    (recomputeFlag th p).matchMethod = p.matchMethod := by
  simp only [recomputeFlag]
  split_ifs <;> rfl

theorem recomputeFlag_derived (th : Int) (p : Pub) :
    strLower (strTrim (recomputeFlag th p).isFullMatch) =
      (if isFullPublicationMatch (clean (recomputeFlag th p).matchMethod)
          (recomputeFlag th p).confidence th then "yes" else "no") := by
  rw [recomputeFlag_matchMethod, recomputeFlag_confidence]
  simp only [recomputeFlag]
  cases hfull : isFullPublicationMatch (clean p.matchMethod) p.confidence th with
  | true =>
    simp only [hfull, if_true]
    by_cases hne : strLower (strTrim p.isFullMatch) ≠ "yes"
    · rw [if_pos hne]
      rfl
    · rw [if_neg hne]
      push_neg at hne
      exact hne
  | false =>
    simp only [hfull, Bool.false_eq_true, if_false]
    by_cases hne : strLower (strTrim p.isFullMatch) ≠ "no"
    · rw [if_pos hne]
      rfl
    · rw [if_neg hne]
      push_neg at hne
      exact hne

theorem scanFill_pmid (summary : Summary) (pd doi : String) (ex : Pub) :
    (scanFill summary pd doi ex).pmid = ex.pmid := by
  simp only [scanFill]
  split_ifs <;> rfl

theorem scanFill_confidence (summary : Summary) (pd doi : String) (ex : Pub) :
    (scanFill summary pd doi ex).confidence = ex.confidence := by
  simp only [scanFill]
  split_ifs <;> rfl

theorem scanFill_matchMethod (summary : Summary) (pd doi : String) (ex : Pub) :
    (scanFill summary pd doi ex).matchMethod = ex.matchMethod := by
  simp only [scanFill]
  split_ifs <;> rfl

theorem scanFinal_pmid (b : Bool) (method : String) (conf : Int) (fv : String) (ex : Pub) :
    (scanFinal b method conf fv ex).pmid = ex.pmid := by
  simp only [scanFinal]
  split_ifs <;> rfl

theorem scanFinal_confidence (b : Bool) (method : String) (conf : Int) (fv : String) (ex : Pub) :
    (scanFinal b method conf fv ex).confidence = if b then conf else ex.confidence := by
  simp only [scanFinal]
  cases b <;> split_ifs <;> rfl

theorem assignMethod_lookup_self (m : List (String × String × Int)) (pmid method : String)
    (c : Option Int) :
    alookup (assignMethod m pmid method c) pmid =
      some (match alookup m pmid with
        | none => (method, c.getD (publicationMethodConfidence method))
        | some cur =>
          if cur.2 < c.getD (publicationMethodConfidence method) then
            (method, c.getD (publicationMethodConfidence method))
          else cur) := by
  unfold assignMethod
  cases h : alookup m pmid with
  | none =>
    cases c with
    | none => simp [h, alookup_aset_self]
    | some cv => simp [h, alookup_aset_self]
  | some cur =>
    cases c with
    | none =>
      by_cases hlt : cur.2 < publicationMethodConfidence method
      · simp [h, hlt, alookup_aset_self]
      · simp [h, hlt]
    | some cv =>
      by_cases hlt : cur.2 < cv
      · simp [h, hlt, alookup_aset_self]
      · simp [h, hlt]

theorem assignMethod_lookup_ne (m : List (String × String × Int)) (pmid method : String)
    (c : Option Int) (p : String) (hp : p ≠ pmid) :
    alookup (assignMethod m pmid method c) p = alookup m p := by
  unfold assignMethod
  cases h : alookup m pmid with
  | none =>
    cases c with
    | none => simp [alookup_aset_ne _ _ _ _ hp]
    | some cv => simp [alookup_aset_ne _ _ _ _ hp]
  | some cur =>
    cases c with
    | none =>
      by_cases hlt : cur.2 < publicationMethodConfidence method
      · simp [hlt, alookup_aset_ne _ _ _ _ hp]
      · simp [hlt]
    | some cv =>
      by_cases hlt : cur.2 < cv
      · simp [hlt, alookup_aset_ne _ _ _ _ hp]
      · simp [hlt]

theorem assignFold_cons (pr : String × String × Option Int)
    (rest : List (String × String × Option Int)) (m : List (String × String × Int)) :
    assignFold (pr :: rest) m = assignFold rest (assignMethod m pr.1 pr.2.1 pr.2.2) := rfl

theorem assignFold_spec (props : List (String × String × Option Int))
    (m : List (String × String × Int)) (done : List (String × String × Option Int))
    (h1 : ∀ p e, alookup m p = some e →
      (∃ pr ∈ done, pr.1 = p ∧ e.1 = pr.2.1 ∧ e.2 = effConf pr) ∧
      ∀ pr ∈ done, pr.1 = p → effConf pr ≤ e.2)
    (h2 : ∀ p, alookup m p = none → ∀ pr ∈ done, pr.1 ≠ p) :
    (∀ p e, alookup (assignFold props m) p = some e →
      (∃ pr ∈ done ++ props, pr.1 = p ∧ e.1 = pr.2.1 ∧ e.2 = effConf pr) ∧
      ∀ pr ∈ done ++ props, pr.1 = p → effConf pr ≤ e.2) ∧
    (∀ p, alookup (assignFold props m) p = none → ∀ pr ∈ done ++ props, pr.1 ≠ p) := by
  induction props generalizing m done with
  | nil =>
    simp only [assignFold, List.foldl_nil, List.append_nil]
    exact ⟨h1, h2⟩
  | cons pr rest ih =>
    rw [assignFold_cons]
    have hset := assignMethod_lookup_self m pr.1 pr.2.1 pr.2.2
    have heff : pr.2.2.getD (publicationMethodConfidence pr.2.1) = effConf pr := rfl
    have step1 : ∀ p e, alookup (assignMethod m pr.1 pr.2.1 pr.2.2) p = some e →
        (∃ q ∈ done ++ [pr], q.1 = p ∧ e.1 = q.2.1 ∧ e.2 = effConf q) ∧
        ∀ q ∈ done ++ [pr], q.1 = p → effConf q ≤ e.2 := by
      intro p e he
      by_cases hp : p = pr.1
      · subst hp
        rw [hset] at he
        cases hm : alookup m pr.1 with
        | none =>
          rw [hm] at he
          simp only [heff] at he
          injection he with he
          constructor
          · exact ⟨pr, by simp, rfl, by rw [← he], by rw [← he]⟩
          · intro q hq hq1
            rcases List.mem_append.mp hq with hq | hq
            · exact absurd hq1 (h2 pr.1 hm q hq)
            · simp at hq
              subst hq
              rw [← he]
        | some cur =>
          rw [hm] at he
          simp only [heff] at he
          by_cases hlt : cur.2 < effConf pr
          · rw [if_pos hlt] at he
            injection he with he
            constructor
            · exact ⟨pr, by simp, rfl, by rw [← he], by rw [← he]⟩
            · intro q hq hq1
              rcases List.mem_append.mp hq with hq | hq
              · have := (h1 pr.1 cur hm).2 q hq hq1
                rw [← he]
                exact le_trans this (le_of_lt hlt)
              · simp at hq
                subst hq
                rw [← he]
          · rw [if_neg hlt] at he
            injection he with he
            subst he
            constructor
            · rcases (h1 pr.1 cur hm).1 with ⟨q, hq, hq1, hq2, hq3⟩
              exact ⟨q, List.mem_append.mpr (Or.inl hq), hq1, hq2, hq3⟩
            · intro q hq hq1
              rcases List.mem_append.mp hq with hq | hq
              · exact (h1 pr.1 cur hm).2 q hq hq1
              · simp at hq
                subst hq
                exact le_of_not_lt hlt
      · rw [assignMethod_lookup_ne m pr.1 pr.2.1 pr.2.2 p hp] at he
        constructor
        · rcases (h1 p e he).1 with ⟨q, hq, hq1, hq2, hq3⟩
          exact ⟨q, List.mem_append.mpr (Or.inl hq), hq1, hq2, hq3⟩
        · intro q hq hq1
          rcases List.mem_append.mp hq with hq | hq
          · exact (h1 p e he).2 q hq hq1
          · simp at hq
            subst hq
            exact absurd hq1.symm hp
    have step2 : ∀ p, alookup (assignMethod m pr.1 pr.2.1 pr.2.2) p = none →
        ∀ q ∈ done ++ [pr], q.1 ≠ p := by
      intro p hp q hq
      by_cases hppr : p = pr.1
      · subst hppr
        rw [hset] at hp
        exact absurd hp (by simp)
      · rw [assignMethod_lookup_ne m pr.1 pr.2.1 pr.2.2 p hppr] at hp
        rcases List.mem_append.mp hq with hq | hq
        · exact h2 p hp q hq
        · simp at hq
          subst hq
          exact fun h => hppr h.symm
    have := ih (assignMethod m pr.1 pr.2.1 pr.2.2) (done ++ [pr]) step1 step2
    simpa [List.append_assoc] using this

theorem fuzzyFold_eq_assignFold (title : String) (summaries : List (String × Summary))
    (cands : List (String × ℚ)) (m : List (String × String × Int)) :
    fuzzyFold title summaries cands m =
      assignFold (cands.filterMap (fun x =>
        if belowFuzzyFloor (effectiveSimilarity title summaries x) then none
        else some (x.1, "title_fuzzy",
          some (fuzzyConfidence (effectiveSimilarity title summaries x))))) m := by
  induction cands generalizing m with
  | nil => rfl
  | cons cd rest ih =>
    show fuzzyFold title summaries rest (fuzzyStep title summaries m cd) = _
    by_cases hs : belowFuzzyFloor (effectiveSimilarity title summaries cd) = true
    · have hfm : List.filterMap (fun x =>
          if belowFuzzyFloor (effectiveSimilarity title summaries x) then none
          else some (x.1, "title_fuzzy",
            some (fuzzyConfidence (effectiveSimilarity title summaries x)))) (cd :: rest) =
          List.filterMap (fun x =>
            if belowFuzzyFloor (effectiveSimilarity title summaries x) then none
            else some (x.1, "title_fuzzy",
              some (fuzzyConfidence (effectiveSimilarity title summaries x)))) rest := by
        rw [List.filterMap_cons]
        simp [hs]
      have hstep : fuzzyStep title summaries m cd = m := by
        simp only [fuzzyStep, if_pos hs]
      rw [hfm, hstep, ih]
    · have hfm : List.filterMap (fun x =>
          if belowFuzzyFloor (effectiveSimilarity title summaries x) then none
          else some (x.1, "title_fuzzy",
            some (fuzzyConfidence (effectiveSimilarity title summaries x)))) (cd :: rest) =
          (cd.1, "title_fuzzy",
            some (fuzzyConfidence (effectiveSimilarity title summaries cd))) ::
          List.filterMap (fun x =>
            if belowFuzzyFloor (effectiveSimilarity title summaries x) then none
            else some (x.1, "title_fuzzy",
              some (fuzzyConfidence (effectiveSimilarity title summaries x)))) rest := by
        rw [List.filterMap_cons]
        simp [hs]
      have hstep : fuzzyStep title summaries m cd =
          assignMethod m cd.1 "title_fuzzy"
            (some (fuzzyConfidence (effectiveSimilarity title summaries cd))) := by
        simp only [fuzzyStep, if_neg hs]
      rw [hfm, assignFold_cons, hstep, ih]

/-- C8: within one trial's linkage pass, _assign_method resolves a PMID found
by several strategies by keeping exactly one proposed (method, confidence)
pair: the stored entry is one of the proposals for that PMID, carries that
proposal's own confidence, and its confidence is the maximum over all
proposals for the PMID — scores are never averaged or summed. -/
theorem c8_conflict_rule (props : List (String × String × Option Int)) (p : String)
    (e : String × Int) (h : alookup (assignFold props []) p = some e) :
    (∃ pr ∈ props, pr.1 = p ∧ e.1 = pr.2.1 ∧ e.2 = effConf pr) ∧
    ∀ pr ∈ props, pr.1 = p → effConf pr ≤ e.2 := by
  have hspec := assignFold_spec props [] []
    (by intro q w hw; simp [alookup] at hw)
    (by intro q hw r hr; simp at hr)
  have := hspec.1 p e h
  simpa using this

/-- Witness for C8 at a concrete cascade: the PMID 7 is proposed by nct_exact
(92) and then pubmed_link (98); the stored entry is pubmed_link with 98, the
maximum. -/
theorem c8_witness :
    (∃ pr ∈ [("7", "nct_exact", (none : Option Int)), ("7", "pubmed_link", none)],
      pr.1 = "7" ∧ ("pubmed_link", (98 : Int)).1 = pr.2.1 ∧
        ("pubmed_link", (98 : Int)).2 = effConf pr) ∧
    ∀ pr ∈ [("7", "nct_exact", (none : Option Int)), ("7", "pubmed_link", none)],
      pr.1 = "7" → effConf pr ≤ ("pubmed_link", (98 : Int)).2 :=
  c8_conflict_rule [("7", "nct_exact", none), ("7", "pubmed_link", none)] "7"
    ("pubmed_link", 98) (by decide)

theorem belowFuzzyFloor_iff (q : ℚ) : belowFuzzyFloor q = true ↔ q < 38/100 := by
  unfold belowFuzzyFloor
  rw [decide_eq_true_eq]
  have hd : (0:ℚ) < (q.den : ℚ) := by exact_mod_cast q.den_pos
  constructor
  · intro h
    rw [← Rat.num_div_den q, div_lt_div_iff hd (by norm_num : (0:ℚ) < 100)]
    have hc : ((100 * q.num : ℤ) : ℚ) < ((38 * (q.den : ℤ) : ℤ) : ℚ) := by exact_mod_cast h
    push_cast at hc
    linarith
  · intro h
    rw [← Rat.num_div_den q, div_lt_div_iff hd (by norm_num : (0:ℚ) < 100)] at h
    have hc : ((100 * q.num : ℤ) : ℚ) < ((38 * (q.den : ℤ) : ℤ) : ℚ) := by
      push_cast
      linarith
    exact_mod_cast hc

theorem fuzzyConfidence_eq (q : ℚ) : fuzzyConfidence q = roundHalfEven (q * 100) := by
  have hdQ : (0:ℚ) < (q.den : ℚ) := by exact_mod_cast q.den_pos
  have hdZ : (0:ℤ) < (q.den : ℤ) := by exact_mod_cast q.den_pos
  have hx : (q * 100 : ℚ) = ((100 * q.num : ℤ) : ℚ) / ((q.den : ℕ) : ℚ) := by
    rw [eq_div_iff (ne_of_gt hdQ)]
    push_cast
    calc q * 100 * (q.den : ℚ) = q * (q.den : ℚ) * 100 := by ring
      _ = (q.num : ℚ) * 100 := by rw [Rat.mul_den_eq_num]
      _ = 100 * (q.num : ℚ) := by ring
  have hfloor : (q * 100).floor = Int.fdiv (100 * q.num) (q.den : ℤ) := by
    have h1 : ⌊(q * 100 : ℚ)⌋ = (100 * q.num) / (q.den : ℤ) := by
      rw [hx, Rat.floor_intCast_div_natCast]
    have h2 : Int.fdiv (100 * q.num) (q.den : ℤ) = (100 * q.num) / (q.den : ℤ) :=
      Int.fdiv_eq_ediv _ (le_of_lt hdZ)
    have h3 : (q * 100).floor = ⌊(q * 100 : ℚ)⌋ := by
      rw [Rat.floor_def', Rat.floor_def]
    rw [h3, h1, h2]
  simp only [fuzzyConfidence, roundHalfEven]
  rw [← hfloor]
  set F : ℤ := (q * 100).floor with hF
  set r : ℤ := 100 * q.num - F * (q.den : ℤ) with hr
  have hfrac : (q * 100 : ℚ) - (F : ℚ) = (r : ℚ) / (q.den : ℚ) := by
    rw [hr]
    push_cast
    rw [hx]
    field_simp
    ring
  have hlt : ((q * 100 : ℚ) - (F : ℚ) < 1/2) ↔ 2 * r < (q.den : ℤ) := by
    rw [hfrac, div_lt_iff hdQ]
    constructor
    · intro h
      have hc : ((2 * r : ℤ) : ℚ) < ((q.den : ℤ) : ℚ) := by push_cast; linarith
      exact_mod_cast hc
    · intro h
      have hc : ((2 * r : ℤ) : ℚ) < ((q.den : ℤ) : ℚ) := by exact_mod_cast h
      push_cast at hc
      linarith
  have hgt : (1/2 < (q * 100 : ℚ) - (F : ℚ)) ↔ (q.den : ℤ) < 2 * r := by
    rw [hfrac, lt_div_iff hdQ]
    constructor
    · intro h
      have hc : (((q.den : ℤ)) : ℚ) < ((2 * r : ℤ) : ℚ) := by push_cast; linarith
      exact_mod_cast hc
    · intro h
      have hc : (((q.den : ℤ)) : ℚ) < ((2 * r : ℤ) : ℚ) := by exact_mod_cast h
      push_cast at hc
      linarith
  by_cases h1 : 2 * r < (q.den : ℤ)
  · rw [if_pos h1, if_pos (hlt.mpr h1)]
  · rw [if_neg h1, if_neg (fun hc => h1 (hlt.mp hc))]
    by_cases h2 : (q.den : ℤ) < 2 * r
    · rw [if_pos h2, if_pos (hgt.mpr h2)]
    · rw [if_neg h2, if_neg (fun hc => h2 (hgt.mp hc))]

theorem ratMk_eq_div (n : Int) (d : Nat) (h1 : d ≠ 0) (h2 : n.natAbs.Coprime d) :
    (⟨n, d, h1, h2⟩ : ℚ) = (n : ℚ) / (d : ℚ) := by
  rw [Rat.mk'_eq_divInt, Rat.divInt_eq_div]
  norm_num

/-- C2: in the fuzzy-title strategy, a candidate whose effective similarity is
below the 0.38 floor contributes nothing (a PMID all of whose candidates are
below the floor is absent from the method map); a candidate at or above the
floor makes its PMID present as title_fuzzy with confidence
round(similarity x 100) taken from a maximal above-floor candidate for that
PMID; a title_fuzzy entry is a full match exactly when its confidence reaches
the threshold, while pubmed_link, nct_exact, secondary_nct_exact and
doi_reference are full matches at any confidence; concretely, one trial's pass
over a single fuzzy candidate with similarity 0.37 stores no row, with
similarity 0.50 stores a non-full-match row of confidence 50, and with
similarity 0.85 stores a full-match row of confidence 85. -/
theorem c2_fuzzy_threshold (title : String) (summaries : List (String × Summary))
    (cands : List (String × ℚ)) (p : String) (c t : Int) :
    ((∀ cd ∈ cands, cd.1 = p → effectiveSimilarity title summaries cd < 38/100) →
      alookup (fuzzyFold title summaries cands []) p = none) ∧
    (∀ cd ∈ cands, cd.1 = p → 38/100 ≤ effectiveSimilarity title summaries cd →
      ∃ conf, alookup (fuzzyFold title summaries cands []) p = some ("title_fuzzy", conf) ∧
        (∃ cd2 ∈ cands, cd2.1 = p ∧ 38/100 ≤ effectiveSimilarity title summaries cd2 ∧
          conf = roundHalfEven (effectiveSimilarity title summaries cd2 * 100)) ∧
        (∀ cd3 ∈ cands, cd3.1 = p → 38/100 ≤ effectiveSimilarity title summaries cd3 →
          roundHalfEven (effectiveSimilarity title summaries cd3 * 100) ≤ conf)) ∧
    (isFullPublicationMatch "title_fuzzy" c t = decide (t ≤ c)) ∧
    isFullPublicationMatch "pubmed_link" c t = true ∧
    isFullPublicationMatch "nct_exact" c t = true ∧
    isFullPublicationMatch "secondary_nct_exact" c t = true ∧
    isFullPublicationMatch "doi_reference" c t = true ∧
    (fullTrialPass ⟨some 1000, none, 1000, 120, 30⟩
      ⟨80, 5, 300, "b", [], [("1", (⟨37, 100, by decide, by decide⟩ : ℚ))],
        [("1", ⟨"a", "", "", ""⟩)], []⟩ true []).1.store = [] ∧
    (fullTrialPass ⟨some 1000, none, 1000, 120, 30⟩
      ⟨80, 5, 300, "b", [], [("1", (⟨1, 2, by decide, by decide⟩ : ℚ))],
        [("1", ⟨"a", "", "", ""⟩)], []⟩ true []).1.store =
      [(0, ⟨"1", "", "NA", "a", "NA", "title_fuzzy", 50, "no"⟩)] ∧
    (fullTrialPass ⟨some 1000, none, 1000, 120, 30⟩
      ⟨80, 5, 300, "b", [], [("1", (⟨17, 20, by decide, by decide⟩ : ℚ))],
        [("1", ⟨"a", "", "", ""⟩)], []⟩ true []).1.store =
      [(0, ⟨"1", "", "NA", "a", "NA", "title_fuzzy", 85, "yes"⟩)] := by
  have hspec := assignFold_spec (cands.filterMap (fun x =>
      if belowFuzzyFloor (effectiveSimilarity title summaries x) then none
      else some (x.1, "title_fuzzy",
        some (fuzzyConfidence (effectiveSimilarity title summaries x))))) [] []
    (by intro q w hw; simp [alookup] at hw)
    (by intro q hw r hr; simp at hr)
  rw [← fuzzyFold_eq_assignFold] at hspec
  refine ⟨?_, ?_, ?_, ?_, ?_, ?_, ?_, by decide, by decide, by decide⟩
  · intro hall
    cases heq : alookup (fuzzyFold title summaries cands []) p with
    | none => rfl
    | some e =>
      rcases (hspec.1 p e heq).1 with ⟨pr, hpr, hpr1, _, _⟩
      rcases List.mem_filterMap.mp hpr with ⟨cd, hcd, hcdeq⟩
      by_cases hb : belowFuzzyFloor (effectiveSimilarity title summaries cd) = true
      · rw [if_pos hb] at hcdeq
        exact absurd hcdeq (by simp)
      · rw [if_neg hb] at hcdeq
        injection hcdeq with hcdeq
        have hlt := hall cd hcd (by rw [← hcdeq] at hpr1; exact hpr1)
        exact ((hb ((belowFuzzyFloor_iff _).mpr hlt))).elim
  · intro cd hcd hcd1 hge
    have hnb : belowFuzzyFloor (effectiveSimilarity title summaries cd) = false := by
      rcases hb : belowFuzzyFloor (effectiveSimilarity title summaries cd) with _ | _
      · rfl
      · exact absurd ((belowFuzzyFloor_iff _).mp hb) (not_lt.mpr hge)
    have hmem : (cd.1, "title_fuzzy",
        some (fuzzyConfidence (effectiveSimilarity title summaries cd))) ∈
        cands.filterMap (fun x =>
          if belowFuzzyFloor (effectiveSimilarity title summaries x) then none
          else some (x.1, "title_fuzzy",
            some (fuzzyConfidence (effectiveSimilarity title summaries x)))) :=
      List.mem_filterMap.mpr ⟨cd, hcd, by rw [hnb]; simp⟩
    cases heq : alookup (fuzzyFold title summaries cands []) p with
    | none =>
      have := hspec.2 p heq _ hmem
      exact absurd hcd1 this
    | some e =>
      have hmain := hspec.1 p e heq
      rcases hmain.1 with ⟨pr, hpr, hpr1, hpr2, hpr3⟩
      rcases List.mem_filterMap.mp hpr with ⟨cd2, hcd2, hcd2eq⟩
      by_cases hb2 : belowFuzzyFloor (effectiveSimilarity title summaries cd2) = true
      · rw [if_pos hb2] at hcd2eq
        exact absurd hcd2eq (by simp)
      · rw [if_neg hb2] at hcd2eq
        injection hcd2eq with hcd2eq
        subst hcd2eq
        refine ⟨e.2, ?_, ?_, ?_⟩
        · have he : e = ("title_fuzzy", e.2) := by
            have h1 : e.1 = "title_fuzzy" := hpr2
            calc e = (e.1, e.2) := rfl
              _ = ("title_fuzzy", e.2) := by rw [h1]
          rw [← he]
        · refine ⟨cd2, hcd2, hpr1, ?_, ?_⟩
          · exact not_lt.mp (fun hc => hb2 ((belowFuzzyFloor_iff _).mpr hc))
          · rw [hpr3]
            show (some (fuzzyConfidence (effectiveSimilarity title summaries cd2))).getD _ = _
            rw [Option.getD_some, fuzzyConfidence_eq]
        · intro cd3 hcd3 hcd31 hge3
          have hnb3 : belowFuzzyFloor (effectiveSimilarity title summaries cd3) = false := by
            rcases hb3 : belowFuzzyFloor (effectiveSimilarity title summaries cd3) with _ | _
            · rfl
            · exact absurd ((belowFuzzyFloor_iff _).mp hb3) (not_lt.mpr hge3)
          have hmem3 : (cd3.1, "title_fuzzy",
              some (fuzzyConfidence (effectiveSimilarity title summaries cd3))) ∈
              cands.filterMap (fun x =>
                if belowFuzzyFloor (effectiveSimilarity title summaries x) then none
                else some (x.1, "title_fuzzy",
                  some (fuzzyConfidence (effectiveSimilarity title summaries x)))) :=
            List.mem_filterMap.mpr ⟨cd3, hcd3, by rw [hnb3]; simp⟩
          have := hmain.2 _ hmem3 hcd31
          rw [← fuzzyConfidence_eq]
          exact this
  · unfold isFullPublicationMatch
    rw [if_neg (by decide)]
  · unfold isFullPublicationMatch
    rw [if_pos (by decide)]
  · unfold isFullPublicationMatch
    rw [if_pos (by decide)]
  · unfold isFullPublicationMatch
    rw [if_pos (by decide)]
  · unfold isFullPublicationMatch
    rw [if_pos (by decide)]

/-- Witness for C2: for the single candidate with similarity one half the
method map stores title_fuzzy with confidence 50 = round(0.50 x 100). -/
theorem c2_witness :
    ∃ conf, alookup (fuzzyFold "b" [("1", ⟨"a", "", "", ""⟩)]
        [("1", (⟨1, 2, by decide, by decide⟩ : ℚ))] []) "1" = some ("title_fuzzy", conf) ∧
      (∃ cd2 ∈ [("1", (⟨1, 2, by decide, by decide⟩ : ℚ))], cd2.1 = "1" ∧
        38/100 ≤ effectiveSimilarity "b" [("1", ⟨"a", "", "", ""⟩)] cd2 ∧
        conf = roundHalfEven
          (effectiveSimilarity "b" [("1", ⟨"a", "", "", ""⟩)] cd2 * 100)) ∧
      (∀ cd3 ∈ [("1", (⟨1, 2, by decide, by decide⟩ : ℚ))], cd3.1 = "1" →
        38/100 ≤ effectiveSimilarity "b" [("1", ⟨"a", "", "", ""⟩)] cd3 →
        roundHalfEven (effectiveSimilarity "b" [("1", ⟨"a", "", "", ""⟩)] cd3 * 100) ≤ conf) :=
  (c2_fuzzy_threshold "b" [("1", ⟨"a", "", "", ""⟩)]
      [("1", (⟨1, 2, by decide, by decide⟩ : ℚ))] "1" 50 80).2.1
    ("1", (⟨1, 2, by decide, by decide⟩ : ℚ)) (by decide) rfl
    (by rw [← not_lt, ← belowFuzzyFloor_iff]; decide)

/-- Counterexample to C5: the multi-phase string Phase II/III is detected as
phase II but not as phase III (the phase-III pattern needs the word phase
directly before the numeral iii), so a recruiting Phase II/III trial with a
publication is classified medium, not high as phase-III presence would give. -/
theorem c5_counterexample :
    phase2Present "Phase II/III" = true ∧ phase3Present "Phase II/III" = false ∧
    evidenceStrengthSignal "Phase II/III" "RECRUITING"
      "https://pubmed.ncbi.nlm.nih.gov/1/" none 0 = "medium" := by decide

/-- C5 amended: a multi-phase string satisfies exactly the tiers whose own
pattern matches: the ingestion-normalized form PHASEm/PHASEn satisfies every
contained tier (so a published PHASE2/PHASE3 trial is high), while a roman
form such as Phase II/III satisfies only its leading tier II — it still counts
as phase at least 2 for the dead-end and priority rules, but not as phase III. -/
theorem c5_phase_parsing_amended :
    phase2Present "PHASE2/PHASE3" = true ∧ phase3Present "PHASE2/PHASE3" = true ∧
    phase1Present "PHASE1/PHASE2" = true ∧ phase2Present "PHASE1/PHASE2" = true ∧
    phaseOnly1 "PHASE1/PHASE2" = false ∧ phase3Present "PHASE3/PHASE4" = true ∧
    phase4Present "PHASE3/PHASE4" = true ∧
    phase2Present "Phase II/III" = true ∧ phase3Present "Phase II/III" = false ∧
    isPhaseGe2 "Phase II/III" = true ∧ phaseGe2Signal "Phase II/III" = true ∧
    evidenceStrengthSignal "PHASE2/PHASE3" "RECRUITING"
      "https://pubmed.ncbi.nlm.nih.gov/1/" none 0 = "high" ∧
    deadEndSignal "Phase II/III" "COMPLETED" "NA" (some 0) 2000 = true := by decide

/-- Counterexample to C3: a trial with a full-match publication row whose
source last-update date (day 990) is unchanged since its last publication scan
(day 995) is nevertheless scanned again on the next incremental run, because
the code checks the last-update date against a refresh window ending today,
not against the scan date. -/
theorem c3_counterexample :
    (990 : Int) ≤ 995 ∧
    shouldScanTrialIncremental (some 990) (some 995)
      [⟨"1", "", "2020-01-01", "t", "j", "nct_exact", 92, "yes"⟩] 120 30 1000 = true := by
  decide

/-- C3 amended: a trial that already has a full-match publication row is
rescanned exactly when its parsed source last-update date falls inside the
refresh window (refresh_days before today, or a non-positive refresh_days),
independently of the publication-scan date and with no retry cadence; and a
trial skipped by the incremental schedule keeps exactly the store produced by
deduplication and flag re-derivation — the scan is not run. -/
theorem c3_scheduling_amended (lu ps : Option Int) (pubs : List Pub)
    (rd rt td : Int) (sched : SchedInput) (inp : ScanInput) (pubs2 : List Pub)
    (hfull : pubs.any (fun p => strLower (strTrim p.isFullMatch) == "yes") = true)
    (hskip : shouldScanTrialIncremental sched.lastUpdateDate sched.publicationScanDate
      (existingRows (phaseAB inp.threshold pubs2)) sched.refreshDays sched.retryDaysNoMatch
      sched.today = false) :
    (shouldScanTrialIncremental lu ps pubs rd rt td = true ↔
      (rd ≤ 0 ∨ ∃ d, lu = some d ∧ td - rd ≤ d)) ∧
    fullTrialPass sched inp true pubs2 = (phaseAB inp.threshold pubs2, false) := by
  constructor
  · have hne : pubs.isEmpty = false := by
      cases pubs with
      | nil => simp at hfull
      | cons a as => rfl
    simp only [shouldScanTrialIncremental, hne, hfull, Bool.false_eq_true, if_false, if_true]
    unfold hasRecentSourceUpdate
    split_ifs with h
    · exact iff_of_true rfl (Or.inl h)
    · cases lu with
      | none => simp [h]
      | some d0 =>
        simp only [h, false_or, decide_eq_true_eq]
        constructor
        · intro hh
          exact ⟨d0, rfl, hh⟩
        · rintro ⟨d, hd, hh⟩
          cases hd
          exact hh
  · simp only [fullTrialPass]
    split_ifs with h
    · rfl
    · exfalso
      apply h
      refine ⟨trivial, ?_⟩
      rw [hskip]
      exact Bool.false_ne_true

/-- Witness for the amended C3 theorem at a concrete trial: the full-match
hypothesis and the skip hypothesis hold at the chosen inputs and the
conclusion follows by applying the theorem there. -/
theorem c3_witness :
    (([⟨"1", "", "2020-01-01", "t", "j", "nct_exact", 92, "yes"⟩] : List Pub).any
        (fun p => strLower (strTrim p.isFullMatch) == "yes") = true ∧
      shouldScanTrialIncremental (some 0) (some 999) (existingRows (phaseAB 80 []))
        120 30 1000 = false) ∧
    (shouldScanTrialIncremental (some 990) (some 995)
        [⟨"1", "", "2020-01-01", "t", "j", "nct_exact", 92, "yes"⟩] 120 30 1000 = true ↔
      ((120 : Int) ≤ 0 ∨ ∃ d, (some 990 : Option Int) = some d ∧ 1000 - 120 ≤ d)) ∧
    fullTrialPass ⟨some 0, some 999, 1000, 120, 30⟩ ⟨80, 5, 0, "", [], [], [], []⟩ true [] =
      (phaseAB 80 [], false) :=
  ⟨⟨by decide, by decide⟩,
    c3_scheduling_amended (some 990) (some 995)
      [⟨"1", "", "2020-01-01", "t", "j", "nct_exact", 92, "yes"⟩] 120 30 1000
      ⟨some 0, some 999, 1000, 120, 30⟩ ⟨80, 5, 0, "", [], [], [], []⟩ []
      (by decide) (by decide)⟩

theorem sdata_append (a b : String) : (a ++ b).data = a.data ++ b.data := rfl

theorem listTrim_cons_of_nonspace (c : Char) (l : List Char) (hc : charIsSpace c = false) :
    ∃ t, listTrim (c :: l) = c :: t := by
  rw [listTrim_eq_rdrop]
  have hd : List.dropWhile charIsSpace (c :: l) = c :: l := by
    simp [List.dropWhile_cons, hc]
  rw [hd]
  have hne : List.rdropWhile charIsSpace (c :: l) ≠ [] := by
    rw [Ne, List.rdropWhile_eq_nil_iff]
    push_neg
    exact ⟨c, List.mem_cons_self c l, by simp [hc]⟩
  obtain ⟨t, ht⟩ := List.rdropWhile_prefix charIsSpace (c :: l)
  revert ht hne
  cases hB : List.rdropWhile charIsSpace (c :: l) with
  | nil => intro hne ht; exact absurd rfl hne
  | cons b bs =>
    intro hne ht
    have hb : b = c := by
      have h2 := congrArg List.head? ht
      simpa using h2
    exact ⟨bs, by rw [hb]⟩

theorem hasPubmedSignal_of_head_h {s : String} (h : ∃ t, s.data = 'h' :: t) :
    hasPubmedSignal s = true := by
  rcases h with ⟨t, ht⟩
  obtain ⟨t2, ht2⟩ := listTrim_cons_of_nonspace 'h' t (by decide)
  have hTrim : strTrim s = ⟨'h' :: t2⟩ := by
    unfold strTrim
    rw [ht, ht2]
  have h1 : (⟨'h' :: t2⟩ : String) ≠ "" := by
    intro hcontra
    have h2 : 'h' :: t2 = ([] : List Char) := congrArg String.data hcontra
    exact absurd h2 (List.cons_ne_nil _ _)
  have h2 : strUpper ⟨'h' :: t2⟩ ≠ "NA" := by
    intro hcontra
    have hcd : List.map Char.toUpper ('h' :: t2) = ['N', 'A'] := congrArg String.data hcontra
    rw [List.map_cons] at hcd
    injection hcd with hx _
    exact absurd hx (by decide)
  unfold hasPubmedSignal
  rw [hTrim]
  simp [bne_iff_ne, h1, h2]

theorem joinSep_data_head (sep : String) (x : String) (xs : List String) :
    ∃ u, (joinSep sep (x :: xs)).data = x.data ++ u := by
  cases xs with
  | nil => exact ⟨[], (List.append_nil _).symm⟩
  | cons y ys =>
    refine ⟨sep.data ++ (joinSep sep (y :: ys)).data, ?_⟩
    show (x ++ sep ++ joinSep sep (y :: ys)).data = _
    rw [sdata_append, sdata_append, List.append_assoc]

theorem joinNonEmpty_head (x : String) (xs : List String) (t : List Char)
    (hx : (clean x).data = 'h' :: t) :
    ∃ u, (joinNonEmpty (x :: xs) " | ").data = 'h' :: u := by
  unfold joinNonEmpty
  rw [List.map_cons, List.filter_cons]
  have hxne : clean x ≠ "" := by
    intro hcontra
    have h2 := congrArg String.data hcontra
    rw [hx] at h2
    exact absurd h2 (List.cons_ne_nil _ _)
  rw [if_pos (decide_eq_true hxne)]
  obtain ⟨u, hu⟩ := joinSep_data_head " | " (clean x)
    ((xs.map clean).filter (fun v => decide (v ≠ "")))
  refine ⟨t ++ u, ?_⟩
  rw [hu, hx]
  rfl

theorem cleanLink_head (pm : String) :
    ∃ t, (clean ("https://pubmed.ncbi.nlm.nih.gov/" ++ pm ++ "/")).data = 'h' :: t := by
  have hd : ∃ u, ("https://pubmed.ncbi.nlm.nih.gov/" ++ pm ++ "/").data = 'h' :: u := by
    rw [sdata_append, sdata_append]
    exact ⟨_, rfl⟩
  obtain ⟨u, hu⟩ := hd
  unfold clean strTrim
  rw [hu]
  exact listTrim_cons_of_nonspace 'h' u (by decide)

theorem refreshLinksOne_snd (hr pl : String) (pubs : List Pub)
    (hnemp : ((pubs.filter (fun p => p.isFullMatch == "yes")).insertionSort
      pubSummaryOrder).isEmpty = false) :
    (refreshLinksOne hr pl pubs).2 =
      (if joinNonEmpty ((firstDedup
          (((pubs.filter (fun p => p.isFullMatch == "yes")).insertionSort
            pubSummaryOrder).filterMap
            (fun p => if clean p.pmid ≠ "" ∧ (clean p.pmid).data.all Char.isDigit then
              some (clean p.pmid) else none))).map
          (fun pm => "https://pubmed.ncbi.nlm.nih.gov/" ++ pm ++ "/")) " | " ≠ ""
        then joinNonEmpty ((firstDedup
          (((pubs.filter (fun p => p.isFullMatch == "yes")).insertionSort
            pubSummaryOrder).filterMap
            (fun p => if clean p.pmid ≠ "" ∧ (clean p.pmid).data.all Char.isDigit then
              some (clean p.pmid) else none))).map
          (fun pm => "https://pubmed.ncbi.nlm.nih.gov/" ++ pm ++ "/")) " | "
        else pl) := by
  have hcond : ¬ (((pubs.filter (fun p => p.isFullMatch == "yes")).insertionSort
      pubSummaryOrder).isEmpty = true) := by
    rw [hnemp]
    exact Bool.false_ne_true
  simp only [refreshLinksOne]
  rw [if_neg hcond]

/-- Counterexample to C4: the has_pubmed predicate of compute_signal_fields is
not equivalent to having a full-match publication record — a trial whose only
full-match row is a DOI-only record keeps pubmed_links NA (has_pubmed false),
and a trial with a PubMed link in pubmed_links but no publication rows has
has_pubmed true. -/
theorem c4_counterexample :
    hasFullMatchRecord [⟨"", "10.1000/x", "NA", "NA", "NA", "doi_reference", 95, "yes"⟩] = true ∧
    hasPubmedSignal "NA" = false ∧
    hasFullMatchRecord [] = false ∧
    hasPubmedSignal "https://pubmed.ncbi.nlm.nih.gov/1/" = true := by decide

/-- C4 amended: has_pubmed is computed from the trial's pubmed_links text, not
from the publication records; the summary refresh guarantees agreement only in
one direction — when some full-match row carries a non-empty all-digit PMID,
the refreshed pubmed_links makes has_pubmed true. -/
theorem c4_has_pubmed_amended (hr pl : String) (pubs : List Pub)
    (h : ∃ p ∈ pubs, p.isFullMatch = "yes" ∧ clean p.pmid ≠ "" ∧
      (clean p.pmid).data.all Char.isDigit = true) :
    hasPubmedSignal (refreshLinksOne hr pl pubs).2 = true := by
  obtain ⟨p, hp, hfm, hne, hdig⟩ := h
  have hpf : p ∈ pubs.filter (fun q => q.isFullMatch == "yes") :=
    List.mem_filter.mpr ⟨hp, by rw [hfm]; rfl⟩
  have hps : p ∈ (pubs.filter (fun q => q.isFullMatch == "yes")).insertionSort pubSummaryOrder :=
    (List.perm_insertionSort pubSummaryOrder _).mem_iff.mpr hpf
  have hnemp : ((pubs.filter (fun q => q.isFullMatch == "yes")).insertionSort
      pubSummaryOrder).isEmpty = false := by
    cases hF : (pubs.filter (fun q => q.isFullMatch == "yes")).insertionSort pubSummaryOrder with
    | nil =>
      rw [hF] at hps
      exact absurd hps (List.not_mem_nil p)
    | cons a as => rfl
  have hpm : clean p.pmid ∈ ((pubs.filter (fun q => q.isFullMatch == "yes")).insertionSort
      pubSummaryOrder).filterMap
      (fun q => if clean q.pmid ≠ "" ∧ (clean q.pmid).data.all Char.isDigit then
        some (clean q.pmid) else none) :=
    List.mem_filterMap.mpr ⟨p, hps, by rw [if_pos ⟨hne, hdig⟩]⟩
  have hpm2 : clean p.pmid ∈ firstDedup (((pubs.filter
      (fun q => q.isFullMatch == "yes")).insertionSort pubSummaryOrder).filterMap
      (fun q => if clean q.pmid ≠ "" ∧ (clean q.pmid).data.all Char.isDigit then
        some (clean q.pmid) else none)) :=
    mem_firstDedup.mpr hpm
  rw [refreshLinksOne_snd hr pl pubs hnemp]
  cases hq : firstDedup (((pubs.filter
      (fun q => q.isFullMatch == "yes")).insertionSort pubSummaryOrder).filterMap
      (fun q => if clean q.pmid ≠ "" ∧ (clean q.pmid).data.all Char.isDigit then
        some (clean q.pmid) else none)) with
  | nil =>
    rw [hq] at hpm2
    exact absurd hpm2 (List.not_mem_nil _)
  | cons q qs =>
    simp only [List.map_cons]
    obtain ⟨t0, ht0⟩ := cleanLink_head q
    obtain ⟨u, hu⟩ := joinNonEmpty_head ("https://pubmed.ncbi.nlm.nih.gov/" ++ q ++ "/")
      (qs.map (fun pm => "https://pubmed.ncbi.nlm.nih.gov/" ++ pm ++ "/")) t0 ht0
    split_ifs with hcond
    · exact hasPubmedSignal_of_head_h ⟨u, hu⟩
    · push_neg at hcond
      have h2 := congrArg String.data hcond
      rw [hu] at h2
      exact absurd h2 (List.cons_ne_nil _ _)

/-- Witness for the amended C4 theorem: a single full-match pubmed_link row
with PMID 123 satisfies the hypothesis, and the refreshed pubmed_links of a
trial whose stored links were NA tests has_pubmed true. -/
theorem c4_witness :
    (∃ p ∈ ([⟨"123", "", "NA", "NA", "NA", "pubmed_link", 98, "yes"⟩] : List Pub),
      p.isFullMatch = "yes" ∧ clean p.pmid ≠ "" ∧
        (clean p.pmid).data.all Char.isDigit = true) ∧
    hasPubmedSignal (refreshLinksOne "no" "NA"
      [⟨"123", "", "NA", "NA", "NA", "pubmed_link", 98, "yes"⟩]).2 = true :=
  ⟨⟨⟨"123", "", "NA", "NA", "NA", "pubmed_link", 98, "yes"⟩, by decide, by decide, by decide,
      by decide⟩,
    c4_has_pubmed_amended "no" "NA" [⟨"123", "", "NA", "NA", "NA", "pubmed_link", 98, "yes"⟩]
      ⟨⟨"123", "", "NA", "NA", "NA", "pubmed_link", 98, "yes"⟩, by decide, by decide, by decide,
        by decide⟩⟩

/-- Counterexample to C1: a stored full-match row (pmid 1, confidence 85, flag
yes) is downgraded to flag no by a rescan that offers the same identifier with
weaker evidence (title_fuzzy at confidence 50): the stored confidence is kept
but the full-match flag is rewritten from yes to no. -/
theorem c1_counterexample :
    (fullTrialPass ⟨none, none, 1000, 120, 30⟩
        ⟨80, 5, 0, "t", [("1", "title_fuzzy", some 50)], [], [], []⟩ false
        [⟨"1", "", "NA", "NA", "NA", "title_fuzzy", 85, "yes"⟩]).1.store =
      [(0, ⟨"1", "", "NA", "NA", "NA", "title_fuzzy", 85, "no"⟩)] := by decide

/-- Counterexample to C10: a surviving stored row with no PMID and no DOI is
never keyed in the dedup maps, so the flag-recompute loop does not visit it —
its stale flag (no, despite title_fuzzy confidence 85 against threshold 80)
survives a skipped incremental pass unchanged. -/
theorem c10_counterexample :
    isFullPublicationMatch (clean "title_fuzzy") 85 80 = true ∧
    (fullTrialPass ⟨some 0, some 999, 1000, 120, 30⟩ ⟨80, 5, 0, "", [], [], [], []⟩ true
        [⟨"", "", "NA", "t", "j", "title_fuzzy", 85, "no"⟩]).1.store =
      [(0, ⟨"", "", "NA", "t", "j", "title_fuzzy", 85, "no"⟩)] := by decide

theorem firstDedupAux_nodup {α : Type} [DecidableEq α] (l seen : List α) :
    (firstDedupAux l seen).Nodup := by
  induction l generalizing seen with
  | nil => exact List.nodup_nil
  | cons y ys ih =>
    by_cases hy : y ∈ seen
    · simp only [firstDedupAux, if_pos hy]
      exact ih seen
    · simp only [firstDedupAux, if_neg hy]
      rw [List.nodup_cons]
      refine ⟨?_, ih (y :: seen)⟩
      intro hmem
      exact (mem_firstDedupAux.mp hmem).2 (List.mem_cons_self y seen)

theorem firstDedup_nodup {α : Type} [DecidableEq α] (l : List α) :
    (firstDedup l).Nodup := firstDedupAux_nodup l []

theorem phaseAStep_found (st : St) (q : Nat × Pub) (j : Nat)
    (hj : (match (if clean q.2.pmid ≠ "" then alookup st.pmidMap (clean q.2.pmid) else none) with
      | some j0 => some j0
      | none => if normalizeDoi q.2.doi ≠ "" then
          alookup st.doiMap (normalizeDoi q.2.doi) else none) = some j) :
    phaseAStep st q = { st with
      store := match lookupRow st.store j with
        | some prim => setRow st.store j (mergePublicationRows prim q.2)
        | none => st.store,
      pmidMap := if clean q.2.pmid ≠ "" then aset st.pmidMap (clean q.2.pmid) j else st.pmidMap,
      doiMap := if normalizeDoi q.2.doi ≠ "" then
        aset st.doiMap (normalizeDoi q.2.doi) j else st.doiMap } := by
  simp only [phaseAStep]
  rw [hj]

theorem phaseAStep_notfound (st : St) (q : Nat × Pub)
    (hj : (match (if clean q.2.pmid ≠ "" then alookup st.pmidMap (clean q.2.pmid) else none) with
      | some j0 => some j0
      | none => if normalizeDoi q.2.doi ≠ "" then
          alookup st.doiMap (normalizeDoi q.2.doi) else none) = none) :
    phaseAStep st q = { st with
      store := st.store ++ [q],
      pmidMap := if clean q.2.pmid ≠ "" then
        aset st.pmidMap (clean q.2.pmid) q.1 else st.pmidMap,
      doiMap := if normalizeDoi q.2.doi ≠ "" then
        aset st.doiMap (normalizeDoi q.2.doi) q.1 else st.doiMap } := by
  simp only [phaseAStep]
  rw [hj]

theorem primary_some_cases (st : St) (q : Nat × Pub) (j : Nat)
    (hj : (match (if clean q.2.pmid ≠ "" then alookup st.pmidMap (clean q.2.pmid) else none) with
      | some j0 => some j0
      | none => if normalizeDoi q.2.doi ≠ "" then
          alookup st.doiMap (normalizeDoi q.2.doi) else none) = some j) :
    (clean q.2.pmid ≠ "" ∧ alookup st.pmidMap (clean q.2.pmid) = some j) ∨
    ((clean q.2.pmid = "" ∨ alookup st.pmidMap (clean q.2.pmid) = none) ∧
      normalizeDoi q.2.doi ≠ "" ∧ alookup st.doiMap (normalizeDoi q.2.doi) = some j) := by
  cases hpl : (if clean q.2.pmid ≠ "" then alookup st.pmidMap (clean q.2.pmid) else none) with
  | some j0 =>
    rw [hpl] at hj
    have hj2 : some j0 = some j := hj
    by_cases hpk : clean q.2.pmid ≠ ""
    · rw [if_pos hpk] at hpl
      left
      exact ⟨hpk, by rw [hpl, hj2]⟩
    · rw [if_neg hpk] at hpl
      exact absurd hpl (by simp)
  | none =>
    rw [hpl] at hj
    have hj2 : (if normalizeDoi q.2.doi ≠ "" then
        alookup st.doiMap (normalizeDoi q.2.doi) else none) = some j := hj
    by_cases hdk : normalizeDoi q.2.doi ≠ ""
    · rw [if_pos hdk] at hj2
      right
      refine ⟨?_, hdk, hj2⟩
      by_cases hpk : clean q.2.pmid ≠ ""
      · rw [if_pos hpk] at hpl
        exact Or.inr hpl
      · push_neg at hpk
        exact Or.inl hpk
    · rw [if_neg hdk] at hj2
      exact absurd hj2 (by simp)

theorem primary_none_pmid (st : St) (q : Nat × Pub)
    (hj : (match (if clean q.2.pmid ≠ "" then alookup st.pmidMap (clean q.2.pmid) else none) with
      | some j0 => some j0
      | none => if normalizeDoi q.2.doi ≠ "" then
          alookup st.doiMap (normalizeDoi q.2.doi) else none) = none) :
    clean q.2.pmid = "" ∨ alookup st.pmidMap (clean q.2.pmid) = none := by
  cases hpl : (if clean q.2.pmid ≠ "" then alookup st.pmidMap (clean q.2.pmid) else none) with
  | some j0 =>
    rw [hpl] at hj
    have hj2 : some j0 = (none : Option Nat) := hj
    exact absurd hj2 (by simp)
  | none =>
    by_cases hpk : clean q.2.pmid ≠ ""
    · rw [if_pos hpk] at hpl
      exact Or.inr hpl
    · push_neg at hpk
      exact Or.inl hpk

theorem phaseAStep_found_live (st : St) (q : Nat × Pub) (j : Nat) (prim : Pub)
    (hj : (match (if clean q.2.pmid ≠ "" then alookup st.pmidMap (clean q.2.pmid) else none) with
      | some j0 => some j0
      | none => if normalizeDoi q.2.doi ≠ "" then
          alookup st.doiMap (normalizeDoi q.2.doi) else none) = some j)
    (hlr : lookupRow st.store j = some prim) :
    phaseAStep st q = { st with
      store := setRow st.store j (mergePublicationRows prim q.2),
      pmidMap := if clean q.2.pmid ≠ "" then aset st.pmidMap (clean q.2.pmid) j else st.pmidMap,
      doiMap := if normalizeDoi q.2.doi ≠ "" then
        aset st.doiMap (normalizeDoi q.2.doi) j else st.doiMap } := by
  rw [phaseAStep_found st q j hj, hlr]

theorem phaseAStep_found_dead (st : St) (q : Nat × Pub) (j : Nat)
    (hj : (match (if clean q.2.pmid ≠ "" then alookup st.pmidMap (clean q.2.pmid) else none) with
      | some j0 => some j0
      | none => if normalizeDoi q.2.doi ≠ "" then
          alookup st.doiMap (normalizeDoi q.2.doi) else none) = some j)
    (hlr : lookupRow st.store j = none) :
    phaseAStep st q = { st with
      pmidMap := if clean q.2.pmid ≠ "" then aset st.pmidMap (clean q.2.pmid) j else st.pmidMap,
      doiMap := if normalizeDoi q.2.doi ≠ "" then
        aset st.doiMap (normalizeDoi q.2.doi) j else st.doiMap } := by
  rw [phaseAStep_found st q j hj, hlr]

theorem phaseAStep_inv (st : St) (q : Nat × Pub)
    (hU : ∀ e ∈ st.store, e.1 < st.next)
    (hN : (st.store.map Prod.fst).Nodup)
    (hA : ∀ e ∈ st.store, clean e.2.pmid ≠ "" →
      alookup st.pmidMap (clean e.2.pmid) = some e.1)
    (hqU : q.1 < st.next)
    (hqF : ∀ e ∈ st.store, e.1 ≠ q.1) :
    (∀ e ∈ (phaseAStep st q).store, e.1 < (phaseAStep st q).next) ∧
    (((phaseAStep st q).store.map Prod.fst).Nodup) ∧
    (∀ e ∈ (phaseAStep st q).store, clean e.2.pmid ≠ "" →
      alookup (phaseAStep st q).pmidMap (clean e.2.pmid) = some e.1) ∧
    (∀ e ∈ (phaseAStep st q).store, e.1 = q.1 ∨ ∃ e0 ∈ st.store, e.1 = e0.1) ∧
    (phaseAStep st q).next = st.next := by
  cases hj : (match (if clean q.2.pmid ≠ "" then alookup st.pmidMap (clean q.2.pmid) else none) with
      | some j0 => some j0
      | none => if normalizeDoi q.2.doi ≠ "" then
          alookup st.doiMap (normalizeDoi q.2.doi) else none) with
  | some j =>
    have hkey : clean q.2.pmid ≠ "" → alookup st.pmidMap (clean q.2.pmid) = some j ∨
        alookup st.pmidMap (clean q.2.pmid) = none := by
      intro hpk
      rcases primary_some_cases st q j hj with ⟨_, h⟩ | ⟨h, _⟩
      · exact Or.inl h
      · rcases h with h | h
        · exact absurd h hpk
        · exact Or.inr h
    have hM : ∀ i : Nat, ∀ k : String, alookup st.pmidMap k = some i →
        alookup (if clean q.2.pmid ≠ "" then aset st.pmidMap (clean q.2.pmid) j
          else st.pmidMap) k = some i := by
      intro i k hik
      by_cases hpk : clean q.2.pmid ≠ ""
      · rw [if_pos hpk]
        by_cases hkq : k = clean q.2.pmid
        · rw [hkq] at hik
          rcases hkey hpk with hsome | hnone
          · rw [hik] at hsome
            have hij : i = j := by
              injection hsome
            rw [hkq, alookup_aset_self, hij]
          · rw [hik] at hnone
            exact absurd hnone (by simp)
        · rw [alookup_aset_ne _ _ _ _ hkq]
          exact hik
      · rw [if_neg hpk]
        exact hik
    cases hlr : lookupRow st.store j with
    | some prim =>
      rw [phaseAStep_found_live st q j prim hj hlr]
      have hprim : (j, prim) ∈ st.store := lookupRow_mem hlr
      refine ⟨?_, ?_, ?_, ?_, rfl⟩
      · intro e he
        rcases mem_setRow he with ⟨e0, he0, heq⟩
        by_cases h0 : e0.1 = j
        · rw [if_pos h0] at heq
          rw [heq]
          exact hU (j, prim) hprim
        · rw [if_neg h0] at heq
          rw [heq]
          exact hU e0 he0
      · rw [setRow_map_fst]
        exact hN
      · intro e he hpm
        rcases mem_setRow he with ⟨e0, he0, heq⟩
        by_cases h0 : e0.1 = j
        · rw [if_pos h0] at heq
          rw [heq] at hpm ⊢
          by_cases hcond : isNa prim.pmid ∧ ¬ isNa q.2.pmid
          · have hmp : clean (mergePublicationRows prim q.2).pmid = clean q.2.pmid := by
              rw [mergePub_pmid, if_pos hcond, clean_clean]
            have hpk : clean q.2.pmid ≠ "" := clean_ne_of_not_isNa hcond.2
            rw [hmp, if_pos hpk, alookup_aset_self]
          · have hmp : (mergePublicationRows prim q.2).pmid = prim.pmid := by
              rw [mergePub_pmid, if_neg hcond]
            rw [hmp] at hpm ⊢
            exact hM j (clean prim.pmid) (hA (j, prim) hprim hpm)
        · rw [if_neg h0] at heq
          rw [heq] at hpm ⊢
          exact hM e0.1 (clean e0.2.pmid) (hA e0 he0 hpm)
      · intro e he
        rcases mem_setRow he with ⟨e0, he0, heq⟩
        by_cases h0 : e0.1 = j
        · rw [if_pos h0] at heq
          rw [heq]
          exact Or.inr ⟨(j, prim), hprim, rfl⟩
        · rw [if_neg h0] at heq
          rw [heq]
          exact Or.inr ⟨e0, he0, rfl⟩
    | none =>
      rw [phaseAStep_found_dead st q j hj hlr]
      refine ⟨hU, hN, ?_, ?_, rfl⟩
      · intro e he hpm
        exact hM e.1 (clean e.2.pmid) (hA e he hpm)
      · intro e he
        exact Or.inr ⟨e, he, rfl⟩
  | none =>
    rw [phaseAStep_notfound st q hj]
    have hpknone := primary_none_pmid st q hj
    have hM0 : ∀ i : Nat, ∀ k : String, alookup st.pmidMap k = some i →
        alookup (if clean q.2.pmid ≠ "" then aset st.pmidMap (clean q.2.pmid) q.1
          else st.pmidMap) k = some i := by
      intro i k hik
      by_cases hpk : clean q.2.pmid ≠ ""
      · rw [if_pos hpk]
        by_cases hkq : k = clean q.2.pmid
        · rw [hkq] at hik
          rcases hpknone with h | h
          · exact absurd h hpk
          · rw [hik] at h
            exact absurd h (by simp)
        · rw [alookup_aset_ne _ _ _ _ hkq]
          exact hik
      · rw [if_neg hpk]
        exact hik
    refine ⟨?_, ?_, ?_, ?_, rfl⟩
    · intro e he
      rcases List.mem_append.mp he with h1 | h1
      · exact hU e h1
      · rw [List.mem_singleton.mp h1]
        exact hqU
    · rw [List.map_append, List.nodup_append]
      refine ⟨hN, List.nodup_singleton _, ?_⟩
      intro a ha hb
      rcases List.mem_map.mp ha with ⟨e0, he0, hfst⟩
      rw [List.map_singleton, List.mem_singleton] at hb
      exact hqF e0 he0 (by rw [hfst, hb])
    · intro e he hpm
      rcases List.mem_append.mp he with h1 | h1
      · exact hM0 e.1 (clean e.2.pmid) (hA e h1 hpm)
      · rw [List.mem_singleton.mp h1] at hpm ⊢
        rw [if_pos hpm, alookup_aset_self]
    · intro e he
      rcases List.mem_append.mp he with h1 | h1
      · exact Or.inr ⟨e, h1, rfl⟩
      · exact Or.inl (by rw [List.mem_singleton.mp h1])

theorem phaseA_foldl_inv (l : List (Nat × Pub)) (st : St)
    (hU : ∀ e ∈ st.store, e.1 < st.next)
    (hN : (st.store.map Prod.fst).Nodup)
    (hA : ∀ e ∈ st.store, clean e.2.pmid ≠ "" →
      alookup st.pmidMap (clean e.2.pmid) = some e.1)
    (hlU : ∀ q ∈ l, q.1 < st.next)
    (hlF : ∀ q ∈ l, ∀ e ∈ st.store, e.1 ≠ q.1)
    (hlN : (l.map Prod.fst).Nodup) :
    (∀ e ∈ (l.foldl phaseAStep st).store, e.1 < (l.foldl phaseAStep st).next) ∧
    (((l.foldl phaseAStep st).store.map Prod.fst).Nodup) ∧
    (∀ e ∈ (l.foldl phaseAStep st).store, clean e.2.pmid ≠ "" →
      alookup (l.foldl phaseAStep st).pmidMap (clean e.2.pmid) = some e.1) ∧
    (l.foldl phaseAStep st).next = st.next := by
  induction l generalizing st with
  | nil => exact ⟨hU, hN, hA, rfl⟩
  | cons q tl ih =>
    rw [List.map_cons, List.nodup_cons] at hlN
    obtain ⟨hU1, hN1, hA1, hprov, hnext1⟩ := phaseAStep_inv st q hU hN hA
      (hlU q (List.mem_cons_self q tl)) (fun e he => hlF q (List.mem_cons_self q tl) e he)
    rw [List.foldl_cons]
    have hU1' : ∀ e ∈ (phaseAStep st q).store, e.1 < (phaseAStep st q).next := hU1
    have step := ih (phaseAStep st q) hU1 hN1 hA1
      (fun q' hq' => by rw [hnext1]; exact hlU q' (List.mem_cons_of_mem q hq'))
      (fun q' hq' e he => by
        rcases hprov e he with h1 | ⟨e0, he0, h1⟩
        · rw [h1]
          intro hcontra
          exact hlN.1 (hcontra ▸ List.mem_map.mpr ⟨q', hq', rfl⟩)
        · rw [h1]
          exact hlF q' (List.mem_cons_of_mem q hq') e0 he0)
      hlN.2
    exact ⟨step.1, step.2.1, step.2.2.1, by rw [step.2.2.2, hnext1]⟩

theorem phaseA_inv (pubs : List Pub) :
    (∀ e ∈ (phaseA pubs).store, e.1 < (phaseA pubs).next) ∧
    (((phaseA pubs).store.map Prod.fst).Nodup) ∧
    (∀ e ∈ (phaseA pubs).store, clean e.2.pmid ≠ "" →
      alookup (phaseA pubs).pmidMap (clean e.2.pmid) = some e.1) ∧
    (phaseA pubs).next = pubs.length := by
  have h := phaseA_foldl_inv pubs.enum (initSt pubs.length)
    (by intro e he; simp [initSt] at he)
    (by simp [initSt])
    (by intro e he; simp [initSt] at he)
    (by
      intro q hq
      have h1 : q.1 ∈ pubs.enum.map Prod.fst := List.mem_map.mpr ⟨q, hq, rfl⟩
      rw [List.enum_map_fst] at h1
      exact List.mem_range.mp h1)
    (by intro q hq e he; simp [initSt] at he)
    (by rw [List.enum_map_fst]; exact List.nodup_range _)
  exact h

theorem phaseB_eq (th : Int) (st : St) :
    phaseB th st = (uniqueIds st).foldl
      (fun s i => match lookupRow s.store i with
        | some p => { s with store := setRow s.store i (recomputeFlag th p) }
        | none => s) st := rfl

theorem phaseBFold_frame (th : Int) (ids : List Nat) (st : St) :
    (ids.foldl (fun s i => match lookupRow s.store i with
        | some p => { s with store := setRow s.store i (recomputeFlag th p) }
        | none => s) st).pmidMap = st.pmidMap ∧
    (ids.foldl (fun s i => match lookupRow s.store i with
        | some p => { s with store := setRow s.store i (recomputeFlag th p) }
        | none => s) st).doiMap = st.doiMap ∧
    (ids.foldl (fun s i => match lookupRow s.store i with
        | some p => { s with store := setRow s.store i (recomputeFlag th p) }
        | none => s) st).next = st.next ∧
    (ids.foldl (fun s i => match lookupRow s.store i with
        | some p => { s with store := setRow s.store i (recomputeFlag th p) }
        | none => s) st).store.map Prod.fst = st.store.map Prod.fst := by
  induction ids generalizing st with
  | nil => exact ⟨rfl, rfl, rfl, rfl⟩
  | cons a tl ih =>
    simp only [List.foldl_cons]
    cases hla : lookupRow st.store a with
    | none => exact ih st
    | some p =>
      have h2 := ih { st with store := setRow st.store a (recomputeFlag th p) }
      have h3 : ({ st with store := setRow st.store a (recomputeFlag th p) } : St).store.map
          Prod.fst = st.store.map Prod.fst := setRow_map_fst _ _ _
      exact ⟨h2.1, h2.2.1, h2.2.2.1, h2.2.2.2.trans h3⟩

theorem phaseBFold_lookup (th : Int) (ids : List Nat) (st : St) (i : Nat)
    (hnd : ids.Nodup) :
    lookupRow ((ids.foldl (fun s j => match lookupRow s.store j with
        | some p => { s with store := setRow s.store j (recomputeFlag th p) }
        | none => s) st).store) i =
      if i ∈ ids then (lookupRow st.store i).map (recomputeFlag th)
      else lookupRow st.store i := by
  induction ids generalizing st with
  | nil => simp
  | cons a tl ih =>
    rw [List.nodup_cons] at hnd
    simp only [List.foldl_cons]
    by_cases hi : i = a
    · rw [if_pos (by rw [hi]; exact List.mem_cons_self a tl)]
      have hitl : i ∉ tl := by rw [hi]; exact hnd.1
      cases hla : lookupRow st.store a with
      | none =>
        have h2 := ih st hnd.2
        rw [if_neg hitl] at h2
        rw [hi] at h2 ⊢
        rw [hla] at h2
        rw [hla]
        exact h2
      | some p =>
        have h2 := ih { st with store := setRow st.store a (recomputeFlag th p) } hnd.2
        rw [if_neg hitl] at h2
        have h3 : lookupRow ({ st with
            store := setRow st.store a (recomputeFlag th p) } : St).store i =
            some (recomputeFlag th p) := by
          rw [hi]
          exact lookupRow_setRow_self _ hla
        rw [h3] at h2
        rw [hi] at h2 ⊢
        rw [hla]
        exact h2
    · have hcond : (i ∈ a :: tl) ↔ (i ∈ tl) := by
        rw [List.mem_cons]
        exact ⟨fun h => h.resolve_left hi, Or.inr⟩
      cases hla : lookupRow st.store a with
      | none =>
        have h2 := ih st hnd.2
        by_cases him : i ∈ tl
        · rw [if_pos (hcond.mpr him)]
          rw [if_pos him] at h2
          exact h2
        · rw [if_neg (fun hc => him (hcond.mp hc))]
          rw [if_neg him] at h2
          exact h2
      | some p =>
        have h2 := ih { st with store := setRow st.store a (recomputeFlag th p) } hnd.2
        have h3 : lookupRow ({ st with
            store := setRow st.store a (recomputeFlag th p) } : St).store i =
            lookupRow st.store i := lookupRow_setRow_ne _ hi
        rw [h3] at h2
        by_cases him : i ∈ tl
        · rw [if_pos (hcond.mpr him)]
          rw [if_pos him] at h2
          exact h2
        · rw [if_neg (fun hc => him (hcond.mp hc))]
          rw [if_neg him] at h2
          exact h2

theorem phaseAB_frame (th : Int) (pubs : List Pub) :
    (phaseAB th pubs).pmidMap = (phaseA pubs).pmidMap ∧
    (phaseAB th pubs).doiMap = (phaseA pubs).doiMap ∧
    (phaseAB th pubs).next = (phaseA pubs).next ∧
    (phaseAB th pubs).store.map Prod.fst = (phaseA pubs).store.map Prod.fst := by
  have hEq : phaseAB th pubs = (uniqueIds (phaseA pubs)).foldl
      (fun s j => match lookupRow s.store j with
        | some p => { s with store := setRow s.store j (recomputeFlag th p) }
        | none => s) (phaseA pubs) := rfl
  rw [hEq]
  exact phaseBFold_frame th (uniqueIds (phaseA pubs)) (phaseA pubs)

theorem phaseAB_rows (th : Int) (pubs : List Pub) (i : Nat) (r : Pub)
    (hmem : (i, r) ∈ (phaseAB th pubs).store) (hpm : clean r.pmid ≠ "") :
    ∃ p, lookupRow (phaseA pubs).store i = some p ∧ r = recomputeFlag th p := by
  have hEq : phaseAB th pubs = (uniqueIds (phaseA pubs)).foldl
      (fun s j => match lookupRow s.store j with
        | some p => { s with store := setRow s.store j (recomputeFlag th p) }
        | none => s) (phaseA pubs) := rfl
  have hNfold : ((phaseAB th pubs).store.map Prod.fst).Nodup := by
    rw [(phaseAB_frame th pubs).2.2.2]
    exact (phaseA_inv pubs).2.1
  have hlook : lookupRow (phaseAB th pubs).store i = some r := mem_lookupRow hNfold hmem
  rw [hEq] at hlook
  have hval := hlook.symm.trans
    (phaseBFold_lookup th (uniqueIds (phaseA pubs)) (phaseA pubs) i
      (firstDedup_nodup _))
  by_cases hin : i ∈ uniqueIds (phaseA pubs)
  · rw [if_pos hin] at hval
    cases hp : lookupRow (phaseA pubs).store i with
    | none =>
      rw [hp] at hval
      exact absurd hval (by simp)
    | some p =>
      rw [hp, Option.map_some'] at hval
      refine ⟨p, rfl, ?_⟩
      injection hval
  · rw [if_neg hin] at hval
    have hmemA : (i, r) ∈ (phaseA pubs).store := lookupRow_mem hval.symm
    have hkey := (phaseA_inv pubs).2.2.1 (i, r) hmemA hpm
    have hins : i ∈ uniqueIds (phaseA pubs) := mem_firstDedup.mpr
      (List.mem_append.mpr (Or.inl (List.mem_map.mpr ⟨(clean r.pmid, i), alookup_mem hkey, rfl⟩)))
    exact absurd hins hin

theorem phaseAB_inv (th : Int) (pubs : List Pub) :
    (∀ e ∈ (phaseAB th pubs).store, e.1 < (phaseAB th pubs).next) ∧
    (((phaseAB th pubs).store.map Prod.fst).Nodup) ∧
    (∀ e ∈ (phaseAB th pubs).store, clean e.2.pmid ≠ "" →
      alookup (phaseAB th pubs).pmidMap (clean e.2.pmid) = some e.1) ∧
    (phaseAB th pubs).next = pubs.length := by
  obtain ⟨hU, hN, hA, hnext⟩ := phaseA_inv pubs
  obtain ⟨hfp, hfd, hfn, hfs⟩ := phaseAB_frame th pubs
  refine ⟨?_, ?_, ?_, hfn.trans hnext⟩
  · intro e he
    have h1 : e.1 ∈ (phaseAB th pubs).store.map Prod.fst := List.mem_map.mpr ⟨e, he, rfl⟩
    rw [hfs] at h1
    rcases List.mem_map.mp h1 with ⟨e0, he0, hfst⟩
    rw [hfn, ← hfst]
    exact hU e0 he0
  · rw [hfs]
    exact hN
  · intro e he hpm
    obtain ⟨p, hp, hrp⟩ := phaseAB_rows th pubs e.1 e.2 he hpm
    have hmemA : (e.1, p) ∈ (phaseA pubs).store := lookupRow_mem hp
    have hkeyeq : clean e.2.pmid = clean p.pmid := by
      rw [hrp, recomputeFlag_pmid]
    rw [hfp, hkeyeq]
    exact hA (e.1, p) hmemA (by rw [← hkeyeq]; exact hpm)

/-- C10 amended: the flag re-derivation at the start of a trial's pass reaches
exactly the rows that are keyed by an identifier — for every surviving row that
carries a non-empty PMID, even in a pass that is then skipped by the
incremental schedule, the stored full-match flag agrees with the one derived
from the stored method and confidence against the current threshold (rows with
neither PMID nor DOI are never re-keyed and can keep a stale flag). -/
theorem c10_flag_rederivation (sched : SchedInput) (inp : ScanInput) (pubs : List Pub)
    (i : Nat) (r : Pub)
    (hskip : shouldScanTrialIncremental sched.lastUpdateDate sched.publicationScanDate
      (existingRows (phaseAB inp.threshold pubs)) sched.refreshDays sched.retryDaysNoMatch
      sched.today = false)
    (hmem : (i, r) ∈ (fullTrialPass sched inp true pubs).1.store)
    (hpm : clean r.pmid ≠ "") :
    strLower (strTrim r.isFullMatch) =
      (if isFullPublicationMatch (clean r.matchMethod) r.confidence inp.threshold
        then "yes" else "no") := by
  have hfp : fullTrialPass sched inp true pubs = (phaseAB inp.threshold pubs, false) := by
    simp only [fullTrialPass]
    split_ifs with h
    · rfl
    · exfalso
      apply h
      refine ⟨trivial, ?_⟩
      rw [hskip]
      exact Bool.false_ne_true
  rw [hfp] at hmem
  obtain ⟨p, hp, hrp⟩ := phaseAB_rows inp.threshold pubs i r hmem hpm
  rw [hrp]
  exact recomputeFlag_derived inp.threshold p

/-- Witness for the amended C10 theorem: a stale stored flag (no, at
title_fuzzy confidence 85 with threshold 80) on a PMID-keyed row is rewritten
to yes even though the trial is skipped by the incremental schedule. -/
theorem c10_witness :
    (shouldScanTrialIncremental (some 0) (some 999)
        (existingRows (phaseAB 80 [⟨"1", "", "NA", "NA", "NA", "title_fuzzy", 85, "no"⟩]))
        120 30 1000 = false ∧
      (0, (⟨"1", "", "NA", "NA", "NA", "title_fuzzy", 85, "yes"⟩ : Pub)) ∈
        (fullTrialPass ⟨some 0, some 999, 1000, 120, 30⟩ ⟨80, 5, 0, "", [], [], [], []⟩ true
          [⟨"1", "", "NA", "NA", "NA", "title_fuzzy", 85, "no"⟩]).1.store ∧
      clean (⟨"1", "", "NA", "NA", "NA", "title_fuzzy", 85, "yes"⟩ : Pub).pmid ≠ "") ∧
    strLower (strTrim (⟨"1", "", "NA", "NA", "NA", "title_fuzzy", 85, "yes"⟩ : Pub).isFullMatch) =
      (if isFullPublicationMatch
          (clean (⟨"1", "", "NA", "NA", "NA", "title_fuzzy", 85, "yes"⟩ : Pub).matchMethod)
          (⟨"1", "", "NA", "NA", "NA", "title_fuzzy", 85, "yes"⟩ : Pub).confidence 80
        then "yes" else "no") :=
  ⟨⟨by decide, by decide, by decide⟩,
    c10_flag_rederivation ⟨some 0, some 999, 1000, 120, 30⟩ ⟨80, 5, 0, "", [], [], [], []⟩
      [⟨"1", "", "NA", "NA", "NA", "title_fuzzy", 85, "no"⟩] 0
      ⟨"1", "", "NA", "NA", "NA", "title_fuzzy", 85, "yes"⟩ (by decide) (by decide) (by decide)⟩

theorem St_mk_store (a : List (Nat × Pub)) (b c : List (String × Nat)) (d : Nat) :
    (St.mk a b c d).store = a := rfl

theorem St_mk_pmidMap (a : List (Nat × Pub)) (b c : List (String × Nat)) (d : Nat) :
    (St.mk a b c d).pmidMap = b := rfl

theorem St_mk_doiMap (a : List (Nat × Pub)) (b c : List (String × Nat)) (d : Nat) :
    (St.mk a b c d).doiMap = c := rfl

theorem St_mk_next (a : List (Nat × Pub)) (b c : List (String × Nat)) (d : Nat) :
    (St.mk a b c d).next = d := rfl

theorem CState_mk_st (a : St) (b c d : List String) : (CState.mk a b c d).st = a := rfl

theorem CState_mk_rawDois (a : St) (b c d : List String) :
    (CState.mk a b c d).rawDois = b := rfl

theorem CState_mk_dwp (a : St) (b c d : List String) :
    (CState.mk a b c d).doisWithPmid = c := rfl

theorem CState_mk_seen (a : St) (b c d : List String) : (CState.mk a b c d).seen = d := rfl

theorem stSet_inv (st : St) (i : Nat) (row : Pub) (M D : List (String × Nat))
    (hU : ∀ e ∈ st.store, e.1 < st.next)
    (hN : (st.store.map Prod.fst).Nodup)
    (hMold : ∀ e ∈ st.store, clean e.2.pmid ≠ "" → alookup M (clean e.2.pmid) = some e.1)
    (hrow : clean row.pmid ≠ "" → alookup M (clean row.pmid) = some i)
    (hiex : ∃ ex, (i, ex) ∈ st.store) :
    (∀ e ∈ (St.mk (setRow st.store i row) M D st.next).store,
      e.1 < (St.mk (setRow st.store i row) M D st.next).next) ∧
    (((St.mk (setRow st.store i row) M D st.next).store.map Prod.fst).Nodup) ∧
    (∀ e ∈ (St.mk (setRow st.store i row) M D st.next).store, clean e.2.pmid ≠ "" →
      alookup (St.mk (setRow st.store i row) M D st.next).pmidMap (clean e.2.pmid) = some e.1) := by
  obtain ⟨ex, hex⟩ := hiex
  refine ⟨?_, ?_, ?_⟩
  · intro e he
    rcases mem_setRow he with ⟨e0, he0, heq⟩
    by_cases h0 : e0.1 = i
    · rw [if_pos h0] at heq
      rw [heq]
      exact hU (i, ex) hex
    · rw [if_neg h0] at heq
      rw [heq]
      exact hU e0 he0
  · rw [St_mk_store, setRow_map_fst]
    exact hN
  · intro e he hpm
    rcases mem_setRow he with ⟨e0, he0, heq⟩
    by_cases h0 : e0.1 = i
    · rw [if_pos h0] at heq
      rw [heq] at hpm ⊢
      exact hrow hpm
    · rw [if_neg h0] at heq
      rw [heq] at hpm ⊢
      exact hMold e0 he0 hpm

theorem stInsert_inv (st : St) (row : Pub) (M D : List (String × Nat))
    (hU : ∀ e ∈ st.store, e.1 < st.next)
    (hN : (st.store.map Prod.fst).Nodup)
    (hMold : ∀ e ∈ st.store, clean e.2.pmid ≠ "" → alookup M (clean e.2.pmid) = some e.1)
    (hrow : clean row.pmid ≠ "" → alookup M (clean row.pmid) = some st.next) :
    (∀ e ∈ (St.mk (st.store ++ [(st.next, row)]) M D (st.next + 1)).store,
      e.1 < (St.mk (st.store ++ [(st.next, row)]) M D (st.next + 1)).next) ∧
    (((St.mk (st.store ++ [(st.next, row)]) M D (st.next + 1)).store.map Prod.fst).Nodup) ∧
    (∀ e ∈ (St.mk (st.store ++ [(st.next, row)]) M D (st.next + 1)).store,
      clean e.2.pmid ≠ "" →
      alookup (St.mk (st.store ++ [(st.next, row)]) M D (st.next + 1)).pmidMap
        (clean e.2.pmid) = some e.1) := by
  refine ⟨?_, ?_, ?_⟩
  · intro e he
    rcases List.mem_append.mp he with h1 | h1
    · exact Nat.lt_succ_of_lt (hU e h1)
    · rw [List.mem_singleton.mp h1]
      exact Nat.lt_succ_self _
  · rw [St_mk_store, List.map_append, List.nodup_append]
    refine ⟨hN, List.nodup_singleton _, ?_⟩
    intro a ha hb
    rcases List.mem_map.mp ha with ⟨e0, he0, hfst⟩
    rw [List.map_singleton, List.mem_singleton] at hb
    have : e0.1 < st.next := hU e0 he0
    rw [hfst, hb] at this
    exact absurd this (lt_irrefl _)
  · intro e he hpm
    rcases List.mem_append.mp he with h1 | h1
    · exact hMold e h1 hpm
    · rw [List.mem_singleton.mp h1] at hpm ⊢
      exact hrow hpm

theorem alookup_aset_of_found {M : List (String × Nat)} {pmid k0 : String} {i j : Nat}
    (hfound : alookup M pmid = some j) (hold : alookup M k0 = some i) :
    alookup (aset M pmid j) k0 = some i := by
  by_cases hk : k0 = pmid
  · rw [hk] at hold
    rw [hold] at hfound
    injection hfound with hij
    rw [hk, alookup_aset_self, ← hij]
  · rw [alookup_aset_ne _ _ _ _ hk]
    exact hold

theorem alookup_aset_of_none {M : List (String × Nat)} {pmid k0 : String} {i : Nat} (v : Nat)
    (hnone : alookup M pmid = none) (hold : alookup M k0 = some i) :
    alookup (aset M pmid v) k0 = some i := by
  by_cases hk : k0 = pmid
  · rw [hk] at hold
    rw [hold] at hnone
    exact absurd hnone (by simp)
  · rw [alookup_aset_ne _ _ _ _ hk]
    exact hold

theorem phaseCStep_seen (th : Int) (summaries : List (String × Summary))
    (m : List (String × String × Int)) (cs : CState) (pmid : String)
    (hseen : pmid ∈ cs.seen) : phaseCStep th summaries m cs pmid = cs := by
  simp only [phaseCStep, if_pos hseen]

theorem phaseCStep_st_found_live (th : Int) (summaries : List (String × Summary))
    (m : List (String × String × Int)) (cs : CState) (pmid : String) (i : Nat) (ex : Pub)
    (hseen : pmid ∉ cs.seen)
    (hfound : alookup cs.st.pmidMap pmid = some i)
    (hrow : lookupRow cs.st.store i = some ex) :
    (phaseCStep th summaries m cs pmid).st = St.mk
      (setRow cs.st.store i (scanFinal
        (decide (ex.confidence ≤ ((alookup m pmid).getD ("title_fuzzy", 70)).2))
        ((alookup m pmid).getD ("title_fuzzy", 70)).1
        ((alookup m pmid).getD ("title_fuzzy", 70)).2
        (if isFullPublicationMatch ((alookup m pmid).getD ("title_fuzzy", 70)).1
            ((alookup m pmid).getD ("title_fuzzy", 70)).2 th then "yes" else "no")
        (scanFill ((alookup summaries pmid).getD emptySummary)
          ((alookup summaries pmid).getD emptySummary).pubDate
          (normalizeDoi ((alookup summaries pmid).getD emptySummary).doi) ex)))
      (aset cs.st.pmidMap pmid i)
      (if normalizeDoi ((alookup summaries pmid).getD emptySummary).doi ≠ "" then
        aset cs.st.doiMap (normalizeDoi ((alookup summaries pmid).getD emptySummary).doi) i
       else cs.st.doiMap)
      cs.st.next := by
  simp only [phaseCStep]
  rw [if_neg hseen]
  by_cases hdoi : normalizeDoi ((alookup summaries pmid).getD emptySummary).doi ≠ ""
  · simp only [if_pos hdoi, CState_mk_st, CState_mk_rawDois, CState_mk_dwp, CState_mk_seen,
      hfound, hrow]
  · simp only [if_neg hdoi, CState_mk_st, CState_mk_rawDois, CState_mk_dwp, CState_mk_seen,
      hfound, hrow]

theorem phaseCStep_st_found_dead (th : Int) (summaries : List (String × Summary))
    (m : List (String × String × Int)) (cs : CState) (pmid : String) (i : Nat)
    (hseen : pmid ∉ cs.seen)
    (hfound : alookup cs.st.pmidMap pmid = some i)
    (hrow : lookupRow cs.st.store i = none) :
    (phaseCStep th summaries m cs pmid).st = cs.st := by
  simp only [phaseCStep]
  rw [if_neg hseen]
  by_cases hdoi : normalizeDoi ((alookup summaries pmid).getD emptySummary).doi ≠ ""
  · simp only [if_pos hdoi, CState_mk_st, CState_mk_rawDois, CState_mk_dwp, CState_mk_seen,
      hfound, hrow]
  · simp only [if_neg hdoi, CState_mk_st, CState_mk_rawDois, CState_mk_dwp, CState_mk_seen,
      hfound, hrow]

theorem phaseCStep_st_cand (th : Int) (summaries : List (String × Summary))
    (m : List (String × String × Int)) (cs : CState) (pmid : String) (j : Nat) (cnd : Pub)
    (hseen : pmid ∉ cs.seen)
    (hfound : alookup cs.st.pmidMap pmid = none)
    (hdoi : normalizeDoi ((alookup summaries pmid).getD emptySummary).doi ≠ "")
    (hdm : alookup cs.st.doiMap
      (normalizeDoi ((alookup summaries pmid).getD emptySummary).doi) = some j)
    (hrj : lookupRow cs.st.store j = some cnd)
    (hguard : ¬ (clean cnd.pmid ≠ "" ∧ clean cnd.pmid ≠ pmid)) :
    (phaseCStep th summaries m cs pmid).st = St.mk
      (setRow cs.st.store j (scanFinal
        (decide ((if clean cnd.pmid = "" then { cnd with pmid := pmid } else cnd).confidence ≤
          ((alookup m pmid).getD ("title_fuzzy", 70)).2))
        ((alookup m pmid).getD ("title_fuzzy", 70)).1
        ((alookup m pmid).getD ("title_fuzzy", 70)).2
        (if isFullPublicationMatch ((alookup m pmid).getD ("title_fuzzy", 70)).1
            ((alookup m pmid).getD ("title_fuzzy", 70)).2 th then "yes" else "no")
        (scanFill ((alookup summaries pmid).getD emptySummary)
          ((alookup summaries pmid).getD emptySummary).pubDate
          (normalizeDoi ((alookup summaries pmid).getD emptySummary).doi)
          (if clean cnd.pmid = "" then { cnd with pmid := pmid } else cnd))))
      (aset cs.st.pmidMap pmid j)
      (aset cs.st.doiMap (normalizeDoi ((alookup summaries pmid).getD emptySummary).doi) j)
      cs.st.next := by
  simp only [phaseCStep]
  rw [if_neg hseen]
  simp only [if_pos hdoi, CState_mk_st, CState_mk_rawDois, CState_mk_dwp, CState_mk_seen,
    hfound, hdm, hrj, if_neg hguard]

theorem phaseCStep_st_insert (th : Int) (summaries : List (String × Summary))
    (m : List (String × String × Int)) (cs : CState) (pmid : String)
    (hseen : pmid ∉ cs.seen)
    (hfound : alookup cs.st.pmidMap pmid = none)
    (hcand : (if normalizeDoi ((alookup summaries pmid).getD emptySummary).doi ≠ "" then
        match alookup cs.st.doiMap
          (normalizeDoi ((alookup summaries pmid).getD emptySummary).doi) with
        | some j =>
          match lookupRow cs.st.store j with
          | some cnd =>
            if clean cnd.pmid ≠ "" ∧ clean cnd.pmid ≠ pmid then none else some (j, cnd)
          | none => none
        | none => none
      else none) = none) :
    (phaseCStep th summaries m cs pmid).st = St.mk
      (cs.st.store ++ [(cs.st.next,
        { pmid := pmid,
          doi := normalizeDoi ((alookup summaries pmid).getD emptySummary).doi,
          publicationDate := if ((alookup summaries pmid).getD emptySummary).pubDate ≠ "" then
              ((alookup summaries pmid).getD emptySummary).pubDate else "NA",
          publicationTitle := if clean
              ((alookup summaries pmid).getD emptySummary).publicationTitle ≠ "" then
              clean ((alookup summaries pmid).getD emptySummary).publicationTitle else "NA",
          journal := if clean ((alookup summaries pmid).getD emptySummary).journal ≠ "" then
              clean ((alookup summaries pmid).getD emptySummary).journal else "NA",
          matchMethod := ((alookup m pmid).getD ("title_fuzzy", 70)).1,
          confidence := ((alookup m pmid).getD ("title_fuzzy", 70)).2,
          isFullMatch := if isFullPublicationMatch ((alookup m pmid).getD ("title_fuzzy", 70)).1
              ((alookup m pmid).getD ("title_fuzzy", 70)).2 th then "yes" else "no" })])
      (aset cs.st.pmidMap pmid cs.st.next)
      (if normalizeDoi ((alookup summaries pmid).getD emptySummary).doi ≠ "" then
        aset cs.st.doiMap (normalizeDoi ((alookup summaries pmid).getD emptySummary).doi)
          cs.st.next
       else cs.st.doiMap)
      (cs.st.next + 1) := by
  simp only [phaseCStep]
  rw [if_neg hseen]
  by_cases hdoi : normalizeDoi ((alookup summaries pmid).getD emptySummary).doi ≠ ""
  · rw [if_pos hdoi] at hcand
    simp only [if_pos hdoi, CState_mk_st, CState_mk_rawDois, CState_mk_dwp, CState_mk_seen,
      hfound, hcand]
  · rw [if_neg hdoi] at hcand
    simp only [if_neg hdoi, CState_mk_st, CState_mk_rawDois, CState_mk_dwp, CState_mk_seen,
      hfound, hcand]

theorem phaseCStep_inv (th : Int) (summaries : List (String × Summary))
    (m : List (String × String × Int)) (cs : CState) (pmid : String)
    (htf : clean pmid = pmid)
    (hU : ∀ e ∈ cs.st.store, e.1 < cs.st.next)
    (hN : (cs.st.store.map Prod.fst).Nodup)
    (hA : ∀ e ∈ cs.st.store, clean e.2.pmid ≠ "" →
      alookup cs.st.pmidMap (clean e.2.pmid) = some e.1) :
    (∀ e ∈ (phaseCStep th summaries m cs pmid).st.store,
      e.1 < (phaseCStep th summaries m cs pmid).st.next) ∧
    (((phaseCStep th summaries m cs pmid).st.store.map Prod.fst).Nodup) ∧
    (∀ e ∈ (phaseCStep th summaries m cs pmid).st.store, clean e.2.pmid ≠ "" →
      alookup (phaseCStep th summaries m cs pmid).st.pmidMap (clean e.2.pmid) = some e.1) := by
  by_cases hseen : pmid ∈ cs.seen
  · rw [phaseCStep_seen th summaries m cs pmid hseen]
    exact ⟨hU, hN, hA⟩
  cases hfound : alookup cs.st.pmidMap pmid with
  | some i =>
    cases hrow : lookupRow cs.st.store i with
    | some ex =>
      rw [phaseCStep_st_found_live th summaries m cs pmid i ex hseen hfound hrow]
      refine stSet_inv cs.st i _ _ _ hU hN ?_ ?_ ⟨ex, lookupRow_mem hrow⟩
      · intro e he hpm
        exact alookup_aset_of_found hfound (hA e he hpm)
      · intro hpm
        rw [scanFinal_pmid, scanFill_pmid] at hpm ⊢
        exact alookup_aset_of_found hfound (hA (i, ex) (lookupRow_mem hrow) hpm)
    | none =>
      rw [phaseCStep_st_found_dead th summaries m cs pmid i hseen hfound hrow]
      exact ⟨hU, hN, hA⟩
  | none =>
    by_cases hdoi : normalizeDoi ((alookup summaries pmid).getD emptySummary).doi ≠ ""
    · cases hdm : alookup cs.st.doiMap
          (normalizeDoi ((alookup summaries pmid).getD emptySummary).doi) with
      | some j =>
        cases hrj : lookupRow cs.st.store j with
        | some cnd =>
          by_cases hguard : clean cnd.pmid ≠ "" ∧ clean cnd.pmid ≠ pmid
          · have hcand : (if normalizeDoi ((alookup summaries pmid).getD emptySummary).doi
                  ≠ "" then
                match alookup cs.st.doiMap
                  (normalizeDoi ((alookup summaries pmid).getD emptySummary).doi) with
                | some j =>
                  match lookupRow cs.st.store j with
                  | some cnd =>
                    if clean cnd.pmid ≠ "" ∧ clean cnd.pmid ≠ pmid then none
                    else some (j, cnd)
                  | none => none
                | none => none
              else none) = none := by
              rw [if_pos hdoi]
              simp only [hdm, hrj, if_pos hguard]
            rw [phaseCStep_st_insert th summaries m cs pmid hseen hfound hcand]
            refine stInsert_inv cs.st _ _ _ hU hN ?_ ?_
            · intro e he hpm
              exact alookup_aset_of_none _ hfound (hA e he hpm)
            · intro hpm
              show alookup (aset cs.st.pmidMap pmid cs.st.next) (clean pmid) = some cs.st.next
              rw [htf, alookup_aset_self]
          · rw [phaseCStep_st_cand th summaries m cs pmid j cnd hseen hfound hdoi hdm hrj
              hguard]
            refine stSet_inv cs.st j _ _ _ hU hN ?_ ?_ ⟨cnd, lookupRow_mem hrj⟩
            · intro e he hpm
              exact alookup_aset_of_none _ hfound (hA e he hpm)
            · intro hpm
              rw [scanFinal_pmid, scanFill_pmid] at hpm ⊢
              by_cases hc : clean cnd.pmid = ""
              · rw [if_pos hc] at hpm ⊢
                have hupd : ({ cnd with pmid := pmid } : Pub).pmid = pmid := rfl
                rw [hupd] at hpm ⊢
                rw [htf, alookup_aset_self]
              · rw [if_neg hc] at hpm ⊢
                push_neg at hguard
                have hcp : clean cnd.pmid = pmid := hguard hc
                rw [hcp, alookup_aset_self]
        | none =>
          have hcand : (if normalizeDoi ((alookup summaries pmid).getD emptySummary).doi
                ≠ "" then
              match alookup cs.st.doiMap
                (normalizeDoi ((alookup summaries pmid).getD emptySummary).doi) with
              | some j =>
                match lookupRow cs.st.store j with
                | some cnd =>
                  if clean cnd.pmid ≠ "" ∧ clean cnd.pmid ≠ pmid then none
                  else some (j, cnd)
                | none => none
              | none => none
            else none) = none := by
            rw [if_pos hdoi]
            simp only [hdm, hrj]
          rw [phaseCStep_st_insert th summaries m cs pmid hseen hfound hcand]
          refine stInsert_inv cs.st _ _ _ hU hN ?_ ?_
          · intro e he hpm
            exact alookup_aset_of_none _ hfound (hA e he hpm)
          · intro hpm
            show alookup (aset cs.st.pmidMap pmid cs.st.next) (clean pmid) = some cs.st.next
            rw [htf, alookup_aset_self]
      | none =>
        have hcand : (if normalizeDoi ((alookup summaries pmid).getD emptySummary).doi
              ≠ "" then
            match alookup cs.st.doiMap
              (normalizeDoi ((alookup summaries pmid).getD emptySummary).doi) with
            | some j =>
              match lookupRow cs.st.store j with
              | some cnd =>
                if clean cnd.pmid ≠ "" ∧ clean cnd.pmid ≠ pmid then none
                else some (j, cnd)
              | none => none
            | none => none
          else none) = none := by
          rw [if_pos hdoi]
          simp only [hdm]
        rw [phaseCStep_st_insert th summaries m cs pmid hseen hfound hcand]
        refine stInsert_inv cs.st _ _ _ hU hN ?_ ?_
        · intro e he hpm
          exact alookup_aset_of_none _ hfound (hA e he hpm)
        · intro hpm
          show alookup (aset cs.st.pmidMap pmid cs.st.next) (clean pmid) = some cs.st.next
          rw [htf, alookup_aset_self]
    · have hcand : (if normalizeDoi ((alookup summaries pmid).getD emptySummary).doi
            ≠ "" then
          match alookup cs.st.doiMap
            (normalizeDoi ((alookup summaries pmid).getD emptySummary).doi) with
          | some j =>
            match lookupRow cs.st.store j with
            | some cnd =>
              if clean cnd.pmid ≠ "" ∧ clean cnd.pmid ≠ pmid then none
              else some (j, cnd)
            | none => none
          | none => none
        else none) = none := by
        rw [if_neg hdoi]
      rw [phaseCStep_st_insert th summaries m cs pmid hseen hfound hcand]
      refine stInsert_inv cs.st _ _ _ hU hN ?_ ?_
      · intro e he hpm
        exact alookup_aset_of_none _ hfound (hA e he hpm)
      · intro hpm
        show alookup (aset cs.st.pmidMap pmid cs.st.next) (clean pmid) = some cs.st.next
        rw [htf, alookup_aset_self]

theorem doiOnlyStep_inv (dwp : List String) (st : St) (doi : String)
    (hU : ∀ e ∈ st.store, e.1 < st.next)
    (hN : (st.store.map Prod.fst).Nodup)
    (hA : ∀ e ∈ st.store, clean e.2.pmid ≠ "" →
      alookup st.pmidMap (clean e.2.pmid) = some e.1) :
    (∀ e ∈ (doiOnlyStep dwp st doi).store, e.1 < (doiOnlyStep dwp st doi).next) ∧
    (((doiOnlyStep dwp st doi).store.map Prod.fst).Nodup) ∧
    (∀ e ∈ (doiOnlyStep dwp st doi).store, clean e.2.pmid ≠ "" →
      alookup (doiOnlyStep dwp st doi).pmidMap (clean e.2.pmid) = some e.1) := by
  by_cases h1 : doi = ""
  · have heq : doiOnlyStep dwp st doi = st := by simp only [doiOnlyStep, if_pos h1]
    rw [heq]
    exact ⟨hU, hN, hA⟩
  by_cases h2 : doi ∈ dwp
  · have heq : doiOnlyStep dwp st doi = st := by
      simp only [doiOnlyStep, if_neg h1, if_pos h2]
    rw [heq]
    exact ⟨hU, hN, hA⟩
  cases hdm : alookup st.doiMap doi with
  | some i =>
    cases hrow : lookupRow st.store i with
    | none =>
      have heq : doiOnlyStep dwp st doi = st := by
        simp only [doiOnlyStep, if_neg h1, if_neg h2, hdm, hrow]
      rw [heq]
      exact ⟨hU, hN, hA⟩
    | some ex =>
      by_cases hflag : strLower (strTrim ex.isFullMatch) ≠ "yes"
      · have heq : doiOnlyStep dwp st doi =
            { st with store := setRow st.store i { ex with isFullMatch := "yes" } } := by
          simp only [doiOnlyStep, if_neg h1, if_neg h2, hdm, hrow, if_pos hflag]
        rw [heq]
        refine stSet_inv st i _ st.pmidMap st.doiMap hU hN hA ?_ ⟨ex, lookupRow_mem hrow⟩
        intro hpm
        have hupd : ({ ex with isFullMatch := "yes" } : Pub).pmid = ex.pmid := rfl
        rw [hupd] at hpm ⊢
        exact hA (i, ex) (lookupRow_mem hrow) hpm
      · have heq : doiOnlyStep dwp st doi = st := by
          simp only [doiOnlyStep, if_neg h1, if_neg h2, hdm, hrow, if_neg hflag]
        rw [heq]
        exact ⟨hU, hN, hA⟩
  | none =>
    have heq : doiOnlyStep dwp st doi = { st with
        store := st.store ++ [(st.next,
          { pmid := "", doi := doi, publicationDate := "NA", publicationTitle := "NA",
            journal := "NA", matchMethod := "doi_reference",
            confidence := publicationMethodConfidence "doi_reference", isFullMatch := "yes" })],
        doiMap := aset st.doiMap doi st.next,
        next := st.next + 1 } := by
      simp only [doiOnlyStep, if_neg h1, if_neg h2, hdm]
    rw [heq]
    refine stInsert_inv st _ st.pmidMap _ hU hN hA ?_
    intro hpm
    exact absurd rfl hpm

theorem phaseCFold_inv (th : Int) (summaries : List (String × Summary))
    (m : List (String × String × Int)) (pmids : List String) (cs : CState)
    (hkeys : ∀ pm ∈ pmids, clean pm = pm)
    (hU : ∀ e ∈ cs.st.store, e.1 < cs.st.next)
    (hN : (cs.st.store.map Prod.fst).Nodup)
    (hA : ∀ e ∈ cs.st.store, clean e.2.pmid ≠ "" →
      alookup cs.st.pmidMap (clean e.2.pmid) = some e.1) :
    (∀ e ∈ (pmids.foldl (phaseCStep th summaries m) cs).st.store,
      e.1 < (pmids.foldl (phaseCStep th summaries m) cs).st.next) ∧
    (((pmids.foldl (phaseCStep th summaries m) cs).st.store.map Prod.fst).Nodup) ∧
    (∀ e ∈ (pmids.foldl (phaseCStep th summaries m) cs).st.store, clean e.2.pmid ≠ "" →
      alookup (pmids.foldl (phaseCStep th summaries m) cs).st.pmidMap
        (clean e.2.pmid) = some e.1) := by
  induction pmids generalizing cs with
  | nil => exact ⟨hU, hN, hA⟩
  | cons a tl ih =>
    simp only [List.foldl_cons]
    obtain ⟨g1, g2, g3⟩ := phaseCStep_inv th summaries m cs a
      (hkeys a (List.mem_cons_self a tl)) hU hN hA
    exact ih (phaseCStep th summaries m cs a)
      (fun pm h => hkeys pm (List.mem_cons_of_mem a h)) g1 g2 g3

theorem doiFold_inv (dwp : List String) (dois : List String) (st : St)
    (hU : ∀ e ∈ st.store, e.1 < st.next)
    (hN : (st.store.map Prod.fst).Nodup)
    (hA : ∀ e ∈ st.store, clean e.2.pmid ≠ "" →
      alookup st.pmidMap (clean e.2.pmid) = some e.1) :
    (∀ e ∈ (dois.foldl (doiOnlyStep dwp) st).store,
      e.1 < (dois.foldl (doiOnlyStep dwp) st).next) ∧
    (((dois.foldl (doiOnlyStep dwp) st).store.map Prod.fst).Nodup) ∧
    (∀ e ∈ (dois.foldl (doiOnlyStep dwp) st).store, clean e.2.pmid ≠ "" →
      alookup (dois.foldl (doiOnlyStep dwp) st).pmidMap (clean e.2.pmid) = some e.1) := by
  induction dois generalizing st with
  | nil => exact ⟨hU, hN, hA⟩
  | cons a tl ih =>
    simp only [List.foldl_cons]
    obtain ⟨g1, g2, g3⟩ := doiOnlyStep_inv dwp st a hU hN hA
    exact ih (doiOnlyStep dwp st a) g1 g2 g3

theorem mem_fst_aset {κ β : Type} [DecidableEq κ] (l : List (κ × β)) (k : κ) (v : β) (x : κ)
    (hx : x ∈ (aset l k v).map Prod.fst) : x ∈ l.map Prod.fst ∨ x = k := by
  induction l with
  | nil =>
    simp [aset] at hx
    exact Or.inr hx
  | cons e rest ih =>
    by_cases he : e.1 = k
    · rw [aset_cons, if_pos he, List.map_cons] at hx
      rcases List.mem_cons.mp hx with h | h
      · exact Or.inr h
      · exact Or.inl (by rw [List.map_cons]; exact List.mem_cons_of_mem _ h)
    · rw [aset_cons, if_neg he, List.map_cons] at hx
      rcases List.mem_cons.mp hx with h | h
      · exact Or.inl (by rw [List.map_cons, h]; exact List.mem_cons_self _ _)
      · rcases ih h with h2 | h2
        · exact Or.inl (by rw [List.map_cons]; exact List.mem_cons_of_mem _ h2)
        · exact Or.inr h2

theorem mem_fst_assignMethod (m : List (String × String × Int)) (pmid method : String)
    (c : Option Int) (x : String)
    (hx : x ∈ (assignMethod m pmid method c).map Prod.fst) :
    x ∈ m.map Prod.fst ∨ x = pmid := by
  unfold assignMethod at hx
  cases h : alookup m pmid with
  | none =>
    simp only [h] at hx
    exact mem_fst_aset _ _ _ _ hx
  | some cur =>
    cases c with
    | none =>
      simp only [h] at hx
      by_cases hlt : cur.2 < publicationMethodConfidence method
      · rw [if_pos hlt] at hx
        exact mem_fst_aset _ _ _ _ hx
      · rw [if_neg hlt] at hx
        exact Or.inl hx
    | some cv =>
      simp only [h] at hx
      by_cases hlt : cur.2 < cv
      · rw [if_pos hlt] at hx
        exact mem_fst_aset _ _ _ _ hx
      · rw [if_neg hlt] at hx
        exact Or.inl hx

theorem mem_fst_assignFold (props : List (String × String × Option Int))
    (m0 : List (String × String × Int)) (x : String)
    (hx : x ∈ (assignFold props m0).map Prod.fst) :
    x ∈ m0.map Prod.fst ∨ ∃ pr ∈ props, x = pr.1 := by
  induction props generalizing m0 with
  | nil => exact Or.inl hx
  | cons pr tl ih =>
    rw [assignFold_cons] at hx
    rcases ih _ hx with h | h
    · rcases mem_fst_assignMethod _ _ _ _ _ h with h2 | h2
      · exact Or.inl h2
      · exact Or.inr ⟨pr, List.mem_cons_self pr tl, h2⟩
    · rcases h with ⟨pr2, hpr2, hx2⟩
      exact Or.inr ⟨pr2, List.mem_cons_of_mem pr hpr2, hx2⟩

theorem runScan_keys (inp : ScanInput)
    (hseed : ∀ pr ∈ inp.seedProposals, clean pr.1 = pr.1)
    (hfuzzy : ∀ c ∈ inp.fuzzyCands, clean c.1 = c.1) :
    ∀ pm ∈ (((if (assignFold inp.seedProposals []).isEmpty ∧ 0 < inp.maxTitleLookups then
        fuzzyFold inp.trialTitle inp.summaries inp.fuzzyCands (assignFold inp.seedProposals [])
      else assignFold inp.seedProposals []).map Prod.fst).take inp.maxLinks),
      clean pm = pm := by
  intro pm hmem
  have hmem2 := List.mem_of_mem_take hmem
  by_cases hif : (assignFold inp.seedProposals []).isEmpty ∧ 0 < inp.maxTitleLookups
  · rw [if_pos hif] at hmem2
    rw [fuzzyFold_eq_assignFold] at hmem2
    rcases mem_fst_assignFold _ _ _ hmem2 with h | ⟨pr, hpr, hx⟩
    · rcases mem_fst_assignFold _ _ _ h with h2 | ⟨pr, hpr, hx⟩
      · simp at h2
      · rw [hx]
        exact hseed pr hpr
    · rcases List.mem_filterMap.mp hpr with ⟨c, hc, hfc⟩
      by_cases hb : belowFuzzyFloor (effectiveSimilarity inp.trialTitle inp.summaries c) = true
      · rw [if_pos hb] at hfc
        exact absurd hfc (by simp)
      · rw [if_neg hb] at hfc
        have hinj : (c.1, "title_fuzzy",
            some (fuzzyConfidence (effectiveSimilarity inp.trialTitle inp.summaries c))) =
            pr := by
          injection hfc
        have h3 : pr.1 = c.1 := by rw [← hinj]
        rw [hx, h3]
        exact hfuzzy c hc
  · rw [if_neg hif] at hmem2
    rcases mem_fst_assignFold _ _ _ hmem2 with h2 | ⟨pr, hpr, hx⟩
    · simp at h2
    · rw [hx]
      exact hseed pr hpr

theorem runScan_inv (inp : ScanInput) (st : St)
    (hseed : ∀ pr ∈ inp.seedProposals, clean pr.1 = pr.1)
    (hfuzzy : ∀ c ∈ inp.fuzzyCands, clean c.1 = c.1)
    (hU : ∀ e ∈ st.store, e.1 < st.next)
    (hN : (st.store.map Prod.fst).Nodup)
    (hA : ∀ e ∈ st.store, clean e.2.pmid ≠ "" →
      alookup st.pmidMap (clean e.2.pmid) = some e.1) :
    (∀ e ∈ (runScan inp st).store, e.1 < (runScan inp st).next) ∧
    (((runScan inp st).store.map Prod.fst).Nodup) ∧
    (∀ e ∈ (runScan inp st).store, clean e.2.pmid ≠ "" →
      alookup (runScan inp st).pmidMap (clean e.2.pmid) = some e.1) := by
  have hC := phaseCFold_inv inp.threshold inp.summaries
    (if (assignFold inp.seedProposals []).isEmpty ∧ 0 < inp.maxTitleLookups then
      fuzzyFold inp.trialTitle inp.summaries inp.fuzzyCands (assignFold inp.seedProposals [])
     else assignFold inp.seedProposals [])
    (((if (assignFold inp.seedProposals []).isEmpty ∧ 0 < inp.maxTitleLookups then
        fuzzyFold inp.trialTitle inp.summaries inp.fuzzyCands (assignFold inp.seedProposals [])
      else assignFold inp.seedProposals []).map Prod.fst).take inp.maxLinks)
    (CState.mk st (inp.rawDois0.foldl insertOnce [])
      (((existingRows st).filterMap
        (fun p => if clean p.pmid ≠ "" ∧ normalizeDoi p.doi ≠ "" then
          some (normalizeDoi p.doi) else none)).foldl insertOnce [])
      [])
    (runScan_keys inp hseed hfuzzy) hU hN hA
  simp only [runScan]
  exact doiFold_inv _ _ _ hC.1 hC.2.1 hC.2.2

theorem fullTrialPass_inv (sched : SchedInput) (inp : ScanInput) (incr : Bool)
    (pubs : List Pub)
    (hseed : ∀ pr ∈ inp.seedProposals, clean pr.1 = pr.1)
    (hfuzzy : ∀ c ∈ inp.fuzzyCands, clean c.1 = c.1) :
    (∀ e ∈ (fullTrialPass sched inp incr pubs).1.store,
      e.1 < (fullTrialPass sched inp incr pubs).1.next) ∧
    (((fullTrialPass sched inp incr pubs).1.store.map Prod.fst).Nodup) ∧
    (∀ e ∈ (fullTrialPass sched inp incr pubs).1.store, clean e.2.pmid ≠ "" →
      alookup (fullTrialPass sched inp incr pubs).1.pmidMap (clean e.2.pmid) = some e.1) := by
  obtain ⟨hU, hN, hA, _⟩ := phaseAB_inv inp.threshold pubs
  simp only [fullTrialPass]
  split_ifs with h
  · exact ⟨hU, hN, hA⟩
  · exact runScan_inv inp (phaseAB inp.threshold pubs) hseed hfuzzy hU hN hA

theorem store_pairwise (S : List (Nat × Pub)) (M : List (String × Nat))
    (hN : (S.map Prod.fst).Nodup)
    (hA : ∀ e ∈ S, clean e.2.pmid ≠ "" → alookup M (clean e.2.pmid) = some e.1) :
    S.Pairwise (fun e1 e2 => ¬ (clean e1.2.pmid = clean e2.2.pmid ∧ clean e1.2.pmid ≠ "" ∧
      normalizeDoi e1.2.doi = normalizeDoi e2.2.doi ∧ normalizeDoi e1.2.doi ≠ "")) := by
  induction S with
  | nil => exact List.Pairwise.nil
  | cons e S2 ih =>
    rw [List.map_cons, List.nodup_cons] at hN
    refine List.Pairwise.cons ?_ (ih hN.2 (fun e2 h2 hk => hA e2 (List.mem_cons_of_mem e h2) hk))
    rintro e2 he2 ⟨hkeq, hkne, _, _⟩
    have h1 := hA e (List.mem_cons_self e S2) hkne
    have hk2 : clean e2.2.pmid ≠ "" := by
      rw [← hkeq]
      exact hkne
    have h2 := hA e2 (List.mem_cons_of_mem e he2) hk2
    rw [← hkeq] at h2
    rw [h1] at h2
    injection h2 with hfst
    apply hN.1
    rw [hfst]
    exact List.mem_map.mpr ⟨e2, he2, rfl⟩

/-- C6: after any linkage pass, no two stored publication rows of the trial
share both the same non-empty cleaned PMID and the same non-empty normalized
DOI — in fact no two rows share the same non-empty cleaned PMID at all,
provided the PMIDs proposed by the strategies are whitespace-stripped, as the
PubMed identifiers extracted by the source are. -/
theorem c6_dedup_invariant (sched : SchedInput) (inp : ScanInput) (incr : Bool)
    (pubs : List Pub)
    (hseed : ∀ pr ∈ inp.seedProposals, clean pr.1 = pr.1)
    (hfuzzy : ∀ c ∈ inp.fuzzyCands, clean c.1 = c.1) :
    ((fullTrialPass sched inp incr pubs).1.store).Pairwise
      (fun e1 e2 => ¬ (clean e1.2.pmid = clean e2.2.pmid ∧ clean e1.2.pmid ≠ "" ∧
        normalizeDoi e1.2.doi = normalizeDoi e2.2.doi ∧ normalizeDoi e1.2.doi ≠ "")) := by
  obtain ⟨_, hN, hA⟩ := fullTrialPass_inv sched inp incr pubs hseed hfuzzy
  exact store_pairwise _ _ hN hA

/-- Witness for the C6 theorem: a pass over a trial with one stored row and one
pubmed_link proposal satisfies the stripped-PMID hypotheses, and its store
satisfies the pairwise dedup property. -/
theorem c6_witness :
    ((∀ pr ∈ ([("1", "pubmed_link", some (98 : Int))] : List (String × String × Option Int)),
        clean pr.1 = pr.1) ∧
      (∀ c ∈ ([] : List (String × ℚ)), clean c.1 = c.1)) ∧
    ((fullTrialPass ⟨none, none, 1000, 120, 30⟩
        ⟨80, 5, 0, "t", [("1", "pubmed_link", some 98)], [], [],
          ["10.1000/x", "10.1000/y"]⟩ false
        [⟨"1", "10.1000/x", "NA", "NA", "NA", "nct_exact", 92, "yes"⟩]).1.store).Pairwise
      (fun e1 e2 => ¬ (clean e1.2.pmid = clean e2.2.pmid ∧ clean e1.2.pmid ≠ "" ∧
        normalizeDoi e1.2.doi = normalizeDoi e2.2.doi ∧ normalizeDoi e1.2.doi ≠ "")) :=
  ⟨⟨by decide, by decide⟩,
    c6_dedup_invariant ⟨none, none, 1000, 120, 30⟩
      ⟨80, 5, 0, "t", [("1", "pubmed_link", some 98)], [], [], ["10.1000/x", "10.1000/y"]⟩
      false [⟨"1", "10.1000/x", "NA", "NA", "NA", "nct_exact", 92, "yes"⟩]
      (by decide) (by decide)⟩

theorem phaseA_foldl_conf (l : List (Nat × Pub)) (st : St) (D : List (Nat × Pub))
    (hD : ∀ e ∈ st.store, ∃ r0, (e.1, r0) ∈ D ∧ r0.confidence ≤ e.2.confidence)
    (hlD : ∀ q ∈ l, q ∈ D) :
    ∀ e ∈ (l.foldl phaseAStep st).store,
      ∃ r0, (e.1, r0) ∈ D ∧ r0.confidence ≤ e.2.confidence := by
  induction l generalizing st with
  | nil => exact hD
  | cons q tl ih =>
    simp only [List.foldl_cons]
    refine ih (phaseAStep st q) ?_ (fun q2 h2 => hlD q2 (List.mem_cons_of_mem q h2))
    intro e he
    cases hj : (match (if clean q.2.pmid ≠ "" then alookup st.pmidMap (clean q.2.pmid)
        else none) with
      | some j0 => some j0
      | none => if normalizeDoi q.2.doi ≠ "" then
          alookup st.doiMap (normalizeDoi q.2.doi) else none) with
    | some j =>
      cases hlr : lookupRow st.store j with
      | some prim =>
        rw [phaseAStep_found_live st q j prim hj hlr] at he
        rcases mem_setRow he with ⟨e0, he0, heq⟩
        by_cases h0 : e0.1 = j
        · rw [if_pos h0] at heq
          obtain ⟨r0, hr0, hle⟩ := hD (j, prim) (lookupRow_mem hlr)
          rw [heq]
          exact ⟨r0, hr0, le_trans hle (mergePub_confidence_ge prim q.2)⟩
        · rw [if_neg h0] at heq
          rw [heq]
          exact hD e0 he0
      | none =>
        rw [phaseAStep_found_dead st q j hj hlr] at he
        exact hD e he
    | none =>
      rw [phaseAStep_notfound st q hj] at he
      rcases List.mem_append.mp he with h1 | h1
      · exact hD e h1
      · rw [List.mem_singleton.mp h1]
        exact ⟨q.2, hlD q (List.mem_cons_self q tl), le_refl _⟩

theorem phaseA_conf (pubs : List Pub) :
    ∀ e ∈ (phaseA pubs).store,
      ∃ r0, (e.1, r0) ∈ pubs.enum ∧ r0.confidence ≤ e.2.confidence := by
  refine phaseA_foldl_conf pubs.enum (initSt pubs.length) pubs.enum ?_ (fun q h => h)
  intro e he
  simp [initSt] at he

theorem phaseAB_lookup (th : Int) (pubs : List Pub) (i : Nat) :
    lookupRow (phaseAB th pubs).store i =
      if i ∈ uniqueIds (phaseA pubs) then
        (lookupRow (phaseA pubs).store i).map (recomputeFlag th)
      else lookupRow (phaseA pubs).store i := by
  have hEq : phaseAB th pubs = (uniqueIds (phaseA pubs)).foldl
      (fun s j => match lookupRow s.store j with
        | some p => { s with store := setRow s.store j (recomputeFlag th p) }
        | none => s) (phaseA pubs) := rfl
  rw [hEq]
  exact phaseBFold_lookup th (uniqueIds (phaseA pubs)) (phaseA pubs) i (firstDedup_nodup _)

theorem scanFinal_fill_conf_ge (ex : Pub) (summary : Summary) (pd d : String)
    (method : String) (c : Int) (fv : String) (b : Int) (hb : b = ex.confidence) :
    ex.confidence ≤ (scanFinal (decide (b ≤ c)) method c fv
      (scanFill summary pd d ex)).confidence := by
  rw [scanFinal_confidence, scanFill_confidence, hb]
  by_cases hle : ex.confidence ≤ c
  · rw [if_pos (decide_eq_true hle)]
    exact hle
  · rw [if_neg (by simp [hle])]

theorem lookupRow_singleton_ne (n : Nat) (p : Pub) (i : Nat) (h : n ≠ i) :
    lookupRow [(n, p)] i = none := by
  rw [lookupRow_cons, if_neg h]
  rfl

theorem phaseCStep_mono (th : Int) (summaries : List (String × Summary))
    (m : List (String × String × Int)) (cs : CState) (pmid : String) :
    (∀ i r0, lookupRow cs.st.store i = some r0 →
      ∃ r1, lookupRow (phaseCStep th summaries m cs pmid).st.store i = some r1 ∧
        r0.confidence ≤ r1.confidence) ∧
    (∀ i, i < cs.st.next → lookupRow cs.st.store i = none →
      lookupRow (phaseCStep th summaries m cs pmid).st.store i = none) ∧
    cs.st.next ≤ (phaseCStep th summaries m cs pmid).st.next := by
  by_cases hseen : pmid ∈ cs.seen
  · rw [phaseCStep_seen th summaries m cs pmid hseen]
    exact ⟨fun i r0 h => ⟨r0, h, le_refl _⟩, fun i _ h => h, le_refl _⟩
  cases hfound : alookup cs.st.pmidMap pmid with
  | some i2 =>
    cases hrow : lookupRow cs.st.store i2 with
    | some ex =>
      rw [phaseCStep_st_found_live th summaries m cs pmid i2 ex hseen hfound hrow]
      simp only [St_mk_store, St_mk_next]
      refine ⟨?_, ?_, le_refl _⟩
      · intro i r0 hcur
        by_cases hii : i = i2
        · subst hii
          rw [hcur] at hrow
          injection hrow with hex
          refine ⟨_, lookupRow_setRow_self _ hcur, ?_⟩
          rw [hex]
          exact scanFinal_fill_conf_ge ex _ _ _ _ _ _ ex.confidence rfl
        · refine ⟨r0, ?_, le_refl _⟩
          rw [lookupRow_setRow_ne _ hii]
          exact hcur
      · intro i hi hcur
        by_cases hii : i = i2
        · rw [hii] at hcur
          rw [hcur] at hrow
          exact absurd hrow (by simp)
        · rw [lookupRow_setRow_ne _ hii]
          exact hcur
    | none =>
      rw [phaseCStep_st_found_dead th summaries m cs pmid i2 hseen hfound hrow]
      exact ⟨fun i r0 h => ⟨r0, h, le_refl _⟩, fun i _ h => h, le_refl _⟩
  | none =>
    by_cases hdoi : normalizeDoi ((alookup summaries pmid).getD emptySummary).doi ≠ ""
    · cases hdm : alookup cs.st.doiMap
          (normalizeDoi ((alookup summaries pmid).getD emptySummary).doi) with
      | some j =>
        cases hrj : lookupRow cs.st.store j with
        | some cnd =>
          by_cases hguard : clean cnd.pmid ≠ "" ∧ clean cnd.pmid ≠ pmid
          · have hcand : (if normalizeDoi ((alookup summaries pmid).getD emptySummary).doi
                  ≠ "" then
                match alookup cs.st.doiMap
                  (normalizeDoi ((alookup summaries pmid).getD emptySummary).doi) with
                | some j =>
                  match lookupRow cs.st.store j with
                  | some cnd =>
                    if clean cnd.pmid ≠ "" ∧ clean cnd.pmid ≠ pmid then none
                    else some (j, cnd)
                  | none => none
                | none => none
              else none) = none := by
              rw [if_pos hdoi]
              simp only [hdm, hrj, if_pos hguard]
            rw [phaseCStep_st_insert th summaries m cs pmid hseen hfound hcand]
            simp only [St_mk_store, St_mk_next]
            refine ⟨fun i r0 h => ⟨r0, lookupRow_append_left h, le_refl _⟩, ?_, Nat.le_succ _⟩
            intro i hi hcur
            rw [lookupRow_append_right hcur]
            exact lookupRow_singleton_ne _ _ _ (ne_of_gt hi)
          · rw [phaseCStep_st_cand th summaries m cs pmid j cnd hseen hfound hdoi hdm hrj
              hguard]
            simp only [St_mk_store, St_mk_next]
            refine ⟨?_, ?_, le_refl _⟩
            · intro i r0 hcur
              by_cases hii : i = j
              · subst hii
                rw [hcur] at hrj
                injection hrj with hex
                refine ⟨_, lookupRow_setRow_self _ hcur, ?_⟩
                rw [hex]
                have hcc : (if clean cnd.pmid = "" then { cnd with pmid := pmid }
                    else cnd).confidence = cnd.confidence := by
                  split_ifs <;> rfl
                have hge := scanFinal_fill_conf_ge
                  (if clean cnd.pmid = "" then { cnd with pmid := pmid } else cnd)
                  ((alookup summaries pmid).getD emptySummary)
                  ((alookup summaries pmid).getD emptySummary).pubDate
                  (normalizeDoi ((alookup summaries pmid).getD emptySummary).doi)
                  ((alookup m pmid).getD ("title_fuzzy", 70)).1
                  ((alookup m pmid).getD ("title_fuzzy", 70)).2
                  (if isFullPublicationMatch ((alookup m pmid).getD ("title_fuzzy", 70)).1
                    ((alookup m pmid).getD ("title_fuzzy", 70)).2 th then "yes" else "no")
                  (if clean cnd.pmid = "" then { cnd with pmid := pmid }
                    else cnd).confidence rfl
                exact hcc.symm.le.trans hge
              · refine ⟨r0, ?_, le_refl _⟩
                rw [lookupRow_setRow_ne _ hii]
                exact hcur
            · intro i hi hcur
              by_cases hii : i = j
              · rw [hii] at hcur
                rw [hcur] at hrj
                exact absurd hrj (by simp)
              · rw [lookupRow_setRow_ne _ hii]
                exact hcur
        | none =>
          have hcand : (if normalizeDoi ((alookup summaries pmid).getD emptySummary).doi
                ≠ "" then
              match alookup cs.st.doiMap
                (normalizeDoi ((alookup summaries pmid).getD emptySummary).doi) with
              | some j =>
                match lookupRow cs.st.store j with
                | some cnd =>
                  if clean cnd.pmid ≠ "" ∧ clean cnd.pmid ≠ pmid then none
                  else some (j, cnd)
                | none => none
              | none => none
            else none) = none := by
            rw [if_pos hdoi]
            simp only [hdm, hrj]
          rw [phaseCStep_st_insert th summaries m cs pmid hseen hfound hcand]
          simp only [St_mk_store, St_mk_next]
          refine ⟨fun i r0 h => ⟨r0, lookupRow_append_left h, le_refl _⟩, ?_, Nat.le_succ _⟩
          intro i hi hcur
          rw [lookupRow_append_right hcur]
          exact lookupRow_singleton_ne _ _ _ (ne_of_gt hi)
      | none =>
        have hcand : (if normalizeDoi ((alookup summaries pmid).getD emptySummary).doi
              ≠ "" then
            match alookup cs.st.doiMap
              (normalizeDoi ((alookup summaries pmid).getD emptySummary).doi) with
            | some j =>
              match lookupRow cs.st.store j with
              | some cnd =>
                if clean cnd.pmid ≠ "" ∧ clean cnd.pmid ≠ pmid then none
                else some (j, cnd)
              | none => none
            | none => none
          else none) = none := by
          rw [if_pos hdoi]
          simp only [hdm]
        rw [phaseCStep_st_insert th summaries m cs pmid hseen hfound hcand]
        simp only [St_mk_store, St_mk_next]
        refine ⟨fun i r0 h => ⟨r0, lookupRow_append_left h, le_refl _⟩, ?_, Nat.le_succ _⟩
        intro i hi hcur
        rw [lookupRow_append_right hcur]
        exact lookupRow_singleton_ne _ _ _ (ne_of_gt hi)
    · have hcand : (if normalizeDoi ((alookup summaries pmid).getD emptySummary).doi
            ≠ "" then
          match alookup cs.st.doiMap
            (normalizeDoi ((alookup summaries pmid).getD emptySummary).doi) with
          | some j =>
            match lookupRow cs.st.store j with
            | some cnd =>
              if clean cnd.pmid ≠ "" ∧ clean cnd.pmid ≠ pmid then none
              else some (j, cnd)
            | none => none
          | none => none
        else none) = none := by
        rw [if_neg hdoi]
      rw [phaseCStep_st_insert th summaries m cs pmid hseen hfound hcand]
      simp only [St_mk_store, St_mk_next]
      refine ⟨fun i r0 h => ⟨r0, lookupRow_append_left h, le_refl _⟩, ?_, Nat.le_succ _⟩
      intro i hi hcur
      rw [lookupRow_append_right hcur]
      exact lookupRow_singleton_ne _ _ _ (ne_of_gt hi)

theorem doiOnlyStep_mono (dwp : List String) (st : St) (doi : String) :
    (∀ i r0, lookupRow st.store i = some r0 →
      ∃ r1, lookupRow (doiOnlyStep dwp st doi).store i = some r1 ∧
        r0.confidence ≤ r1.confidence) ∧
    (∀ i, i < st.next → lookupRow st.store i = none →
      lookupRow (doiOnlyStep dwp st doi).store i = none) ∧
    st.next ≤ (doiOnlyStep dwp st doi).next := by
  by_cases h1 : doi = ""
  · have heq : doiOnlyStep dwp st doi = st := by simp only [doiOnlyStep, if_pos h1]
    rw [heq]
    exact ⟨fun i r0 h => ⟨r0, h, le_refl _⟩, fun i _ h => h, le_refl _⟩
  by_cases h2 : doi ∈ dwp
  · have heq : doiOnlyStep dwp st doi = st := by
      simp only [doiOnlyStep, if_neg h1, if_pos h2]
    rw [heq]
    exact ⟨fun i r0 h => ⟨r0, h, le_refl _⟩, fun i _ h => h, le_refl _⟩
  cases hdm : alookup st.doiMap doi with
  | some i2 =>
    cases hrow : lookupRow st.store i2 with
    | none =>
      have heq : doiOnlyStep dwp st doi = st := by
        simp only [doiOnlyStep, if_neg h1, if_neg h2, hdm, hrow]
      rw [heq]
      exact ⟨fun i r0 h => ⟨r0, h, le_refl _⟩, fun i _ h => h, le_refl _⟩
    | some ex =>
      by_cases hflag : strLower (strTrim ex.isFullMatch) ≠ "yes"
      · have heq : doiOnlyStep dwp st doi =
            { st with store := setRow st.store i2 { ex with isFullMatch := "yes" } } := by
          simp only [doiOnlyStep, if_neg h1, if_neg h2, hdm, hrow, if_pos hflag]
        rw [heq]
        refine ⟨?_, ?_, le_refl _⟩
        · intro i r0 hcur
          by_cases hii : i = i2
          · subst hii
            rw [hcur] at hrow
            injection hrow with hex
            refine ⟨_, lookupRow_setRow_self _ hcur, ?_⟩
            rw [hex]
          · refine ⟨r0, ?_, le_refl _⟩
            rw [lookupRow_setRow_ne _ hii]
            exact hcur
        · intro i hi hcur
          by_cases hii : i = i2
          · rw [hii] at hcur
            rw [hcur] at hrow
            exact absurd hrow (by simp)
          · rw [lookupRow_setRow_ne _ hii]
            exact hcur
      · have heq : doiOnlyStep dwp st doi = st := by
          simp only [doiOnlyStep, if_neg h1, if_neg h2, hdm, hrow, if_neg hflag]
        rw [heq]
        exact ⟨fun i r0 h => ⟨r0, h, le_refl _⟩, fun i _ h => h, le_refl _⟩
  | none =>
    have heq : doiOnlyStep dwp st doi = { st with
        store := st.store ++ [(st.next,
          { pmid := "", doi := doi, publicationDate := "NA", publicationTitle := "NA",
            journal := "NA", matchMethod := "doi_reference",
            confidence := publicationMethodConfidence "doi_reference", isFullMatch := "yes" })],
        doiMap := aset st.doiMap doi st.next,
        next := st.next + 1 } := by
      simp only [doiOnlyStep, if_neg h1, if_neg h2, hdm]
    rw [heq]
    refine ⟨fun i r0 h => ⟨r0, lookupRow_append_left h, le_refl _⟩, ?_, Nat.le_succ _⟩
    intro i hi hcur
    rw [lookupRow_append_right hcur]
    exact lookupRow_singleton_ne _ _ _ (ne_of_gt hi)

theorem phaseCFold_mono (th : Int) (summaries : List (String × Summary))
    (m : List (String × String × Int)) (pmids : List String) (cs : CState) :
    (∀ i r0, lookupRow cs.st.store i = some r0 →
      ∃ r1, lookupRow ((pmids.foldl (phaseCStep th summaries m) cs).st.store) i = some r1 ∧
        r0.confidence ≤ r1.confidence) ∧
    (∀ i, i < cs.st.next → lookupRow cs.st.store i = none →
      lookupRow ((pmids.foldl (phaseCStep th summaries m) cs).st.store) i = none) ∧
    cs.st.next ≤ (pmids.foldl (phaseCStep th summaries m) cs).st.next := by
  induction pmids generalizing cs with
  | nil => exact ⟨fun i r0 h => ⟨r0, h, le_refl _⟩, fun i _ h => h, le_refl _⟩
  | cons a tl ih =>
    simp only [List.foldl_cons]
    obtain ⟨s1, s2, s3⟩ := phaseCStep_mono th summaries m cs a
    obtain ⟨t1, t2, t3⟩ := ih (phaseCStep th summaries m cs a)
    refine ⟨?_, ?_, le_trans s3 t3⟩
    · intro i r0 h
      obtain ⟨r1, h1, hle1⟩ := s1 i r0 h
      obtain ⟨r2, h2, hle2⟩ := t1 i r1 h1
      exact ⟨r2, h2, le_trans hle1 hle2⟩
    · intro i hi h
      exact t2 i (lt_of_lt_of_le hi s3) (s2 i hi h)

theorem doiFold_mono (dwp : List String) (dois : List String) (st : St) :
    (∀ i r0, lookupRow st.store i = some r0 →
      ∃ r1, lookupRow ((dois.foldl (doiOnlyStep dwp) st).store) i = some r1 ∧
        r0.confidence ≤ r1.confidence) ∧
    (∀ i, i < st.next → lookupRow st.store i = none →
      lookupRow ((dois.foldl (doiOnlyStep dwp) st).store) i = none) ∧
    st.next ≤ (dois.foldl (doiOnlyStep dwp) st).next := by
  induction dois generalizing st with
  | nil => exact ⟨fun i r0 h => ⟨r0, h, le_refl _⟩, fun i _ h => h, le_refl _⟩
  | cons a tl ih =>
    simp only [List.foldl_cons]
    obtain ⟨s1, s2, s3⟩ := doiOnlyStep_mono dwp st a
    obtain ⟨t1, t2, t3⟩ := ih (doiOnlyStep dwp st a)
    refine ⟨?_, ?_, le_trans s3 t3⟩
    · intro i r0 h
      obtain ⟨r1, h1, hle1⟩ := s1 i r0 h
      obtain ⟨r2, h2, hle2⟩ := t1 i r1 h1
      exact ⟨r2, h2, le_trans hle1 hle2⟩
    · intro i hi h
      exact t2 i (lt_of_lt_of_le hi s3) (s2 i hi h)

theorem runScan_mono (inp : ScanInput) (st : St) :
    (∀ i r0, lookupRow st.store i = some r0 →
      ∃ r1, lookupRow (runScan inp st).store i = some r1 ∧
        r0.confidence ≤ r1.confidence) ∧
    (∀ i, i < st.next → lookupRow st.store i = none →
      lookupRow (runScan inp st).store i = none) := by
  have hC := phaseCFold_mono inp.threshold inp.summaries
    (if (assignFold inp.seedProposals []).isEmpty ∧ 0 < inp.maxTitleLookups then
      fuzzyFold inp.trialTitle inp.summaries inp.fuzzyCands (assignFold inp.seedProposals [])
     else assignFold inp.seedProposals [])
    (((if (assignFold inp.seedProposals []).isEmpty ∧ 0 < inp.maxTitleLookups then
        fuzzyFold inp.trialTitle inp.summaries inp.fuzzyCands (assignFold inp.seedProposals [])
      else assignFold inp.seedProposals []).map Prod.fst).take inp.maxLinks)
    (CState.mk st (inp.rawDois0.foldl insertOnce [])
      (((existingRows st).filterMap
        (fun p => if clean p.pmid ≠ "" ∧ normalizeDoi p.doi ≠ "" then
          some (normalizeDoi p.doi) else none)).foldl insertOnce [])
      [])
  obtain ⟨s1, s2, s3⟩ := hC
  simp only [runScan]
  constructor
  · intro i r0 h
    obtain ⟨r1, h1, hle1⟩ := s1 i r0 h
    obtain ⟨r2, h2, hle2⟩ := (doiFold_mono _ _ _).1 i r1 h1
    exact ⟨r2, h2, le_trans hle1 hle2⟩
  · intro i hi h
    exact (doiFold_mono _ _ _).2.1 i (lt_of_lt_of_le hi s3) (s2 i hi h)

/-- C1 amended: within one linkage pass over a trial, the stored confidence of
every surviving row never decreases — deduplication merges keep the maximum
confidence, flag re-derivation preserves confidence, and the scan only
overwrites a row's confidence when the new evidence is at least as strong; the
full-match flag, however, is not monotone (see the counterexample). -/
theorem c1_confidence_monotonic (sched : SchedInput) (inp : ScanInput) (incr : Bool)
    (pubs : List Pub) (i : Nat) (r0 r1 : Pub)
    (h0 : (i, r0) ∈ pubs.enum)
    (h1 : lookupRow (fullTrialPass sched inp incr pubs).1.store i = some r1) :
    r0.confidence ≤ r1.confidence := by
  have hij : i < pubs.length := by
    have h2 : i ∈ pubs.enum.map Prod.fst := List.mem_map.mpr ⟨(i, r0), h0, rfl⟩
    rw [List.enum_map_fst] at h2
    exact List.mem_range.mp h2
  have hnextAB : (phaseAB inp.threshold pubs).next = pubs.length :=
    (phaseAB_inv inp.threshold pubs).2.2.2
  have hennd : (pubs.enum.map Prod.fst).Nodup := by
    rw [List.enum_map_fst]
    exact List.nodup_range _
  have key : ∀ pB, lookupRow (phaseAB inp.threshold pubs).store i = some pB →
      r0.confidence ≤ pB.confidence := by
    intro pB hB
    rw [phaseAB_lookup] at hB
    by_cases hmem : i ∈ uniqueIds (phaseA pubs)
    · rw [if_pos hmem] at hB
      cases hp : lookupRow (phaseA pubs).store i with
      | none =>
        rw [hp] at hB
        exact absurd hB (by simp)
      | some pA =>
        rw [hp, Option.map_some'] at hB
        injection hB with hBe
        obtain ⟨r02, hr02, hle⟩ := phaseA_conf pubs (i, pA) (lookupRow_mem hp)
        have e1 := mem_alookup hennd hr02
        have e2 := mem_alookup hennd h0
        rw [e2] at e1
        injection e1 with he
        rw [← hBe, recomputeFlag_confidence]
        rw [← he] at hle
        exact hle
    · rw [if_neg hmem] at hB
      obtain ⟨r02, hr02, hle⟩ := phaseA_conf pubs (i, pB) (lookupRow_mem hB)
      have e1 := mem_alookup hennd hr02
      have e2 := mem_alookup hennd h0
      rw [e2] at e1
      injection e1 with he
      rw [← he] at hle
      exact hle
  simp only [fullTrialPass] at h1
  split_ifs at h1 with hskip
  · exact key r1 h1
  · have h1b : lookupRow (runScan inp (phaseAB inp.threshold pubs)).store i = some r1 := h1
    cases hB : lookupRow (phaseAB inp.threshold pubs).store i with
    | some pB =>
      obtain ⟨r1b, hr1b, hleb⟩ := (runScan_mono inp (phaseAB inp.threshold pubs)).1 i pB hB
      rw [h1b] at hr1b
      injection hr1b with hre
      refine le_trans (key pB hB) ?_
      rw [hre]
      exact hleb
    | none =>
      have hnone := (runScan_mono inp (phaseAB inp.threshold pubs)).2 i
        (by rw [hnextAB]; exact hij) hB
      rw [h1b] at hnone
      exact absurd hnone (by simp)

/-- Witness for the amended C1 theorem: the stored row of the C1 counterexample
keeps its confidence 85 through the pass that downgraded its flag. -/
theorem c1_witness :
    ((0, (⟨"1", "", "NA", "NA", "NA", "title_fuzzy", 85, "yes"⟩ : Pub)) ∈
        ([⟨"1", "", "NA", "NA", "NA", "title_fuzzy", 85, "yes"⟩] : List Pub).enum ∧
      lookupRow (fullTrialPass ⟨none, none, 1000, 120, 30⟩
        ⟨80, 5, 0, "t", [("1", "title_fuzzy", some 50)], [], [], []⟩ false
        [⟨"1", "", "NA", "NA", "NA", "title_fuzzy", 85, "yes"⟩]).1.store 0 =
        some ⟨"1", "", "NA", "NA", "NA", "title_fuzzy", 85, "no"⟩) ∧
    (Pub.confidence ⟨"1", "", "NA", "NA", "NA", "title_fuzzy", 85, "yes"⟩ ≤
      Pub.confidence ⟨"1", "", "NA", "NA", "NA", "title_fuzzy", 85, "no"⟩) :=
  ⟨⟨by decide, by decide⟩,
    c1_confidence_monotonic ⟨none, none, 1000, 120, 30⟩
      ⟨80, 5, 0, "t", [("1", "title_fuzzy", some 50)], [], [], []⟩ false
      [⟨"1", "", "NA", "NA", "NA", "title_fuzzy", 85, "yes"⟩] 0
      ⟨"1", "", "NA", "NA", "NA", "title_fuzzy", 85, "yes"⟩
      ⟨"1", "", "NA", "NA", "NA", "title_fuzzy", 85, "no"⟩
      (by decide) (by decide)⟩

theorem alookup_removeKey_self {κ β : Type} [DecidableEq κ] (l : List (κ × β)) (k : κ) :
    alookup (removeKey l k) k = none := by
  induction l with
  | nil => rfl
  | cons e rest ih =>
    by_cases he : e.1 = k
    · have : removeKey (e :: rest) k = removeKey rest k := by
        simp [removeKey, List.filter_cons, he]
      rw [this, ih]
    · have : removeKey (e :: rest) k = e :: removeKey rest k := by
        simp [removeKey, List.filter_cons, he]
      rw [this, alookup_cons, if_neg he, ih]

theorem alookup_removeKey_ne {κ β : Type} [DecidableEq κ] (l : List (κ × β)) (k k' : κ)
    (h : k' ≠ k) : alookup (removeKey l k) k' = alookup l k' := by
  induction l with
  | nil => rfl
  | cons e rest ih =>
    by_cases he : e.1 = k
    · have hrw : removeKey (e :: rest) k = removeKey rest k := by
        simp [removeKey, List.filter_cons, he]
      rw [hrw, alookup_cons, if_neg (fun hk : e.1 = k' => h (hk ▸ he ▸ rfl))]
      exact ih
    · have hrw : removeKey (e :: rest) k = e :: removeKey rest k := by
        simp [removeKey, List.filter_cons, he]
      rw [hrw, alookup_cons, alookup_cons]
      by_cases he' : e.1 = k'
      · rw [if_pos he', if_pos he']
      · rw [if_neg he', if_neg he', ih]

theorem alookup_removeKey_none {κ β : Type} [DecidableEq κ] (l : List (κ × β)) (k k' : κ)
    (h : alookup l k' = none) : alookup (removeKey l k) k' = none := by
  by_cases hk : k' = k
  · rw [hk]
    exact alookup_removeKey_self l k
  · rw [alookup_removeKey_ne l k k' hk]
    exact h

theorem removeKey_map_fst_nodup {κ β : Type} [DecidableEq κ] (l : List (κ × β)) (k : κ)
    (h : (l.map Prod.fst).Nodup) : ((removeKey l k).map Prod.fst).Nodup :=
  h.sublist ((List.filter_sublist l).map Prod.fst)

theorem aset_map_fst_of_found {κ β : Type} [DecidableEq κ] (l : List (κ × β)) (k : κ)
    (v v0 : β) (h : alookup l k = some v0) : (aset l k v).map Prod.fst = l.map Prod.fst := by
  induction l with
  | nil => simp [alookup] at h
  | cons e rest ih =>
    by_cases he : e.1 = k
    · rw [aset_cons, if_pos he, List.map_cons, List.map_cons, he]
    · rw [alookup_cons, if_neg he] at h
      rw [aset_cons, if_neg he, List.map_cons, List.map_cons, ih h]

theorem mergeTrialInto_source (us eu : Trial) (euId : String) :
    (mergeTrialInto us eu euId).source = "clinicaltrials.gov+ctis" := rfl

theorem mergeCtisStep_skip (db : DB) (euId : String) (eu : Trial)
    (heu : alookup db.trials euId = some eu)
    (h : strTrim eu.secondaryId = "" ∨ alookup db.trials (strTrim eu.secondaryId) = none ∨
      strTrim eu.secondaryId = euId) :
    mergeCtisStep db euId = (db, false) := by
  by_cases hn : strTrim eu.secondaryId = ""
  · simp only [mergeCtisStep, heu, if_pos hn]
  cases hus : alookup db.trials (strTrim eu.secondaryId) with
  | none => simp only [mergeCtisStep, heu, if_neg hn, hus]
  | some us =>
    have hself : strTrim eu.secondaryId = euId := by
      rcases h with h | h | h
      · exact absurd h hn
      · rw [h] at hus
        exact absurd hus (by simp)
      · exact h
    simp only [mergeCtisStep, heu, if_neg hn, hus, if_pos hself]

theorem mergeCtisStep_cases (db : DB) (euId : String) :
    mergeCtisStep db euId = (db, false) ∨
    ∃ eu us, alookup db.trials euId = some eu ∧
      strTrim eu.secondaryId ≠ "" ∧
      alookup db.trials (strTrim eu.secondaryId) = some us ∧
      strTrim eu.secondaryId ≠ euId ∧
      (mergeCtisStep db euId).1.trials =
        removeKey (aset db.trials (strTrim eu.secondaryId)
          (mergeTrialInto us eu euId)) euId ∧
      (mergeCtisStep db euId).2 = true ∧
      alookup (mergeCtisStep db euId).1.trials euId = none := by
  cases heu : alookup db.trials euId with
  | none => exact Or.inl (by simp only [mergeCtisStep, heu])
  | some eu =>
    by_cases hn : strTrim eu.secondaryId = ""
    · exact Or.inl (by simp only [mergeCtisStep, heu, if_pos hn])
    cases hus : alookup db.trials (strTrim eu.secondaryId) with
    | none => exact Or.inl (by simp only [mergeCtisStep, heu, if_neg hn, hus])
    | some us =>
      by_cases hself : strTrim eu.secondaryId = euId
      · exact Or.inl (by simp only [mergeCtisStep, heu, if_neg hn, hus, if_pos hself])
      · have hres : (mergeCtisStep db euId).1.trials =
            removeKey (aset db.trials (strTrim eu.secondaryId)
              (mergeTrialInto us eu euId)) euId := by
          simp only [mergeCtisStep, heu, if_neg hn, hus, if_neg hself]
        have hres2 : (mergeCtisStep db euId).2 = true := by
          simp only [mergeCtisStep, heu, if_neg hn, hus, if_neg hself]
        refine Or.inr ⟨eu, us, rfl, hn, hus, hself, hres, hres2, ?_⟩
        rw [hres]
        exact alookup_removeKey_self _ _

theorem mergeCtisStep_shrink (db : DB) (euId k : String)
    (h : alookup db.trials k = none) :
    alookup (mergeCtisStep db euId).1.trials k = none := by
  rcases mergeCtisStep_cases db euId with heq | ⟨eu, us, heu, hn, hus, hself, hres, _, _⟩
  · rw [heq]
    exact h
  · rw [hres]
    have hkn : k ≠ strTrim eu.secondaryId := by
      intro hk
      rw [hk] at h
      rw [h] at hus
      exact absurd hus (by simp)
    refine alookup_removeKey_none _ _ _ ?_
    rw [alookup_aset_ne _ _ _ _ hkn]
    exact h

theorem mergeCtisStep_back_ctis (db : DB) (euId k : String) (t : Trial)
    (h : alookup (mergeCtisStep db euId).1.trials k = some t)
    (hsrc : t.source = "ctis") :
    alookup db.trials k = some t := by
  rcases mergeCtisStep_cases db euId with heq | ⟨eu, us, heu, hn, hus, hself, hres, _, _⟩
  · rw [heq] at h
    exact h
  · rw [hres] at h
    by_cases hk : k = euId
    · rw [hk, alookup_removeKey_self] at h
      exact absurd h (by simp)
    · rw [alookup_removeKey_ne _ _ _ hk] at h
      by_cases hk2 : k = strTrim eu.secondaryId
      · rw [hk2, alookup_aset_self] at h
        injection h with ht
        rw [← ht, mergeTrialInto_source] at hsrc
        exact absurd hsrc (by decide)
      · rw [alookup_aset_ne _ _ _ _ hk2] at h
        exact h

theorem mergeCtisStep_nodup (db : DB) (euId : String)
    (h : (db.trials.map Prod.fst).Nodup) :
    ((mergeCtisStep db euId).1.trials.map Prod.fst).Nodup := by
  rcases mergeCtisStep_cases db euId with heq | ⟨eu, us, heu, hn, hus, hself, hres, _, _⟩
  · rw [heq]
    exact h
  · rw [hres]
    refine removeKey_map_fst_nodup _ _ ?_
    rw [aset_map_fst_of_found _ _ _ us hus]
    exact h

theorem mergeCtisStep_self (db : DB) (euId : String) (eu : Trial)
    (heu : alookup db.trials euId = some eu) :
    ((strTrim eu.secondaryId = "" ∨ alookup db.trials (strTrim eu.secondaryId) = none ∨
        strTrim eu.secondaryId = euId) ∧ mergeCtisStep db euId = (db, false)) ∨
    alookup (mergeCtisStep db euId).1.trials euId = none := by
  by_cases hn : strTrim eu.secondaryId = ""
  · exact Or.inl ⟨Or.inl hn, mergeCtisStep_skip db euId eu heu (Or.inl hn)⟩
  cases hus : alookup db.trials (strTrim eu.secondaryId) with
  | none => exact Or.inl ⟨Or.inr (Or.inl rfl),
      mergeCtisStep_skip db euId eu heu (Or.inr (Or.inl hus))⟩
  | some us =>
    by_cases hself : strTrim eu.secondaryId = euId
    · exact Or.inl ⟨Or.inr (Or.inr hself),
        mergeCtisStep_skip db euId eu heu (Or.inr (Or.inr hself))⟩
    · rcases mergeCtisStep_cases db euId with heq | ⟨eu2, us2, heu2, _, _, _, _, _, hnone⟩
      · exfalso
        have hres2 : (mergeCtisStep db euId).2 = true := by
          simp only [mergeCtisStep, heu, if_neg hn, hus, if_neg hself]
        rw [heq] at hres2
        exact Bool.false_ne_true hres2
      · exact Or.inr hnone

theorem mergeCtisOverlaps_eq (db : DB) :
    mergeCtisOverlaps db = (ctisCandidates db).foldl
      (fun acc euId =>
        let r := mergeCtisStep acc.1 euId
        (r.1, acc.2 + (if r.2 then 1 else 0))) (db, 0) := rfl

theorem foldMerge_shrink (l : List String) (acc : DB × Nat) (k : String)
    (h : alookup acc.1.trials k = none) :
    alookup ((l.foldl (fun acc euId =>
      let r := mergeCtisStep acc.1 euId
      (r.1, acc.2 + (if r.2 then 1 else 0))) acc).1.trials) k = none := by
  induction l generalizing acc with
  | nil => exact h
  | cons a tl ih =>
    simp only [List.foldl_cons]
    exact ih _ (mergeCtisStep_shrink acc.1 a k h)

theorem foldMerge_back_ctis (l : List String) (acc : DB × Nat) (k : String) (t : Trial)
    (h : alookup ((l.foldl (fun acc euId =>
      let r := mergeCtisStep acc.1 euId
      (r.1, acc.2 + (if r.2 then 1 else 0))) acc).1.trials) k = some t)
    (hsrc : t.source = "ctis") :
    alookup acc.1.trials k = some t := by
  induction l generalizing acc with
  | nil => exact h
  | cons a tl ih =>
    simp only [List.foldl_cons] at h
    exact mergeCtisStep_back_ctis acc.1 a k t (ih _ h) hsrc

theorem foldMerge_nodup (l : List String) (acc : DB × Nat)
    (h : (acc.1.trials.map Prod.fst).Nodup) :
    (((l.foldl (fun acc euId =>
      let r := mergeCtisStep acc.1 euId
      (r.1, acc.2 + (if r.2 then 1 else 0))) acc).1.trials).map Prod.fst).Nodup := by
  induction l generalizing acc with
  | nil => exact h
  | cons a tl ih =>
    simp only [List.foldl_cons]
    exact ih _ (mergeCtisStep_nodup acc.1 a h)

theorem foldMerge_eu_skipped (l : List String) (acc : DB × Nat) (euId : String) (eu : Trial)
    (hmem : euId ∈ l)
    (hfinal : alookup ((l.foldl (fun acc euId =>
      let r := mergeCtisStep acc.1 euId
      (r.1, acc.2 + (if r.2 then 1 else 0))) acc).1.trials) euId = some eu)
    (hsrc : eu.source = "ctis") :
    ∃ dbM : DB, alookup dbM.trials euId = some eu ∧
      mergeCtisStep dbM euId = (dbM, false) ∧
      (strTrim eu.secondaryId = "" ∨ alookup dbM.trials (strTrim eu.secondaryId) = none ∨
        strTrim eu.secondaryId = euId) ∧
      (∀ k, alookup dbM.trials k = none →
        alookup ((l.foldl (fun acc euId =>
          let r := mergeCtisStep acc.1 euId
          (r.1, acc.2 + (if r.2 then 1 else 0))) acc).1.trials) k = none) := by
  obtain ⟨l1, l2, hl⟩ := List.append_of_mem hmem
  subst hl
  rw [List.foldl_append, List.foldl_cons] at hfinal ⊢
  have hmid2 : alookup ((mergeCtisStep (l1.foldl (fun acc euId =>
      let r := mergeCtisStep acc.1 euId
      (r.1, acc.2 + (if r.2 then 1 else 0))) acc).1 euId).1.trials) euId = some eu :=
    foldMerge_back_ctis l2 _ euId eu hfinal hsrc
  have hmid : alookup ((l1.foldl (fun acc euId =>
      let r := mergeCtisStep acc.1 euId
      (r.1, acc.2 + (if r.2 then 1 else 0))) acc).1.trials) euId = some eu :=
    mergeCtisStep_back_ctis _ euId euId eu hmid2 hsrc
  rcases mergeCtisStep_self (l1.foldl (fun acc euId =>
      let r := mergeCtisStep acc.1 euId
      (r.1, acc.2 + (if r.2 then 1 else 0))) acc).1 euId eu hmid with ⟨hconds, hskipeq⟩ | hgone
  · refine ⟨_, hmid, hskipeq, hconds, ?_⟩
    intro k hk
    refine foldMerge_shrink l2 _ k ?_
    show alookup ((mergeCtisStep (l1.foldl (fun acc euId =>
      let r := mergeCtisStep acc.1 euId
      (r.1, acc.2 + (if r.2 then 1 else 0))) acc).1 euId).1.trials) k = none
    rw [hskipeq]
    exact hk
  · exfalso
    have hgone2 : alookup (((fun acc euId =>
        let r := mergeCtisStep acc.1 euId
        (r.1, acc.2 + (if r.2 then 1 else 0))) (l1.foldl (fun acc euId =>
          let r := mergeCtisStep acc.1 euId
          (r.1, acc.2 + (if r.2 then 1 else 0))) acc) euId).1.trials) euId = none := hgone
    have hnonefinal := foldMerge_shrink l2 _ euId hgone2
    rw [hfinal] at hnonefinal
    exact absurd hnonefinal (by simp)

theorem foldMerge_inert (l : List String) (db : DB) (n : Nat)
    (h : ∀ x ∈ l, mergeCtisStep db x = (db, false)) :
    l.foldl (fun acc euId =>
      let r := mergeCtisStep acc.1 euId
      (r.1, acc.2 + (if r.2 then 1 else 0))) (db, n) = (db, n) := by
  induction l generalizing n with
  | nil => rfl
  | cons a tl ih =>
    have ha := h a (List.mem_cons_self a tl)
    simp only [List.foldl_cons, ha, Bool.false_eq_true, if_false, Nat.add_zero]
    exact ih n (fun x hx => h x (List.mem_cons_of_mem a hx))

theorem mergeCtis_pass2_inert (db : DB) (hnd : (db.trials.map Prod.fst).Nodup)
    (euId : String) (hmem : euId ∈ ctisCandidates (mergeCtisOverlaps db).1) :
    mergeCtisStep (mergeCtisOverlaps db).1 euId = ((mergeCtisOverlaps db).1, false) := by
  unfold ctisCandidates at hmem
  rcases List.mem_map.mp hmem with ⟨kv, hkvf, hfst⟩
  have hprops := (List.mem_filter.mp hkvf).2
  rw [Bool.and_eq_true] at hprops
  have hsrc : kv.2.source = "ctis" := eq_of_beq hprops.1
  have hnd2 : (((mergeCtisOverlaps db).1.trials).map Prod.fst).Nodup := by
    rw [mergeCtisOverlaps_eq]
    exact foldMerge_nodup _ _ hnd
  have hkvmem : kv ∈ (mergeCtisOverlaps db).1.trials := List.mem_of_mem_filter hkvf
  have hkveta : (euId, kv.2) ∈ (mergeCtisOverlaps db).1.trials := by
    have heta : (euId, kv.2) = kv := by
      rw [← hfst]
    rw [heta]
    exact hkvmem
  have hlook : alookup (mergeCtisOverlaps db).1.trials euId = some kv.2 :=
    mem_alookup hnd2 hkveta
  have hlook2 : alookup (((ctisCandidates db).foldl (fun acc euId =>
      let r := mergeCtisStep acc.1 euId
      (r.1, acc.2 + (if r.2 then 1 else 0))) (db, 0)).1.trials) euId = some kv.2 := by
    rw [← mergeCtisOverlaps_eq]
    exact hlook
  have h0 : alookup db.trials euId = some kv.2 :=
    foldMerge_back_ctis (ctisCandidates db) (db, 0) euId kv.2 hlook2 hsrc
  have hmem0 : euId ∈ ctisCandidates db := by
    unfold ctisCandidates
    refine List.mem_map.mpr ⟨(euId, kv.2), List.mem_filter.mpr ⟨alookup_mem h0, ?_⟩, rfl⟩
    rw [Bool.and_eq_true]
    refine ⟨?_, hprops.2⟩
    rw [hsrc]
    rfl
  obtain ⟨dbM, hMlook, hMskip, hMconds, hMshrink⟩ :=
    foldMerge_eu_skipped (ctisCandidates db) (db, 0) euId kv.2 hmem0 hlook2 hsrc
  refine mergeCtisStep_skip (mergeCtisOverlaps db).1 euId kv.2 hlook ?_
  rcases hMconds with h | h | h
  · exact Or.inl h
  · refine Or.inr (Or.inl ?_)
    have hfin := hMshrink (strTrim kv.2.secondaryId) h
    rw [← mergeCtisOverlaps_eq] at hfin
    exact hfin
  · exact Or.inr (Or.inr h)

/-- C7: the reconciliation pass is idempotent — running merge_ctis_overlaps a
second time on a store already processed by a first pass merges nothing (the
counter is zero) and returns every canonical trial record and its details
byte-identical, because every surviving ctis-origin candidate was skipped by
the first pass and its skip condition (empty, unresolvable, or self-referential
target) is preserved by the pass, while merged rows lose the ctis source tag. -/
theorem c7_merge_idempotent (db : DB) (hnd : (db.trials.map Prod.fst).Nodup) :
    mergeCtisOverlaps (mergeCtisOverlaps db).1 = ((mergeCtisOverlaps db).1, 0) := by
  rw [mergeCtisOverlaps_eq ((mergeCtisOverlaps db).1)]
  exact foldMerge_inert _ _ 0 (fun x hx => mergeCtis_pass2_inert db hnd x hx)

/-- Witness for the C7 theorem: a store with one registry row and one ctis row
pointing at it has distinct keys, and a second reconciliation pass over the
once-merged store returns it unchanged with a zero counter. -/
theorem c7_witness :
    ((([("NCT1", (⟨"clinicaltrials.gov", "NA", "l1", "Sp", "RECRUITING", "INTERVENTIONAL",
          "PHASE2", "NA", "NA", "NA", "NA", "no", "NA", "2024-01-01", "NA", "NA"⟩ : Trial)),
        ("EU1", (⟨"ctis", "NCT1", "l2", "Sp", "RECRUITING", "INTERVENTIONAL",
          "PHASE2", "NA", "NA", "NA", "NA", "no", "NA", "2024-02-01", "NA", "NA"⟩ : Trial))] :
        List (String × Trial)).map Prod.fst).Nodup) ∧
    mergeCtisOverlaps (mergeCtisOverlaps ⟨[("NCT1", ⟨"clinicaltrials.gov", "NA", "l1", "Sp",
        "RECRUITING", "INTERVENTIONAL", "PHASE2", "NA", "NA", "NA", "NA", "no", "NA",
        "2024-01-01", "NA", "NA"⟩),
      ("EU1", ⟨"ctis", "NCT1", "l2", "Sp", "RECRUITING", "INTERVENTIONAL", "PHASE2", "NA",
        "NA", "NA", "NA", "no", "NA", "2024-02-01", "NA", "NA"⟩)], []⟩).1 =
      ((mergeCtisOverlaps ⟨[("NCT1", ⟨"clinicaltrials.gov", "NA", "l1", "Sp", "RECRUITING",
        "INTERVENTIONAL", "PHASE2", "NA", "NA", "NA", "NA", "no", "NA", "2024-01-01", "NA",
        "NA"⟩),
      ("EU1", ⟨"ctis", "NCT1", "l2", "Sp", "RECRUITING", "INTERVENTIONAL", "PHASE2", "NA",
        "NA", "NA", "NA", "no", "NA", "2024-02-01", "NA", "NA"⟩)], []⟩).1, 0) :=
  ⟨by decide,
    c7_merge_idempotent ⟨[("NCT1", ⟨"clinicaltrials.gov", "NA", "l1", "Sp", "RECRUITING",
        "INTERVENTIONAL", "PHASE2", "NA", "NA", "NA", "NA", "no", "NA", "2024-01-01", "NA",
        "NA"⟩),
      ("EU1", ⟨"ctis", "NCT1", "l2", "Sp", "RECRUITING", "INTERVENTIONAL", "PHASE2", "NA",
        "NA", "NA", "NA", "no", "NA", "2024-02-01", "NA", "NA"⟩)], []⟩ (by decide)⟩

/-- C9: a record whose secondary identifier is blank after stripping, resolves
to no stored record, or resolves to the record itself is left entirely
unchanged by its reconciliation step — the store is returned as-is, the row is
still present and its details table is untouched, and nothing is counted as
merged. -/
theorem c9_unresolvable_untouched (db : DB) (euId : String) (eu : Trial)
    (heu : alookup db.trials euId = some eu)
    (h : strTrim eu.secondaryId = "" ∨ alookup db.trials (strTrim eu.secondaryId) = none ∨
      strTrim eu.secondaryId = euId) :
    mergeCtisStep db euId = (db, false) ∧
    alookup (mergeCtisStep db euId).1.trials euId = some eu ∧
    (mergeCtisStep db euId).1.details = db.details := by
  have hs := mergeCtisStep_skip db euId eu heu h
  refine ⟨hs, ?_, ?_⟩
  · rw [hs]
    exact heu
  · rw [hs]

/-- Witness for the C9 theorem: a single ctis row whose secondary identifier
NCT9 resolves to nothing is returned untouched by its reconciliation step. -/
theorem c9_witness :
    (alookup (⟨[("EU1", ⟨"ctis", "NCT9", "l", "Sp", "RECRUITING", "INTERVENTIONAL",
          "PHASE2", "NA", "NA", "NA", "NA", "no", "NA", "2024-02-01", "NA", "NA"⟩)], []⟩ :
        DB).trials "EU1" = some ⟨"ctis", "NCT9", "l", "Sp", "RECRUITING", "INTERVENTIONAL",
          "PHASE2", "NA", "NA", "NA", "NA", "no", "NA", "2024-02-01", "NA", "NA"⟩ ∧
      alookup (⟨[("EU1", ⟨"ctis", "NCT9", "l", "Sp", "RECRUITING", "INTERVENTIONAL",
          "PHASE2", "NA", "NA", "NA", "NA", "no", "NA", "2024-02-01", "NA", "NA"⟩)], []⟩ :
        DB).trials (strTrim (Trial.secondaryId ⟨"ctis", "NCT9", "l", "Sp", "RECRUITING",
          "INTERVENTIONAL", "PHASE2", "NA", "NA", "NA", "NA", "no", "NA", "2024-02-01",
          "NA", "NA"⟩)) = none) ∧
    (mergeCtisStep ⟨[("EU1", ⟨"ctis", "NCT9", "l", "Sp", "RECRUITING", "INTERVENTIONAL",
        "PHASE2", "NA", "NA", "NA", "NA", "no", "NA", "2024-02-01", "NA", "NA"⟩)], []⟩
        "EU1" =
      (⟨[("EU1", ⟨"ctis", "NCT9", "l", "Sp", "RECRUITING", "INTERVENTIONAL", "PHASE2",
        "NA", "NA", "NA", "NA", "no", "NA", "2024-02-01", "NA", "NA"⟩)], []⟩, false) ∧
      alookup (mergeCtisStep ⟨[("EU1", ⟨"ctis", "NCT9", "l", "Sp", "RECRUITING",
          "INTERVENTIONAL", "PHASE2", "NA", "NA", "NA", "NA", "no", "NA", "2024-02-01",
          "NA", "NA"⟩)], []⟩ "EU1").1.trials "EU1" =
        some ⟨"ctis", "NCT9", "l", "Sp", "RECRUITING", "INTERVENTIONAL", "PHASE2", "NA",
          "NA", "NA", "NA", "no", "NA", "2024-02-01", "NA", "NA"⟩ ∧
      (mergeCtisStep ⟨[("EU1", ⟨"ctis", "NCT9", "l", "Sp", "RECRUITING", "INTERVENTIONAL",
          "PHASE2", "NA", "NA", "NA", "NA", "no", "NA", "2024-02-01", "NA", "NA"⟩)], []⟩
          "EU1").1.details =
        (⟨[("EU1", ⟨"ctis", "NCT9", "l", "Sp", "RECRUITING", "INTERVENTIONAL", "PHASE2",
          "NA", "NA", "NA", "NA", "no", "NA", "2024-02-01", "NA", "NA"⟩)], []⟩ :
          DB).details) :=
  ⟨⟨by decide, by decide⟩,
    c9_unresolvable_untouched
      ⟨[("EU1", ⟨"ctis", "NCT9", "l", "Sp", "RECRUITING", "INTERVENTIONAL", "PHASE2", "NA",
        "NA", "NA", "NA", "no", "NA", "2024-02-01", "NA", "NA"⟩)], []⟩ "EU1"
      ⟨"ctis", "NCT9", "l", "Sp", "RECRUITING", "INTERVENTIONAL", "PHASE2", "NA", "NA",
        "NA", "NA", "no", "NA", "2024-02-01", "NA", "NA"⟩
      (by decide) (Or.inr (Or.inl (by decide)))⟩
